import Mathlib

/-!
Form validation and submission (`src/index.js`).

A shallow embedding of the `Validator`, `FormController` and
`ContainerController` classes of `src/index.js`, and the properties of
their behaviour.

Modelling conventions.

* A JavaScript string is the list of its UTF-16 code units (`JSString`);
  `utf16` turns a Lean string literal into that list.  Regular expressions
  without the `u` flag, `split('')` and `trim` all work on code units.
* Objects used as dictionaries (`config`, `this.types`, the data snapshot)
  are association lists of their own enumerable properties, in enumeration
  order.  They are ordinary objects, so a read of a name they do not own
  finds the member of `Object.prototype` of that name, if there is one
  (`objectPrototype`, `inherited`); `Validator.validate` is modelled with
  these reads.  The values of a snapshot are strings, those of a
  configuration are strings or arrays of strings.  The rules of a
  `FormController` are taken to have no own property `hasOwnProperty` or
  `__proto__` (with the first the constructor throws).
* A regular-expression literal is a term of `RE`; `RegExp.test` is decided
  by Brzozowski derivatives, which accept exactly the strings for which the
  backtracking matcher finds a match (the patterns of the source have no
  back-references or look-around, so greedy and lazy quantifiers accept the
  same strings).
* The stored validation result is a value (`Validator`), except where the
  question is what a caller reaches through the values `getErrors` returns:
  there the arrays and objects are kept by reference (`Heap`,
  `HeapValidator`), and `heap_validate_spec` relates the two.
-/

namespace MyForm

/-! ## Strings -/

/-- A JavaScript string: its UTF-16 code units. -/
abbrev JSString := List Nat

/-- UTF-16 encoding of one code point. -/
def utf16Char (c : Char) : List Nat :=
  if c.toNat < 65536 then [c.toNat]
  else [55296 + (c.toNat - 65536) / 1024, 56320 + (c.toNat - 65536) % 1024]

/-- UTF-16 encoding of the characters of a string. -/
def utf16Chars : List Char → JSString
  | [] => []
  | c :: cs => utf16Char c ++ utf16Chars cs

/-- The JavaScript string written as the Lean literal `s`. -/
def utf16 (s : String) : JSString := utf16Chars s.data

/-- Code units removed by `String.prototype.trim`: ECMAScript `WhiteSpace`
and `LineTerminator`. -/
def isTrimUnit (c : Nat) : Bool :=
  c == 9 || c == 10 || c == 11 || c == 12 || c == 13 || c == 32 || c == 160 ||
  c == 5760 || (8192 ≤ c && c ≤ 8202) || c == 8232 || c == 8233 || c == 8239 ||
  c == 8287 || c == 12288 || c == 65279

/-- Removes leading white space. -/
def trimStart : JSString → JSString
  | [] => []
  | c :: cs => if isTrimUnit c then trimStart cs else c :: cs

/-- Removes trailing white space. -/
def trimEnd : JSString → JSString
  | [] => []
  | c :: cs =>
    match trimEnd cs with
    | [] => if isTrimUnit c then [] else [c]
    | r :: rs => c :: r :: rs

/-- The method `String.prototype.trim`. -/
def trim (s : JSString) : JSString := trimEnd (trimStart s)

/-- The method `String.prototype.split(sep)` for a one-unit separator. -/
def split (sep : Nat) : JSString → List JSString
  | [] => [[]]
  | c :: cs =>
    if c = sep then [] :: split sep cs
    else
      match split sep cs with
      | [] => [[c]]
      | p :: ps => (c :: p) :: ps

/-- The call `split('')`: one string per code unit. -/
def splitUnits (s : JSString) : List JSString := s.map fun c => [c]

/-! ## Regular expressions -/

/-- Abstract syntax of the regular expressions used in the source. -/
inductive RE where
  /-- matches nothing -/
  | never : RE
  /-- matches the empty string -/
  | empty : RE
  /-- one code unit satisfying `p`: a literal, a class or `.` -/
  | unit (p : Nat → Bool) : RE
  /-- concatenation -/
  | seq (a b : RE) : RE
  /-- alternation -/
  | alt (a b : RE) : RE
  /-- zero or more repetitions, `r*` -/
  | star (a : RE) : RE

namespace RE

/-- The literal code unit `c`. -/
def lit (c : Nat) : RE := unit fun x => x == c

/-- One or more repetitions, `r+` (and the lazy `r+?`, which accepts the same
strings). -/
def plus (r : RE) : RE := seq r (star r)

/-- An optional item, `r?`. -/
def opt (r : RE) : RE := alt r empty

/-- Exactly `n` repetitions, `r{n}`. -/
def rep (r : RE) : Nat → RE
  | 0 => empty
  | n + 1 => seq r (rep r n)

/-- Does `r` match the empty string? -/
def nullable : RE → Bool
  | never => false
  | empty => true
  | unit _ => false
  | seq a b => a.nullable && b.nullable
  | alt a b => a.nullable || b.nullable
  | star _ => true

/-- Brzozowski derivative of `r` by the code unit `c`. -/
def deriv : RE → Nat → RE
  | never, _ => never
  | empty, _ => never
  | unit p, c => if p c then empty else never
  | seq a b, c =>
    if a.nullable then alt (seq (a.deriv c) b) (b.deriv c) else seq (a.deriv c) b
  | alt a b, c => alt (a.deriv c) (b.deriv c)
  | star a, c => seq (a.deriv c) (star a)

/-- Does `r` match the whole of `s`? -/
def accepts (r : RE) : JSString → Bool
  | [] => r.nullable
  | c :: cs => accepts (r.deriv c) cs

/-- The strings matched by `r`, as a relation. -/
inductive Matches : RE → JSString → Prop where
  | empty : Matches RE.empty []
  | unit (p : Nat → Bool) (c : Nat) : p c = true → Matches (RE.unit p) [c]
  | seq (a b : RE) (s t : JSString) : Matches a s → Matches b t → Matches (RE.seq a b) (s ++ t)
  | altL (a b : RE) (s : JSString) : Matches a s → Matches (RE.alt a b) s
  | altR (a b : RE) (s : JSString) : Matches b s → Matches (RE.alt a b) s
  | starNil (a : RE) : Matches (RE.star a) []
  | starCons (a : RE) (s t : JSString) :
      Matches a s → Matches (RE.star a) t → Matches (RE.star a) (s ++ t)

end RE

/-- The class `\w`. -/
def isWordUnit (c : Nat) : Bool :=
  (48 ≤ c && c ≤ 57) || (65 ≤ c && c ≤ 90) || c == 95 || (97 ≤ c && c ≤ 122)

/-- The class `\d`. -/
def isDigitUnit (c : Nat) : Bool := 48 ≤ c && c ≤ 57

/-- ECMAScript `LineTerminator`: the code units `.` does not match. -/
def isLineTerminator (c : Nat) : Bool :=
  c == 10 || c == 13 || c == 8232 || c == 8233

/-- An unescaped `.` (no `s` flag). -/
def isDotUnit (c : Nat) : Bool := !isLineTerminator c

/-- A regular-expression literal: its body and whether it starts with `^`
and ends with `$` (no `m` flag, so they stand for the two ends of the input). -/
structure RegExp where
  anchoredStart : Bool
  body : RE
  anchoredEnd : Bool

/-- Any run of code units: what `test` may skip on an unanchored side. -/
def anyUnits : RE := RE.star (RE.unit fun _ => true)

/-- The method `RegExp.prototype.test`: is there a match of the body somewhere in `s`,
at the start when `^` is present and up to the end when `$` is present? -/
def RegExp.test (r : RegExp) (s : JSString) : Bool :=
  (RE.seq (if r.anchoredStart then RE.empty else anyUnits)
    (RE.seq r.body (if r.anchoredEnd then RE.empty else anyUnits))).accepts s

/-- Concatenation of a list of expressions. -/
def RE.cat : List RE → RE
  | [] => RE.empty
  | [r] => r
  | r :: rs => RE.seq r (RE.cat rs)

/-! ## Number conversions used by `phoneNumberSum` -/

/-- Value of a code unit as a digit in the given radix. -/
def digitValue (radix c : Nat) : Option Nat :=
  let d : Option Nat :=
    if 48 ≤ c ∧ c ≤ 57 then some (c - 48)
    else if 97 ≤ c ∧ c ≤ 122 then some (c - 87)
    else if 65 ≤ c ∧ c ≤ 90 then some (c - 55)
    else none
  d.filter fun n => n < radix

/-- Value of the longest prefix of digits; `none` when there is no digit. -/
def parseDigits (radix : Nat) : JSString → Option Nat → Option Nat
  | [], acc => acc
  | c :: cs, acc =>
    match digitValue radix c with
    | none => acc
    | some d => parseDigits radix cs (some (acc.getD 0 * radix + d))

/-- An optional leading sign: whether it is `-`, and the rest. -/
def stripSign : JSString → Bool × JSString
  | 45 :: r => (true, r)
  | 43 :: r => (false, r)
  | t => (false, t)

/-- An optional leading `0x` or `0X`: the radix, and the rest. -/
def stripRadix : JSString → Nat × JSString
  | 48 :: 120 :: r => (16, r)
  | 48 :: 88 :: r => (16, r)
  | t => (10, t)

/-- The global `parseInt(s)` without a radix argument; `none` is `NaN`. -/
def parseInt (s : JSString) : Option Int :=
  let signed := stripSign (trimStart s)
  let based := stripRadix signed.2
  (parseDigits based.1 based.2 none).map fun n => if signed.1 then -(n : Int) else (n : Int)

/-- Unary plus on a string, for the strings that are white space or an
unsigned run of decimal digits between white space; `none` is `NaN` (every
other numeric literal form has a sign, a dot, an exponent, a radix prefix or
the word `Infinity`, and is not reached behind the `parseInt` guard on a
one-unit string). -/
def toNumber (s : JSString) : Option Nat :=
  match trim s with
  | [] => some 0
  | t => if t.all isDigitUnit then parseDigits 10 t none else none

/-! ## The rule registry (`this.types`) -/

/-- One entry of `this.types`. -/
structure Checker where
  validate : JSString → Bool
  errorMessage : String

/-- The class `[a-zа-яё]` under the `i` flag.  Without the `u` flag a code
unit matches when its upper-case form is the upper-case form of a member of
the class, and a unit outside ASCII never matches through an ASCII letter:
that is `A-Z`, `a-z`, `А-я` (U+0410 to U+044F), `Ё`, `ё`, and the seven
units U+1C80 to U+1C86, whose upper-case forms are `В Д О С Т Т Ъ`. -/
def fioLetter (c : Nat) : Bool :=
  (97 ≤ c && c ≤ 122) || (65 ≤ c && c ≤ 90) ||
  (1072 ≤ c && c ≤ 1103) || (1040 ≤ c && c ≤ 1071) ||
  c == 1105 || c == 1025 || (7296 ≤ c && c ≤ 7302)

/-- The literal `/^[a-zа-яё]+$/i`. -/
def fioPattern : RegExp :=
  { anchoredStart := true, body := RE.plus (RE.unit fioLetter), anchoredEnd := true }

/-- The literal `/^(\w+?.?)+\w+$/`. -/
def emailPattern : RegExp :=
  { anchoredStart := true
    body := RE.seq
      (RE.plus (RE.seq (RE.plus (RE.unit isWordUnit)) (RE.opt (RE.unit isDotUnit))))
      (RE.plus (RE.unit isWordUnit))
    anchoredEnd := true }

/-- The literal `/\+7\(\d{3}\)\d{3}-\d{2}-\d{2}/`. -/
def phonePattern : RegExp :=
  { anchoredStart := false
    body := RE.cat
      [RE.lit 43, RE.lit 55, RE.lit 40, RE.rep (RE.unit isDigitUnit) 3, RE.lit 41,
       RE.rep (RE.unit isDigitUnit) 3, RE.lit 45, RE.rep (RE.unit isDigitUnit) 2, RE.lit 45,
       RE.rep (RE.unit isDigitUnit) 2]
    anchoredEnd := false }

/-- The array `allowedDomains`. -/
def allowedDomains : List JSString :=
  [utf16 "ya.ru", utf16 "yandex.ru", utf16 "yandex.ua", utf16 "yandex.by", utf16 "yandex.kz",
   utf16 "yandex.com"]

/-- The check `fioValidate`. -/
def fioValidate : Checker where
  validate := fun val =>
    let data := (split 32 (trim val)).filter fun str => str != []
    data.length == 3 && data.all fun str => fioPattern.test str == true
  errorMessage := "ФИО должно состоять из трех слов"

/-- The check `emailValidate`. -/
def emailValidate : Checker where
  validate := fun val =>
    let parts := split 64 (trim val)
    if parts.length != 2 then false
    else if !allowedDomains.contains (parts.getD 1 []) then false
    else emailPattern.test (parts.getD 0 [])
  errorMessage := "Неверный email"

/-- The check `phoneValidate`. -/
def phoneValidate : Checker where
  validate := fun val => phonePattern.test (trim val)
  errorMessage := "Неверный формат"

/-- The reducer of `phoneNumberSum`: `sum` is `none` when it is `NaN`. -/
def sumStep (sum : Option Nat) (cur : JSString) : Option Nat :=
  if (parseInt cur).isSome then
    match sum, toNumber cur with
    | some a, some b => some (a + b)
    | _, _ => none
  else sum

/-- The check `phoneNumberSum`; `NaN > 30` is false. -/
def phoneNumberSum : Checker where
  validate := fun val =>
    let numberSum := (splitUnits val).foldl sumStep (some 0)
    if (match numberSum with | some n => decide (n > 30) | none => false) then false else true
  errorMessage := "Cумма всех цифр телефона не должна превышать 30"

/-- The object `this.types`. -/
def types : List (String × Checker) :=
  [("fioValidate", fioValidate), ("emailValidate", emailValidate),
   ("phoneValidate", phoneValidate), ("phoneNumberSum", phoneNumberSum)]

/-! ## The validator -/

deriving instance DecidableEq for Except

/-- A value of the configuration object: one check name or an array of
check names. -/
inductive ConfigEntry where
  | single (name : String) : ConfigEntry
  | many (names : List String) : ConfigEntry

/-- JavaScript truthiness of a configuration value: only the empty string is
falsy, every array is truthy. -/
def ConfigEntry.truthy : ConfigEntry → Bool
  | .single name => name != ""
  | .many _ => true

/-- The expression `typeof types === 'string' ? [types] : types`. -/
def ConfigEntry.names : ConfigEntry → List String
  | .single name => [name]
  | .many names => names

/-- The configuration object: field name to check names. -/
abbrev Config := List (String × ConfigEntry)

/-- The data object passed to `validate`: field name to value. -/
abbrev Snapshot := List (String × JSString)

/-- An element of `this.messages`. -/
structure FieldError where
  field : String
  messages : List String
  deriving DecidableEq, Repr

/-- The mutable part of a `Validator` with its configuration. -/
structure Validator where
  config : Config
  messages : List FieldError

/-- The names of the members of `Object.prototype`.  `this.types`, the
configuration and the data object are ordinary objects: reading one of these
names on an object that has no own property of the name gives the inherited
member, a function (for `__proto__` the prototype object itself), which is
truthy, is not a string, is not iterable and has no property `validate`. -/
def objectPrototype : List String :=
  ["constructor", "__defineGetter__", "__defineSetter__", "hasOwnProperty",
   "__lookupGetter__", "__lookupSetter__", "isPrototypeOf", "propertyIsEnumerable",
   "toString", "valueOf", "__proto__", "toLocaleString"]

/-- Is the name that of a member inherited from `Object.prototype`? -/
def inherited (name : String) : Bool := objectPrototype.contains name

/-- The `TypeError` of `for (type of types)` when `types` is not iterable. -/
def notIterable : String := "TypeError: types is not iterable"

/-- The `TypeError` of the call `checker.validate(data[i])` when `checker` has
no property `validate`. -/
def notAFunction : String := "TypeError: checker.validate is not a function"

/-- The `TypeError` of the call `data.hasOwnProperty(i)` when the data object
has an own property `hasOwnProperty`, whose value is a string. -/
def guardNotAFunction : String := "TypeError: data.hasOwnProperty is not a function"

/-- The loop `for (type of types)`, started with the `errors` collected so
far.  `this.types[type]` is the own property of that name; without one it is
the member of `Object.prototype` of that name, on which the call of
`validate` throws a `TypeError`, or else `undefined`, for which the loop
throws its own error. -/
def checkLoop (value : JSString) : List String → List String → Except String (List String)
  | [], errors => .ok errors
  | type :: rest, errors =>
    match types.lookup type with
    | none =>
      if inherited type then .error notAFunction
      else .error ("Нет обработчика " ++ type)
    | some checker =>
      let isValid := checker.validate value
      if !isValid then checkLoop value rest (errors ++ [checker.errorMessage])
      else checkLoop value rest errors

/-- The loop `for (let i in data)`, started with the current `this.messages`,
on a data object whose guard `data.hasOwnProperty(i)` can be called.  Returns
`this.messages` as the loop leaves it, and whether the loop completed or
threw.  The loop meets the own properties of the data object only (no member
of `Object.prototype` is enumerable), and for those `errors` is either not
read (`continue`) or reset before it is read.  `this.config[i]` is the own
property of that name; without one it is the member of `Object.prototype` of
that name, which is truthy and on which `for (type of types)` throws a
`TypeError`, or else `undefined`. -/
def fieldLoop (config : Config) :
    Snapshot → List FieldError → List FieldError × Except String Unit
  | [], messages => (messages, .ok ())
  | (i, value) :: rest, messages =>
    match config.lookup i with
    | none =>
      if inherited i then (messages, .error notIterable)
      else fieldLoop config rest messages
    | some entry =>
      if !entry.truthy then fieldLoop config rest messages
      else
        match checkLoop value entry.names [] with
        | .error e => (messages, .error e)
        | .ok errors =>
          if errors.length != 0 then
            fieldLoop config rest (messages ++ [{ field := i, messages := errors }])
          else fieldLoop config rest messages

/-- The method `Validator.hasErrors`. -/
def Validator.hasErrors (self : Validator) : Bool := self.messages.length != 0

/-- The method `Validator.getErrors`: a copy of every stored entry. -/
def Validator.getErrors (self : Validator) : List FieldError :=
  self.messages.map fun message => { field := message.field, messages := message.messages }

/-- The statements of `validate` up to the end of the loop: `this.messages`
is reset, then the loop runs.  When the data object has an own property
`hasOwnProperty`, the guard `data.hasOwnProperty(i)` of the first iteration
calls its value, a string, and throws a `TypeError`. -/
def validateLoop (config : Config) (data : Snapshot) : List FieldError × Except String Unit :=
  if data.any fun p => p.1 == "hasOwnProperty" then ([], .error guardNotAFunction)
  else fieldLoop config data []

/-- The method `Validator.validate`: the validator after the call, and the
returned value or the thrown error. -/
def Validator.validate (self : Validator) (data : Snapshot) : Validator × Except String Bool :=
  let r := validateLoop self.config data
  let self1 : Validator := { self with messages := r.1 }
  match r.2 with
  | .error e => (self1, .error e)
  | .ok () => (self1, .ok (!self1.hasErrors))

/-! ## The form controller -/

/-- A form control. -/
structure Element where
  nodeName : String
  name : String
  value : JSString
  classList : List String

/-- The value of `this.validationResult`. -/
structure ValidationResult where
  isValid : Bool
  errorFields : List String
  deriving DecidableEq, Repr

/-- A `FormController`: `elements` is `this.form.elements`, `action` is
`this.form.action`. -/
structure FormController where
  elements : List Element
  action : JSString
  rules : Config
  validator : Validator
  validationResult : Option ValidationResult

/-- The test `this.rules.hasOwnProperty(name)`. -/
def hasOwnProperty (rules : Config) (name : String) : Bool := rules.any fun p => p.1 == name

/-- The filter of the constructor. -/
def tracked (rules : Config) (elem : Element) : Bool :=
  elem.nodeName == "INPUT" && hasOwnProperty rules elem.name

/-- The array `this.formInputs`: the controller keeps references to the
elements selected by the constructor, so their current state is read here. -/
def FormController.formInputs (self : FormController) : List Element :=
  self.elements.filter (tracked self.rules)

/-- The constructor of `FormController`. -/
def FormController.new (elements : List Element) (action : JSString) (validationRules : Config) :
    FormController :=
  { elements := elements, action := action, rules := validationRules,
    validator := { config := validationRules, messages := [] }, validationResult := none }

/-- Is the property name an array index (a canonical numeric string below
`2^32 - 1`)?  Such keys are enumerated first, in ascending order. -/
def arrayIndex (k : String) : Option Nat :=
  match k.data with
  | [] => none
  | c :: cs =>
    if (c :: cs).all Char.isDigit && (c != '0' || cs.isEmpty) then
      let n := (c :: cs).foldl (fun a d => 10 * a + (d.toNat - 48)) 0
      if n < 4294967295 then some n else none
    else none

/-- Adds a new array-index property at its place among the index keys. -/
def insertIndex (n : Nat) (k : String) (v : JSString) : Snapshot → Snapshot
  | [] => [(k, v)]
  | (k1, v1) :: rest =>
    match arrayIndex k1 with
    | some m => if m < n then (k1, v1) :: insertIndex n k v rest else (k, v) :: (k1, v1) :: rest
    | none => (k, v) :: (k1, v1) :: rest

/-- The assignment `data[k] = v` on an ordinary object: an existing property
keeps its place, a new index key goes among the index keys, any other new
key goes last. -/
def setProp (data : Snapshot) (k : String) (v : JSString) : Snapshot :=
  if data.any (fun p => p.1 == k) then data.map fun p => if p.1 == k then (k, v) else p
  else
    match arrayIndex k with
    | some n => insertIndex n k v data
    | none => data ++ [(k, v)]

/-- The method `FormController.getData`. -/
def FormController.getData (self : FormController) : Snapshot :=
  self.formInputs.foldl (fun data elem => setProp data elem.name elem.value) []

/-- The method `FormController.validate`. -/
def FormController.validate (self : FormController) :
    FormController × Except String ValidationResult :=
  let r := self.validator.validate self.getData
  match r.2 with
  | .error e => ({ self with validator := r.1 }, .error e)
  | .ok _ =>
    let result : ValidationResult :=
      { isValid := !r.1.hasErrors
        errorFields := r.1.getErrors.map fun error => error.field }
    ({ self with validator := r.1, validationResult := some result }, .ok result)

/-- The call `classList.add(token)`. -/
def classAdd (classes : List String) (token : String) : List String :=
  if classes.contains token then classes else classes ++ [token]

/-- The call `classList.remove(token)`. -/
def classRemove (classes : List String) (token : String) : List String :=
  classes.filter fun c => c != token

/-- The method `FormController.showErrors`. -/
def FormController.showErrors (self : FormController) : FormController :=
  match self.validationResult with
  | none => self
  | some result =>
    if result.isValid then self
    else
      { self with
        elements := self.elements.map fun input =>
          if tracked self.rules input && result.errorFields.contains input.name then
            { input with classList := classAdd input.classList "error" }
          else input }

/-- The method `FormController.removeErrors`. -/
def FormController.removeErrors (self : FormController) : FormController :=
  { self with
    elements := self.elements.map fun elem =>
      if tracked self.rules elem && elem.classList.contains "error" then
        { elem with classList := classRemove elem.classList "error" }
      else elem }

/-! ## The result container -/

/-- A `ContainerController` with the state of its element. -/
structure ContainerController where
  status : Option String
  classList : List String
  textContent : String

/-- The method `ContainerController.clear`; the empty string is falsy. -/
def ContainerController.clear (self : ContainerController) : ContainerController :=
  match self.status with
  | none => self
  | some status =>
    if status != "" then
      { status := none, classList := classRemove self.classList status, textContent := "" }
    else self

/-- The method `ContainerController.showResult`; a missing or empty `msg`
is falsy. -/
def ContainerController.showResult (self : ContainerController) (status : String)
    (msg : Option String) : ContainerController :=
  let c := self.clear
  let c1 : ContainerController :=
    { status := some status, classList := classAdd c.classList status, textContent := c.textContent }
  match msg with
  | none => c1
  | some m => if m != "" then { c1 with textContent := m } else c1

/-! ## Submission

The page is a state (`World`) changed by `submit` and by the events the
browser delivers afterwards: a response to an outstanding `fetch`, a timer
set by `setTimeout` firing, or the user editing a field.  The global
`encodeURIComponent` is a parameter `enc`, whose value is `none` where the
global throws its `URIError`; `encodeURIComponent` below is the global as
the language defines it. -/

/-- The object decoded from a response body. -/
structure ResponseData where
  status : String
  reason : Option String
  timeout : Option Nat

/-- What an exchange started by `fetch` ends with. -/
inductive Response where
  /-- the promise of `fetch` is rejected -/
  | rejected : Response
  /-- the body does not decode to an object: the promise of `response.json()`
  is rejected, or reading `data.status` throws -/
  | malformed : Response
  /-- the body decodes to `data` -/
  | json (data : ResponseData) : Response

/-- An outstanding call of `fetch`, with the `queryString` captured by the
closure `request` that made it. -/
structure Exchange where
  queryString : JSString

/-- A pending `setTimeout(request, delay)`. -/
structure Timer where
  queryString : JSString
  delay : Option Nat

/-- The state of the page. -/
structure World where
  form : FormController
  container : ContainerController
  /-- the property `submitBtn.disabled` -/
  submitDisabled : Bool
  /-- every URL passed to `fetch` so far, oldest first -/
  requests : List JSString
  /-- the exchanges awaiting their response -/
  pending : List Exchange
  /-- the timers not yet fired -/
  timers : List Timer
  /-- number of calls of `console.error` -/
  consoleErrors : Nat

/-- The `URIError` of `encodeURIComponent` on an unpaired surrogate. -/
def uriError : String := "URIError: URI malformed"

/-- The reduction that builds `queryString` in `submit`, from the string
built so far: `name=value&` is appended for every input, both sides encoded;
`none` when `encodeURIComponent` throws. -/
def queryLoop (enc : JSString → Option JSString) : List Element → JSString → Option JSString
  | [], str => some str
  | input :: rest, str =>
    match enc (utf16 input.name) with
    | none => none
    | some name =>
      match enc input.value with
      | none => none
      | some value => queryLoop enc rest (str ++ (name ++ utf16 "=" ++ value ++ utf16 "&"))

/-- The string `queryString` built in `submit`: the reduction from the empty
string, then `slice(0, -1)`; `none` when `encodeURIComponent` throws. -/
def queryString (enc : JSString → Option JSString) (formInputs : List Element) :
    Option JSString :=
  (queryLoop enc formInputs []).map List.dropLast

/-- The closure `request` with its captured `queryString`: one call of `fetch`. -/
def request (w : World) (queryString : JSString) : World :=
  { w with
    requests := w.requests ++ [w.form.action ++ utf16 "?" ++ queryString]
    pending := w.pending ++ [{ queryString := queryString }] }

/-- The promise chain of `request` run on the outcome of its exchange. -/
def onResponse (w : World) (queryString : JSString) : Response → World
  | .rejected => { w with consoleErrors := w.consoleErrors + 1 }
  | .malformed => { w with consoleErrors := w.consoleErrors + 1 }
  | .json data =>
    if data.status == "success" then
      { w with container := w.container.showResult "success" (some "Success")
               submitDisabled := false }
    else if data.status == "error" then
      { w with container := w.container.showResult "error" data.reason
               submitDisabled := false }
    else if data.status == "progress" then
      { w with container := w.container.showResult "progress" none
               timers := w.timers ++ [{ queryString := queryString, delay := data.timeout }] }
    else w

/-- The method `FormController.submit`: the page after the call, and whether
the call returned or threw.  On valid data the trigger is disabled before
`queryString` is built, so a `URIError` thrown by `encodeURIComponent` leaves
it disabled, with no request issued. -/
def submit (enc : JSString → Option JSString) (w : World) : World × Except String Unit :=
  let r := w.form.removeErrors.validate
  match r.2 with
  | .error e => ({ w with form := r.1 }, .error e)
  | .ok validationResult =>
    if validationResult.isValid then
      let w1 : World := { w with form := r.1, submitDisabled := true }
      match queryString enc r.1.formInputs with
      | none => (w1, .error uriError)
      | some queryString => (request w1 queryString, .ok ())
    else
      ({ w with form := r.1.showErrors, container := w.container.clear }, .ok ())

/-- What happens on the page. -/
inductive Event where
  /-- the `n`-th outstanding exchange ends with `r` -/
  | response (n : Nat) (r : Response) : Event
  /-- the `n`-th pending timer fires -/
  | timeout (n : Nat) : Event
  /-- the user sets the value of the controls called `name` -/
  | input (name : String) (value : JSString) : Event
  /-- a submit request -/
  | submit : Event

/-- The page after one event; an event that names no exchange or timer
changes nothing. -/
def step (enc : JSString → Option JSString) (w : World) : Event → World
  | .response n r =>
    match w.pending.get? n with
    | none => w
    | some x => onResponse { w with pending := w.pending.eraseIdx n } x.queryString r
  | .timeout n =>
    match w.timers.get? n with
    | none => w
    | some t => request { w with timers := w.timers.eraseIdx n } t.queryString
  | .input name value =>
    { w with
      form := { w.form with
        elements := w.form.elements.map fun elem =>
          if elem.name == name then { elem with value := value } else elem } }
  | .submit => (submit enc w).1

/-- The page after a sequence of events. -/
def run (enc : JSString → Option JSString) (w : World) (events : List Event) : World :=
  events.foldl (step enc) w

/-- One round of polling: the outstanding exchange answers `progress`, then
the timer it set fires; the user may edit fields before either. -/
structure Round where
  reason : Option String
  delay : Option Nat
  editsBeforeResponse : List (String × JSString)
  editsBeforeTimeout : List (String × JSString)

/-- The user's edits as events. -/
def editEvents (edits : List (String × JSString)) : List Event :=
  edits.map fun e => Event.input e.1 e.2

/-- The `progress` response of a round. -/
def Round.response (r : Round) : Event :=
  .response 0 (.json { status := "progress", reason := r.reason, timeout := r.delay })

/-- The events of a round. -/
def Round.events (r : Round) : List Event :=
  editEvents r.editsBeforeResponse ++ [r.response] ++ editEvents r.editsBeforeTimeout ++
    [Event.timeout 0]

/-- The events of `k` rounds of polling. -/
def pollEvents : List Round → List Event
  | [] => []
  | r :: rs => r.events ++ pollEvents rs

/-- The shipped configuration `config`. -/
def config : Config :=
  [("fio", .single "fioValidate"), ("phone", .many ["phoneValidate", "phoneNumberSum"]),
   ("email", .single "emailValidate")]

/-! ## The checks as the specification words them -/

/-- A Latin letter, in either case. -/
def isLatinLetter (c : Nat) : Bool := (65 ≤ c && c ≤ 90) || (97 ≤ c && c ≤ 122)

/-- A Cyrillic letter of `а-я` or `ё`, case-insensitively: the letter in
either case, or one of the variant letter forms U+1C80 to U+1C86 whose
upper-case form is such a letter. -/
def isCyrillicLetter (c : Nat) : Bool :=
  (1040 ≤ c && c ≤ 1103) || c == 1025 || c == 1105 || (7296 ≤ c && c ≤ 7302)

/-- The tokens of a full name: the trimmed value split on the space
character, empty tokens dropped. -/
def nameTokens (v : JSString) : List JSString :=
  (split 32 (trim v)).filter fun t => t != []

/-- The condition of `fullNameCheck` in the words of the specification:
exactly three tokens, each of one or more letters taken entirely from the
Latin alphabet or entirely from the Cyrillic alphabet. -/
def fullNameSpec (v : JSString) : Bool :=
  (nameTokens v).length == 3 &&
    (nameTokens v).all fun t => t != [] && (t.all isLatinLetter || t.all isCyrillicLetter)

/-- The local-part pattern in the words of the specification: one or more
repetitions of (one or more word characters followed by at most one
character matched by an unescaped dot), followed by one or more word
characters.  A repetition is its run of word characters and its optional
extra character. -/
def LocalPartSpec (l : JSString) : Prop :=
  ∃ (blocks : List (JSString × Option Nat)) (last : JSString),
    blocks ≠ [] ∧
    (∀ b ∈ blocks,
      b.1 ≠ [] ∧ (∀ c ∈ b.1, isWordUnit c = true) ∧ ∀ d ∈ b.2, isDotUnit d = true) ∧
    last ≠ [] ∧ (∀ c ∈ last, isWordUnit c = true) ∧
    l = (blocks.map fun b => b.1 ++ b.2.toList).flatten ++ last

/-- A string of the form `+7(XXX)XXX-XX-XX`, each `X` a digit. -/
def isPhoneForm : JSString → Bool
  | [p, s, o, a, b, c, q, d, e, f, m, g, h, n, i, j] =>
    p == 43 && s == 55 && o == 40 && isDigitUnit a && isDigitUnit b && isDigitUnit c &&
      q == 41 && isDigitUnit d && isDigitUnit e && isDigitUnit f && m == 45 &&
      isDigitUnit g && isDigitUnit h && n == 45 && isDigitUnit i && isDigitUnit j
  | _ => false

/-- The condition of `phoneFormatCheck` in the words of the specification:
the trimmed value begins with a string of the form `+7(XXX)XXX-XX-XX`. -/
def phoneFormatSpec (v : JSString) : Bool := isPhoneForm ((trim v).take 16)

/-- Sum of the numeric values of the digit characters `0` to `9` of `v`. -/
def digitSum (v : JSString) : Nat := ((v.filter isDigitUnit).map fun c => c - 48).sum

/-! ## The validator as the specification words it -/

/-- The text of the error thrown for a check name without a handler. -/
def unknownCheck (name : String) : String := "Нет обработчика " ++ name

/-- The error `validate` throws at a check name that `this.types` does not
own: the `TypeError` of calling `validate` on an inherited member, or the
error for a name without a handler. -/
def thrownAt (name : String) : String :=
  if inherited name then notAFunction else unknownCheck name

/-- Does `value` pass the check registered under `name`? -/
def passes (name : String) (value : JSString) : Bool :=
  match types.lookup name with
  | some checker => checker.validate value
  | none => false

/-- The error message of the check registered under `name`. -/
def messageOf (name : String) : String :=
  match types.lookup name with
  | some checker => checker.errorMessage
  | none => ""

/-- The messages of the checks among `names` that `value` fails, in the
order of `names`. -/
def failedMessages (value : JSString) (names : List String) : List String :=
  (names.filter fun n => !passes n value).map messageOf

/-- Every check name of the configuration is in the rule registry. -/
def Registered (config : Config) : Prop :=
  ∀ p ∈ config, ∀ n ∈ p.2.names, (types.lookup n).isSome = true

/-- The `FieldError` of one field of the snapshot, if it has a failing check. -/
def fieldErrorOf (config : Config) (p : String × JSString) : Option FieldError :=
  match config.lookup p.1 with
  | none => none
  | some entry =>
    if failedMessages p.2 entry.names = [] then none
    else some { field := p.1, messages := failedMessages p.2 entry.names }

/-- The `FieldError`s the specification asks for: one per field of the
snapshot with a failing check, in the order of the snapshot. -/
def expectedErrors (config : Config) (data : Snapshot) : List FieldError :=
  data.filterMap (fieldErrorOf config)

/-- The `FieldError` the loop of `validate` records for one field: none when
the configuration of the field is falsy. -/
def recorded (config : Config) (p : String × JSString) : Option FieldError :=
  match config.lookup p.1 with
  | none => none
  | some entry =>
    if entry.truthy = true ∧ failedMessages p.2 entry.names ≠ [] then
      some { field := p.1, messages := failedMessages p.2 entry.names }
    else none

/-- A field of the snapshot whose configuration is used (it is not the empty
string) names a check without a handler. -/
def HasUnknownCheck (config : Config) (data : Snapshot) : Prop :=
  ∃ p ∈ data, ∃ entry, config.lookup p.1 = some entry ∧ entry.truthy = true ∧
    ∃ n ∈ entry.names, types.lookup n = none

/-- A field name of the snapshot meets a member of `Object.prototype`: it is
`hasOwnProperty`, so that the guard of the loop calls a string, or it is
missing from the configuration and the name of an inherited member, so that
`this.config[i]` is that member. -/
def MeetsPrototype (config : Config) (data : Snapshot) : Prop :=
  ∃ p ∈ data, p.1 = "hasOwnProperty" ∨ (hasOwnProperty config p.1 = false ∧ inherited p.1 = true)

/-- A snapshot that passes the shipped configuration. -/
def validSnapshot : Snapshot :=
  [("fio", utf16 "Иван Иванов Иванович"), ("phone", utf16 "+7(111)111-11-11"),
   ("email", utf16 "user.name@yandex.ru")]

/-- A snapshot whose name and phone number fail the shipped configuration. -/
def invalidSnapshot : Snapshot :=
  [("fio", utf16 "Иван Иванов"), ("phone", utf16 "89111234567"),
   ("email", utf16 "user.name@yandex.ru")]

/-- A form with the three fields of the page and a button, filled with
values that pass the shipped configuration. -/
def validForm : FormController :=
  FormController.new
    [{ nodeName := "INPUT", name := "fio", value := utf16 "Иван Иванов Иванович", classList := [] },
     { nodeName := "INPUT", name := "email", value := utf16 "user.name@yandex.ru", classList := [] },
     { nodeName := "INPUT", name := "phone", value := utf16 "+7(111)111-11-11", classList := [] },
     { nodeName := "BUTTON", name := "", value := [], classList := [] }]
    (utf16 "http://localhost/send") config

/-- The same form with a name of two words and a phone number that fails
both of its checks. -/
def invalidForm : FormController :=
  FormController.new
    [{ nodeName := "INPUT", name := "fio", value := utf16 "Иван Иванов", classList := [] },
     { nodeName := "INPUT", name := "email", value := utf16 "user.name@yandex.ru", classList := [] },
     { nodeName := "INPUT", name := "phone", value := utf16 "89111234567", classList := [] },
     { nodeName := "BUTTON", name := "", value := [], classList := [] }]
    (utf16 "http://localhost/send") config

/-- The states the page goes through: before the first event and after
each one. -/
def trace (enc : JSString → Option JSString) (w : World) : List Event → List World
  | [] => [w]
  | e :: es => w :: trace enc (step enc w e) es

/-- The result container shows text only together with a status, and its
status is never the empty string: true of a container constructed on an empty
element and kept by `clear` and `showResult`. -/
def ContainerController.Consistent (c : ContainerController) : Prop :=
  (c.status = none → c.textContent = "") ∧ c.status ≠ some ""

/-- No exchange and no timer of an earlier submission is outstanding. -/
def World.Quiet (w : World) : Prop := w.pending = [] ∧ w.timers = []

/-- The URL requested by a submission of the current form, for the query
string `q` built by `submit`. -/
def submitUrl (w : World) (q : JSString) : JSString :=
  w.form.action ++ utf16 "?" ++ q

/-- Two states of the page that differ at most in the fields of the form. -/
def SameOutside (a b : World) : Prop :=
  a.container = b.container ∧ a.submitDisabled = b.submitDisabled ∧ a.requests = b.requests ∧
    a.pending = b.pending ∧ a.timers = b.timers ∧ a.consoleErrors = b.consoleErrors ∧
    a.form.action = b.form.action

/-- A submission awaits the response to its `n`-th request. -/
def Awaiting (url query action : JSString) (base : List JSString) (n : Nat) (x : World) : Prop :=
  x.pending = [{ queryString := query }] ∧ x.timers = [] ∧
    x.requests = base ++ List.replicate n url ∧ x.form.action = action ∧
    x.submitDisabled = true ∧ x.container.Consistent

/-- A submission waits for the timer set by its `n`-th response. -/
def Delayed (url query action : JSString) (base : List JSString) (n : Nat) (delay : Option Nat)
    (x : World) : Prop :=
  x.pending = [] ∧ x.timers = [{ queryString := query, delay := delay }] ∧
    x.requests = base ++ List.replicate n url ∧ x.form.action = action ∧
    x.submitDisabled = true ∧ x.container.status = some "progress" ∧
    x.container.textContent = ""

/-- The upper-case hexadecimal digit of `n < 16`. -/
def hexDigit (n : Nat) : Nat := if n < 10 then 48 + n else 55 + n

/-- A byte as `%XX`. -/
def percentByte (b : Nat) : JSString := [37, hexDigit (b / 16), hexDigit (b % 16)]

/-- The code units `encodeURIComponent` leaves as they are. -/
def isUnreserved (c : Nat) : Bool :=
  isWordUnit c || c == 45 || c == 46 || c == 33 || c == 126 || c == 42 || c == 39 || c == 40 ||
    c == 41

/-- The UTF-8 bytes of a code point. -/
def utf8 (cp : Nat) : List Nat :=
  if cp < 128 then [cp]
  else if cp < 2048 then [192 + cp / 64, 128 + cp % 64]
  else if cp < 65536 then [224 + cp / 4096, 128 + cp / 64 % 64, 128 + cp % 64]
  else [240 + cp / 262144, 128 + cp / 4096 % 64, 128 + cp / 64 % 64, 128 + cp % 64]

/-- The percent-encoding of a code point. -/
def percentEncode (cp : Nat) : JSString := (utf8 cp).flatMap percentByte

/-- The global `encodeURIComponent`: an unreserved code unit stays, any other
code point is percent-encoded from its UTF-8 bytes; `none` is the `URIError`
thrown on an unpaired surrogate. -/
def encodeURIComponent : JSString → Option JSString
  | [] => some []
  | [c] =>
    if isUnreserved c then some [c]
    else if 55296 ≤ c ∧ c < 57344 then none
    else some (percentEncode c)
  | c :: d :: ds =>
    if isUnreserved c then (encodeURIComponent (d :: ds)).map fun r => c :: r
    else if 55296 ≤ c ∧ c < 56320 ∧ 56320 ≤ d ∧ d < 57344 then
      (encodeURIComponent ds).map fun r =>
        percentEncode (65536 + (c - 55296) * 1024 + (d - 56320)) ++ r
    else if 55296 ≤ c ∧ c < 57344 then none
    else (encodeURIComponent (d :: ds)).map fun r => percentEncode c ++ r

/-- The page as loaded, its form filled with valid values. -/
def validPage : World :=
  { form := validForm
    container := { status := none, classList := [], textContent := "" }
    submitDisabled := false
    requests := []
    pending := []
    timers := []
    consoleErrors := 0 }

/-- One round of polling during which the user retypes the name. -/
def sampleRound : Round :=
  { reason := none
    delay := some 500
    editsBeforeResponse := []
    editsBeforeTimeout := [("fio", utf16 "Пётр Петров Петрович")] }

/-- The response that ends a submission well. -/
def successResponse : ResponseData := { status := "success", reason := none, timeout := none }

/-- The page with a name and a phone number that fail, an earlier `success`
still shown, and an error mark left on the email field by an earlier attempt. -/
def invalidPage : World :=
  { form := { invalidForm with
      elements := invalidForm.elements.map fun e =>
        if e.name == "email" then { e with classList := ["error"] } else e }
    container := { status := some "success", classList := ["success"], textContent := "Success" }
    submitDisabled := false
    requests := []
    pending := []
    timers := []
    consoleErrors := 0 }

/-- The page with valid values while an earlier `success` is still shown and
an error mark is left on the email field. -/
def validPageAfterSuccess : World :=
  { form := { validForm with
      elements := validForm.elements.map fun e =>
        if e.name == "email" then { e with classList := ["error"] } else e }
    container := { status := some "success", classList := ["success"], textContent := "Success" }
    submitDisabled := false
    requests := []
    pending := []
    timers := []
    consoleErrors := 0 }

/-- Is the control marked as in error? -/
def Element.marked (e : Element) : Bool := e.classList.contains "error"

/-- What `removeErrors` followed by `showErrors` leaves of a control: the
mark is removed from a tracked control, and set again when `showErrors` runs
with the name of the control among `fields`; `none` stands for a `showErrors`
that is not run. -/
def remark (rules : Config) (fields : Option (List String)) (e : Element) : Element :=
  let e1 : Element :=
    if tracked rules e && e.classList.contains "error" then
      { e with classList := classRemove e.classList "error" }
    else e
  match fields with
  | none => e1
  | some fs =>
    if tracked rules e1 && fs.contains e1.name then
      { e1 with classList := classAdd e1.classList "error" }
    else e1

/-- The pair `name=value` of a control, both sides encoded; `none` when
`encodeURIComponent` throws on one of them. -/
def queryPair (enc : JSString → Option JSString) (input : Element) : Option JSString :=
  match enc (utf16 input.name), enc input.value with
  | some name, some value => some (name ++ utf16 "=" ++ value)
  | _, _ => none

/-- The pairs of the controls, in order; `none` when `encodeURIComponent`
throws on one of them. -/
def queryPairs (enc : JSString → Option JSString) : List Element → Option (List JSString)
  | [] => some []
  | input :: rest =>
    match queryPair enc input, queryPairs enc rest with
    | some pair, some pairs => some (pair :: pairs)
    | _, _ => none

/-- The form of the page with valid values, the email holding the unpaired
surrogate U+D83D between two letters of its local part. -/
def surrogateForm : FormController :=
  FormController.new
    [{ nodeName := "INPUT", name := "fio", value := utf16 "Иван Иванов Иванович", classList := [] },
     { nodeName := "INPUT", name := "email", value := [97, 55357, 98] ++ utf16 "@ya.ru",
       classList := [] },
     { nodeName := "INPUT", name := "phone", value := utf16 "+7(111)111-11-11", classList := [] },
     { nodeName := "BUTTON", name := "", value := [], classList := [] }]
    (utf16 "http://localhost/send") config

/-- The page as loaded, its form filled with these values. -/
def surrogatePage : World :=
  { form := surrogateForm
    container := { status := none, classList := [], textContent := "" }
    submitDisabled := false
    requests := []
    pending := []
    timers := []
    consoleErrors := 0 }

/-- The strings `parts` joined by `sep`: nothing before the first one and
nothing after the last one. -/
def joinWith (sep : JSString) : List JSString → JSString
  | [] => []
  | [p] => p
  | p :: q :: rest => p ++ sep ++ joinWith sep (q :: rest)

/-- The snapshot restricted to the field names of the configuration. -/
def restrictTo (config : Config) (data : Snapshot) : Snapshot :=
  data.filter fun p => hasOwnProperty config p.1

/-- The calls `checker.validate(data[i])` made by the loop
`for (type of types)`, as check name and value, up to a name without handler. -/
def checkCalls (value : JSString) : List String → List (String × JSString)
  | [] => []
  | type :: rest =>
    match types.lookup type with
    | none => []
    | some _ => (type, value) :: checkCalls value rest

/-- The calls `checker.validate(data[i])` made by the loop
`for (let i in data)`, in order, up to the field at which it throws. -/
def fieldCalls (config : Config) : Snapshot → List (String × JSString)
  | [] => []
  | (i, value) :: rest =>
    match config.lookup i with
    | none => if inherited i then [] else fieldCalls config rest
    | some entry =>
      if !entry.truthy then fieldCalls config rest
      else
        match checkLoop value entry.names [] with
        | .error _ => checkCalls value entry.names
        | .ok _ => checkCalls value entry.names ++ fieldCalls config rest

/-- The calls `checker.validate(data[i])` made by `validate`, in order: none
when the guard of the first iteration throws. -/
def validateCalls (config : Config) (data : Snapshot) : List (String × JSString) :=
  if data.any fun p => p.1 == "hasOwnProperty" then [] else fieldCalls config data

/-- A snapshot with a field outside the shipped configuration between two
configured ones. -/
def snapshotWithExtra : Snapshot :=
  [("fio", utf16 "Иван Иванов"), ("comment", utf16 "hello"),
   ("email", utf16 "user.name@yandex.ru")]

/-! ## Writing the fields -/

/-- The assignment `this.form.elements[key].value = v`.  The collection is
read by control name: without a control of that name the read gives
`undefined` and the assignment throws; with one control its value is set;
with several the read gives a `RadioNodeList`, whose `value` setter changes
the value of no control. -/
def assignValue (elements : List Element) (key : String) (v : JSString) :
    Except String (List Element) :=
  match elements.filter fun e => e.name == key with
  | [] => .error "TypeError: Cannot set properties of undefined (setting 'value')"
  | [_] => .ok (elements.map fun e => if e.name == key then { e with value := v } else e)
  | _ :: _ :: _ => .ok elements

/-- The loop `for (let key in newData)` of `setData`: the controls as the
loop leaves them, and whether it completed or threw. -/
def setDataLoop (rules : Config) : Snapshot → List Element → List Element × Except String Unit
  | [], elements => (elements, .ok ())
  | (key, v) :: rest, elements =>
    if hasOwnProperty rules key then
      match assignValue elements key v with
      | .error e => (elements, .error e)
      | .ok elements1 => setDataLoop rules rest elements1
    else setDataLoop rules rest elements

/-- The method `FormController.setData`. -/
def FormController.setData (self : FormController) (newData : Snapshot) :
    FormController × Except String Unit :=
  let r := setDataLoop self.rules newData self.elements
  ({ self with elements := r.1 }, r.2)

/-- A control after `setData(newData)`, as the specification words it: the
value of `newData` when the name of the control is a key of both `newData`
and the rules, the control as it was otherwise. -/
def written (rules : Config) (newData : Snapshot) (e : Element) : Element :=
  if hasOwnProperty rules e.name then
    match newData.lookup e.name with
    | some v => { e with value := v }
    | none => e
  else e

/-- The value `getData` reports for a name: that of the last control of the
name among the inputs. -/
def lastValue (name : String) : List Element → Option JSString
  | [] => none
  | e :: es =>
    match lastValue name es with
    | some v => some v
    | none => if e.name == name then some e.value else none

/-- New values for a tracked field and for a name outside the rules. -/
def sampleNewData : Snapshot :=
  [("fio", utf16 "Пётр Петров Петрович"), ("comment", utf16 "hello")]

/-- Is the event a submit request? -/
def Event.isSubmit : Event → Bool
  | .submit => true
  | _ => false

/-- The exchange ends without a `success`, `error` or `progress` answer: the
transport fails, the body cannot be decoded, or the decoded status is none
of the three. -/
def Response.Unhandled : Response → Prop
  | .rejected => True
  | .malformed => True
  | .json data => data.status ≠ "success" ∧ data.status ≠ "error" ∧ data.status ≠ "progress"

/-- A decoded answer with a status the page does not know. -/
def unknownStatusResponse : Response :=
  .json { status := "queued", reason := none, timeout := some 100 }

/-- Events that arrive after an exchange failed: a timer, an answer and an edit. -/
def lateEvents : List Event :=
  [.timeout 0, .response 0 (.json { status := "success", reason := none, timeout := none }),
   .input "fio" (utf16 "Пётр Петров Петрович")]

/-- No two adjacent code units are both outside `\w`. -/
def noAdjacentNonWord : JSString → Bool
  | a :: b :: rest => (isWordUnit a || isWordUnit b) && noAdjacentNonWord (b :: rest)
  | _ => true

/-- The strings the local-part pattern accepts, described by their shape: at
least two code units, the first and the last in `\w`, no line terminator,
and no two adjacent code units outside `\w`. -/
def LocalPartShape (l : JSString) : Prop :=
  2 ≤ l.length ∧ (∃ c, l.head? = some c ∧ isWordUnit c = true) ∧
    (∃ c, l.getLast? = some c ∧ isWordUnit c = true) ∧
    (∀ c ∈ l, isLineTerminator c = false) ∧ noAdjacentNonWord l = true

/-- The phone number `+7(abc)def-gh-ij`. -/
def phoneOf (a b c d e f g h i j : Nat) : JSString :=
  [43, 55, 40, a, b, c, 41, d, e, f, 45, g, h, 45, i, j]

/-- The form of the page with valid name and email and the well-formed
phone number `+7(911)123-45-67`. -/
def heavyPhoneForm : FormController :=
  FormController.new
    [{ nodeName := "INPUT", name := "fio", value := utf16 "Иван Иванов Иванович", classList := [] },
     { nodeName := "INPUT", name := "email", value := utf16 "user.name@yandex.ru", classList := [] },
     { nodeName := "INPUT", name := "phone", value := utf16 "+7(911)123-45-67", classList := [] },
     { nodeName := "BUTTON", name := "", value := [], classList := [] }]
    (utf16 "http://localhost/send") config

/-- A configuration whose second field names a check without handler. -/
def brokenConfig : Config :=
  [("fio", .single "fioValidate"), ("phone", .many ["phoneValidate", "noSuchCheck"]),
   ("email", .single "emailValidate")]

/-- A validator with the broken configuration that holds the result of an
earlier call. -/
def brokenValidator : Validator :=
  { config := brokenConfig, messages := [{ field := "email", messages := ["Неверный email"] }] }

/-! ## The stored result as shared objects

`validate` stores object literals `{field, messages}` whose `messages`
property references the array `errors`, and `getErrors` copies the own
properties of each stored object into a new object.  To see what a caller can
reach through the returned values, objects are kept here by reference. -/

/-- An object `{field, messages}`: the property `messages` holds the
reference of an array of messages. -/
structure FieldErrorObject where
  field : String
  messages : Nat

/-- The objects created so far, by reference: arrays of messages,
`{field, messages}` objects, and arrays of such objects.  `next` is the
reference that the next created object receives. -/
structure Heap where
  next : Nat
  arrays : Nat → List String
  objects : Nat → FieldErrorObject
  sequences : Nat → List Nat

/-- No object has been created. -/
def Heap.empty : Heap :=
  { next := 0
    arrays := fun _ => []
    objects := fun _ => { field := "", messages := 0 }
    sequences := fun _ => [] }

/-- A new array of messages; its reference is `heap.next`. -/
def Heap.newArray (heap : Heap) (a : List String) : Heap :=
  { heap with
    next := heap.next + 1
    arrays := fun r => if r = heap.next then a else heap.arrays r }

/-- A new `{field, messages}` object; its reference is `heap.next`. -/
def Heap.newObject (heap : Heap) (o : FieldErrorObject) : Heap :=
  { heap with
    next := heap.next + 1
    objects := fun r => if r = heap.next then o else heap.objects r }

/-- A new array of objects; its reference is `heap.next`. -/
def Heap.newSequence (heap : Heap) (s : List Nat) : Heap :=
  { heap with
    next := heap.next + 1
    sequences := fun r => if r = heap.next then s else heap.sequences r }

/-- The call `s.push(o)` on an array of objects. -/
def Heap.push (heap : Heap) (s o : Nat) : Heap :=
  { heap with sequences := fun r => if r = s then heap.sequences s ++ [o] else heap.sequences r }

/-- What a reader of the array of objects `s` sees: for every entry its
`field` and the content of the array that its `messages` references. -/
def Heap.readErrors (heap : Heap) (s : Nat) : List FieldError :=
  (heap.sequences s).map fun o =>
    { field := (heap.objects o).field, messages := heap.arrays (heap.objects o).messages }

/-- A `Validator` whose property `messages` is the reference of an array of
objects. -/
structure HeapValidator where
  config : Config
  messages : Nat

/-- The loop `for (let i in data)` over objects kept by reference, for
`this.messages` the array `messages`.  The array `errors` of an iteration is
reachable from nowhere else until it is stored, so it is created when the
object literal that stores it is. -/
def fieldLoopRef (config : Config) (messages : Nat) : Snapshot → Heap → Heap × Except String Unit
  | [], heap => (heap, .ok ())
  | (i, value) :: rest, heap =>
    match config.lookup i with
    | none =>
      if inherited i then (heap, .error notIterable)
      else fieldLoopRef config messages rest heap
    | some entry =>
      if !entry.truthy then fieldLoopRef config messages rest heap
      else
        match checkLoop value entry.names [] with
        | .error e => (heap, .error e)
        | .ok errors =>
          if errors.length != 0 then
            fieldLoopRef config messages rest
              (((heap.newArray errors).newObject { field := i, messages := heap.next }).push
                messages (heap.next + 1))
          else fieldLoopRef config messages rest heap

/-- The method `Validator.hasErrors` over objects kept by reference. -/
def HeapValidator.hasErrors (self : HeapValidator) (heap : Heap) : Bool :=
  (heap.sequences self.messages).length != 0

/-- The statements of `validate` up to the end of the loop, over objects kept
by reference: `this.messages = []` creates a new array of objects, then the
loop runs, unless the guard of its first iteration throws. -/
def validateLoopRef (config : Config) (data : Snapshot) (heap : Heap) :
    Heap × Except String Unit :=
  if data.any fun p => p.1 == "hasOwnProperty" then
    (heap.newSequence [], .error guardNotAFunction)
  else fieldLoopRef config heap.next data (heap.newSequence [])

/-- The method `Validator.validate` over objects kept by reference. -/
def HeapValidator.validate (self : HeapValidator) (data : Snapshot) (heap : Heap) :
    Heap × HeapValidator × Except String Bool :=
  let self1 : HeapValidator := { self with messages := heap.next }
  let r := validateLoopRef self.config data heap
  match r.2 with
  | .error e => (r.1, self1, .error e)
  | .ok () => (r.1, self1, .ok (!self1.hasErrors r.1))

/-- The callback of `map` in `getErrors`, applied to the stored objects in
turn: `Object.assign` gives a new object the values of the own properties
`field` and `messages` of the stored one.  Returns the references of the new
objects. -/
def copyLoop : List Nat → Heap → Heap × List Nat
  | [], heap => (heap, [])
  | message :: rest, heap =>
    let r := copyLoop rest (heap.newObject (heap.objects message))
    (r.1, heap.next :: r.2)

/-- The method `Validator.getErrors` over objects kept by reference: the heap
after the call and the reference of the returned array. -/
def HeapValidator.getErrors (self : HeapValidator) (heap : Heap) : Heap × Nat :=
  let r := copyLoop (heap.sequences self.messages) heap
  (r.1.newSequence r.2, r.1.next)

/-- What a call of `getErrors()` on the heap `heap` reports to its caller. -/
def HeapValidator.report (self : HeapValidator) (heap : Heap) : List FieldError :=
  (self.getErrors heap).1.readErrors (self.getErrors heap).2

/-- The mutations a caller can perform on a returned array `s` and on a
returned object `e`. -/
inductive Mutation where
  /-- The assignment `e.field = name`. -/
  | setField (e : Nat) (name : String)
  /-- The assignment `e.messages = a` for an array `a`. -/
  | setMessages (e : Nat) (a : Nat)
  /-- The call `e.messages.push(m)`. -/
  | pushMessage (e : Nat) (m : String)
  /-- The call `e.messages.pop()`. -/
  | popMessage (e : Nat)
  /-- The assignment `e.messages[k] = m` for an index `k` of the array. -/
  | putMessage (e : Nat) (k : Nat) (m : String)
  /-- The call `s.push(o)`. -/
  | pushEntry (s : Nat) (o : Nat)
  /-- The call `s.pop()`. -/
  | popEntry (s : Nat)

/-- The content of the array that `e.messages` references becomes `f` of it. -/
def Heap.updateMessages (heap : Heap) (e : Nat) (f : List String → List String) : Heap :=
  { heap with
    arrays := fun r =>
      if r = (heap.objects e).messages then f (heap.arrays (heap.objects e).messages)
      else heap.arrays r }

/-- The heap after a mutation. -/
def Heap.mutate (heap : Heap) : Mutation → Heap
  | .setField e name =>
    { heap with
      objects := fun r => if r = e then { heap.objects e with field := name } else heap.objects r }
  | .setMessages e a =>
    { heap with
      objects := fun r => if r = e then { heap.objects e with messages := a } else heap.objects r }
  | .pushMessage e m => heap.updateMessages e fun l => l ++ [m]
  | .popMessage e => heap.updateMessages e fun l => l.dropLast
  | .putMessage e k m => heap.updateMessages e fun l => l.set k m
  | .pushEntry s o => heap.push s o
  | .popEntry s =>
    { heap with
      sequences := fun r => if r = s then (heap.sequences s).dropLast else heap.sequences r }

/-- The mutation is performed on the array `s` or on one of its entries. -/
def Mutation.On (heap : Heap) (s : Nat) : Mutation → Prop
  | .setField e _ => e ∈ heap.sequences s
  | .setMessages e _ => e ∈ heap.sequences s
  | .pushMessage e _ => e ∈ heap.sequences s
  | .popMessage e => e ∈ heap.sequences s
  | .putMessage e _ _ => e ∈ heap.sequences s
  | .pushEntry t _ => t = s
  | .popEntry t => t = s

/-- Whether the mutation changes the array that `e.messages` references, and
not the array `s` or a property of `e`. -/
def Mutation.throughMessages : Mutation → Bool
  | .pushMessage _ _ => true
  | .popMessage _ => true
  | .putMessage _ _ _ => true
  | _ => false

/-- A validator with the shipped configuration, over objects kept by
reference. -/
def shippedHeapValidator : HeapValidator := { config := config, messages := 0 }

/-- The stored array `s` and its objects exist, and no two stored objects
reference the same array of messages. -/
def Heap.Stored (heap : Heap) (s : Nat) : Prop :=
  s < heap.next ∧
  (∀ o ∈ heap.sequences s, o < heap.next ∧ (heap.objects o).messages < heap.next) ∧
  ((heap.sequences s).map fun o => (heap.objects o).messages).Nodup

/-! ## Regular expressions: the matcher decides the relation -/

namespace RE

theorem not_matches_never (s : JSString) : ¬ Matches never s := by
  intro h
  cases h

theorem matches_empty_iff {s : JSString} : Matches empty s ↔ s = [] := by
  constructor
  · intro h
    cases h
    rfl
  · rintro rfl
    exact Matches.empty

theorem matches_unit_iff {p : Nat → Bool} {s : JSString} :
    Matches (unit p) s ↔ ∃ c, p c = true ∧ s = [c] := by
  constructor
  · intro h
    cases h with
    | unit _ c hc => exact ⟨c, hc, rfl⟩
  · rintro ⟨c, hc, rfl⟩
    exact Matches.unit p c hc

theorem matches_seq_iff {a b : RE} {s : JSString} :
    Matches (seq a b) s ↔ ∃ s1 s2, s = s1 ++ s2 ∧ Matches a s1 ∧ Matches b s2 := by
  constructor
  · intro h
    cases h with
    | seq _ _ s1 s2 h1 h2 => exact ⟨s1, s2, rfl, h1, h2⟩
  · rintro ⟨s1, s2, rfl, h1, h2⟩
    exact Matches.seq a b s1 s2 h1 h2

theorem matches_alt_iff {a b : RE} {s : JSString} :
    Matches (alt a b) s ↔ Matches a s ∨ Matches b s := by
  constructor
  · intro h
    cases h with
    | altL _ _ _ h1 => exact Or.inl h1
    | altR _ _ _ h2 => exact Or.inr h2
  · rintro (h | h)
    · exact Matches.altL a b s h
    · exact Matches.altR a b s h

theorem star_cons_split_aux {r : RE} {t : JSString} (h : Matches r t) :
    ∀ (a : RE) (c : Nat) (s : JSString), r = star a → t = c :: s →
      ∃ s1 s2, s = s1 ++ s2 ∧ Matches a (c :: s1) ∧ Matches (star a) s2 := by
  induction h with
  | empty => intro a c s h1; cases h1
  | unit p d hd => intro a c s h1; cases h1
  | seq a b s t _ _ _ _ => intro a1 c s1 h1; cases h1
  | altL a b s _ _ => intro a1 c s1 h1; cases h1
  | altR a b s _ _ => intro a1 c s1 h1; cases h1
  | starNil a => intro a1 c s1 _ h2; cases h2
  | starCons a s t hs ht _ iht =>
    intro a1 c s1 h1 h2
    cases h1
    cases s with
    | nil => exact iht a c s1 rfl (by simpa using h2)
    | cons d s2 =>
      simp only [List.cons_append, List.cons.injEq] at h2
      obtain ⟨rfl, rfl⟩ := h2
      exact ⟨s2, t, rfl, hs, ht⟩

theorem matches_star_cons_iff {a : RE} {c : Nat} {s : JSString} :
    Matches (star a) (c :: s) ↔
      ∃ s1 s2, s = s1 ++ s2 ∧ Matches a (c :: s1) ∧ Matches (star a) s2 := by
  constructor
  · intro h
    exact star_cons_split_aux h a c s rfl rfl
  · rintro ⟨s1, s2, rfl, h1, h2⟩
    exact Matches.starCons a (c :: s1) s2 h1 h2

theorem nullable_iff (r : RE) : r.nullable = true ↔ Matches r [] := by
  induction r with
  | never => simp [nullable, not_matches_never]
  | empty => simp [nullable, matches_empty_iff]
  | unit p => simp [nullable, matches_unit_iff]
  | seq a b iha ihb =>
    simp only [nullable, Bool.and_eq_true, iha, ihb, matches_seq_iff]
    constructor
    · rintro ⟨h1, h2⟩
      exact ⟨[], [], rfl, h1, h2⟩
    · rintro ⟨s1, s2, h, h1, h2⟩
      have h0 := List.append_eq_nil.mp h.symm
      rw [h0.1] at h1
      rw [h0.2] at h2
      exact ⟨h1, h2⟩
  | alt a b iha ihb => simp [nullable, iha, ihb, matches_alt_iff]
  | star a _ => simp [nullable, Matches.starNil]

theorem matches_deriv_iff (r : RE) (c : Nat) :
    ∀ s : JSString, Matches (r.deriv c) s ↔ Matches r (c :: s) := by
  induction r with
  | never => intro s; simp [deriv, not_matches_never]
  | empty => intro s; simp [deriv, not_matches_never, matches_empty_iff]
  | unit p =>
    intro s
    by_cases hp : p c = true
    · simp only [deriv, hp, if_true, matches_empty_iff, matches_unit_iff]
      constructor
      · rintro rfl
        exact ⟨c, hp, rfl⟩
      · rintro ⟨d, _, h⟩
        simp only [List.cons.injEq] at h
        exact h.2
    · simp only [deriv, hp, matches_unit_iff]
      constructor
      · intro h
        exact absurd h (not_matches_never s)
      · rintro ⟨d, hd, h⟩
        simp only [List.cons.injEq] at h
        rw [← h.1] at hd
        exact absurd hd hp
  | seq a b iha ihb =>
    intro s
    have key : Matches (seq a b) (c :: s) ↔
        (∃ s1 s2, s = s1 ++ s2 ∧ Matches a (c :: s1) ∧ Matches b s2) ∨
          (Matches a [] ∧ Matches b (c :: s)) := by
      rw [matches_seq_iff]
      constructor
      · rintro ⟨s1, s2, h, h1, h2⟩
        cases s1 with
        | nil =>
          simp only [List.nil_append] at h
          rw [← h] at h2
          exact Or.inr ⟨h1, h2⟩
        | cons d s3 =>
          simp only [List.cons_append, List.cons.injEq] at h
          obtain ⟨rfl, rfl⟩ := h
          exact Or.inl ⟨s3, s2, rfl, h1, h2⟩
      · rintro (⟨s1, s2, rfl, h1, h2⟩ | ⟨h1, h2⟩)
        · exact ⟨c :: s1, s2, rfl, h1, h2⟩
        · exact ⟨[], c :: s, rfl, h1, h2⟩
    rw [key]
    by_cases hn : a.nullable = true
    · simp only [deriv, hn, if_true, matches_alt_iff, matches_seq_iff, iha, ihb]
      rw [← nullable_iff a]
      simp [hn]
    · rw [deriv, if_neg hn, matches_seq_iff, ← nullable_iff a]
      simp [iha, hn]
  | alt a b iha ihb => intro s; simp [deriv, matches_alt_iff, iha, ihb]
  | star a iha =>
    intro s
    simp only [deriv, matches_seq_iff, iha, matches_star_cons_iff]

/-- The derivative matcher accepts exactly the strings of the relation. -/
theorem accepts_iff (r : RE) (s : JSString) : r.accepts s = true ↔ Matches r s := by
  induction s generalizing r with
  | nil => simpa [accepts] using nullable_iff r
  | cons c cs ih => rw [accepts, ih, matches_deriv_iff]

end RE

theorem matches_star_unit_iff (p : Nat → Bool) (s : JSString) :
    RE.Matches (RE.star (RE.unit p)) s ↔ ∀ c ∈ s, p c = true := by
  induction s with
  | nil => simp [RE.Matches.starNil]
  | cons c cs ih =>
    rw [RE.matches_star_cons_iff]
    constructor
    · rintro ⟨s1, s2, h, h1, h2⟩
      obtain ⟨d, hd, hs⟩ := RE.matches_unit_iff.mp h1
      simp only [List.cons.injEq] at hs
      obtain ⟨rfl, rfl⟩ := hs
      simp only [List.nil_append] at h
      subst h
      intro x hx
      rcases List.mem_cons.mp hx with rfl | hx
      · exact hd
      · exact ih.mp h2 x hx
    · intro h
      refine ⟨[], cs, rfl, RE.Matches.unit p c (h c (List.mem_cons_self c cs)), ?_⟩
      exact ih.mpr fun x hx => h x (List.mem_cons_of_mem c hx)

theorem matches_plus_unit_iff (p : Nat → Bool) (s : JSString) :
    RE.Matches (RE.plus (RE.unit p)) s ↔ s ≠ [] ∧ ∀ c ∈ s, p c = true := by
  unfold RE.plus
  rw [RE.matches_seq_iff]
  constructor
  · rintro ⟨s1, s2, rfl, h1, h2⟩
    obtain ⟨d, hd, rfl⟩ := RE.matches_unit_iff.mp h1
    refine ⟨by simp, ?_⟩
    intro x hx
    rcases List.mem_cons.mp hx with rfl | hx
    · exact hd
    · exact (matches_star_unit_iff p s2).mp h2 x hx
  · rintro ⟨hne, h⟩
    cases s with
    | nil => exact absurd rfl hne
    | cons c cs =>
      refine ⟨[c], cs, rfl, RE.Matches.unit p c (h c (List.mem_cons_self c cs)), ?_⟩
      exact (matches_star_unit_iff p cs).mpr fun x hx => h x (List.mem_cons_of_mem c hx)

theorem matches_anyUnits (s : JSString) : RE.Matches anyUnits s :=
  (matches_star_unit_iff _ s).mpr fun _ _ => rfl

/-- A pattern written `^body$` matches when the body matches the whole input. -/
theorem test_anchored_iff (body : RE) (s : JSString) :
    RegExp.test { anchoredStart := true, body := body, anchoredEnd := true } s = true ↔
      RE.Matches body s := by
  simp only [RegExp.test, if_true, RE.accepts_iff, RE.matches_seq_iff, RE.matches_empty_iff]
  constructor
  · rintro ⟨s1, s2, rfl, rfl, s3, s4, rfl, h, rfl⟩
    simpa using h
  · intro h
    exact ⟨[], s, rfl, rfl, s, [], by simp, h, rfl⟩

/-- A pattern without anchors matches when the body matches some substring. -/
theorem test_unanchored_iff (body : RE) (s : JSString) :
    RegExp.test { anchoredStart := false, body := body, anchoredEnd := false } s = true ↔
      ∃ before mid after, s = before ++ mid ++ after ∧ RE.Matches body mid := by
  simp only [RegExp.test, RE.accepts_iff, RE.matches_seq_iff]
  constructor
  · rintro ⟨s1, s2, rfl, _, s3, s4, rfl, h, _⟩
    exact ⟨s1, s3, s4, by simp, h⟩
  · rintro ⟨s1, s3, s4, rfl, h⟩
    exact ⟨s1, s3 ++ s4, by simp, matches_anyUnits s1, s3, s4, rfl, h, matches_anyUnits s4⟩

theorem fioLetter_iff (c : Nat) :
    fioLetter c = true ↔ isLatinLetter c = true ∨ isCyrillicLetter c = true := by
  simp only [fioLetter, isLatinLetter, isCyrillicLetter, Bool.or_eq_true, Bool.and_eq_true,
    decide_eq_true_eq, beq_iff_eq]
  omega

theorem fioPattern_test_iff (t : JSString) :
    fioPattern.test t = true ↔
      t ≠ [] ∧ ∀ c ∈ t, isLatinLetter c = true ∨ isCyrillicLetter c = true := by
  unfold fioPattern
  rw [test_anchored_iff, matches_plus_unit_iff]
  simp only [fioLetter_iff]

/-- C3 as stated fails: a token that mixes Latin and Cyrillic letters is
accepted by `fioValidate.validate`, so `Ivanов Petrov Sidorov` passes although
its first token is taken from neither alphabet alone. -/
theorem fullName_mixed_scripts_accepted :
    ¬ (fioValidate.validate (utf16 "Ivanов Petrov Sidorov") = true ↔
        fullNameSpec (utf16 "Ivanов Petrov Sidorov") = true) := by
  decide

/-- C3, amended: `fioValidate.validate` accepts a value exactly when the
trimmed value, split on the space character with empty tokens dropped, has
three tokens and every token is one or more letters, each Latin or Cyrillic
(of `а-я` or `ё`, case-insensitively), a token being free to mix the two
scripts; `Иван Иванов Иванович` passes, `Иван Иванов` and
`Ivan123 Petrov Sidorov` fail. -/
theorem fullName_accepts_iff :
    (∀ v : JSString, fioValidate.validate v = true ↔
      (nameTokens v).length = 3 ∧
        ∀ t ∈ nameTokens v,
          t ≠ [] ∧ ∀ c ∈ t, isLatinLetter c = true ∨ isCyrillicLetter c = true) ∧
    fioValidate.validate (utf16 "Иван Иванов Иванович") = true ∧
    fioValidate.validate (utf16 "Иван Иванов") = false ∧
    fioValidate.validate (utf16 "Ivan123 Petrov Sidorov") = false := by
  refine ⟨?_, by decide, by decide, by decide⟩
  intro v
  simp only [fioValidate, nameTokens, Bool.and_eq_true, beq_iff_eq, List.all_eq_true,
    fioPattern_test_iff]

theorem star_flatten_aux {r : RE} {t : JSString} (h : RE.Matches r t) :
    ∀ a : RE, r = RE.star a → ∃ L : List JSString, (∀ x ∈ L, RE.Matches a x) ∧ t = L.flatten := by
  induction h with
  | empty => intro a h1; cases h1
  | unit p d hd => intro a h1; cases h1
  | seq a b s t _ _ _ _ => intro a1 h1; cases h1
  | altL a b s _ _ => intro a1 h1; cases h1
  | altR a b s _ _ => intro a1 h1; cases h1
  | starNil a => intro a1 _; exact ⟨[], by simp, rfl⟩
  | starCons a s t hs _ _ iht =>
    intro a1 h1
    cases h1
    obtain ⟨L, hL, rfl⟩ := iht a rfl
    refine ⟨s :: L, ?_, by simp⟩
    intro x hx
    rcases List.mem_cons.mp hx with rfl | hx
    · exact hs
    · exact hL x hx

theorem matches_star_iff (a : RE) (s : JSString) :
    RE.Matches (RE.star a) s ↔
      ∃ L : List JSString, (∀ x ∈ L, RE.Matches a x) ∧ s = L.flatten := by
  constructor
  · intro h
    exact star_flatten_aux h a rfl
  · rintro ⟨L, hL, rfl⟩
    induction L with
    | nil => exact RE.Matches.starNil a
    | cons x xs ih =>
      rw [List.flatten_cons]
      exact RE.Matches.starCons a x xs.flatten (hL x (List.mem_cons_self x xs))
        (ih fun y hy => hL y (List.mem_cons_of_mem x hy))

theorem matches_plus_iff (a : RE) (s : JSString) :
    RE.Matches (RE.plus a) s ↔
      ∃ L : List JSString, L ≠ [] ∧ (∀ x ∈ L, RE.Matches a x) ∧ s = L.flatten := by
  unfold RE.plus
  rw [RE.matches_seq_iff]
  constructor
  · rintro ⟨s1, s2, rfl, h1, h2⟩
    obtain ⟨L, hL, rfl⟩ := (matches_star_iff a s2).mp h2
    refine ⟨s1 :: L, by simp, ?_, by simp⟩
    intro x hx
    rcases List.mem_cons.mp hx with rfl | hx
    · exact h1
    · exact hL x hx
  · rintro ⟨L, hne, hL, rfl⟩
    cases L with
    | nil => exact absurd rfl hne
    | cons x xs =>
      refine ⟨x, xs.flatten, by simp, hL x (List.mem_cons_self x xs), ?_⟩
      exact (matches_star_iff a xs.flatten).mpr
        ⟨xs, fun y hy => hL y (List.mem_cons_of_mem x hy), rfl⟩

theorem matches_opt_unit_iff (p : Nat → Bool) (s : JSString) :
    RE.Matches (RE.opt (RE.unit p)) s ↔ ∃ d : Option Nat, (∀ x ∈ d, p x = true) ∧ s = d.toList := by
  unfold RE.opt
  rw [RE.matches_alt_iff, RE.matches_unit_iff, RE.matches_empty_iff]
  constructor
  · rintro (⟨c, hc, rfl⟩ | rfl)
    · exact ⟨some c, by simpa using hc, rfl⟩
    · exact ⟨none, by simp, rfl⟩
  · rintro ⟨d, hd, rfl⟩
    cases d with
    | none => exact Or.inr rfl
    | some c => exact Or.inl ⟨c, hd c rfl, rfl⟩

/-- The property of one repetition of the local-part pattern. -/
theorem matches_block_iff (x : JSString) :
    RE.Matches (RE.seq (RE.plus (RE.unit isWordUnit)) (RE.opt (RE.unit isDotUnit))) x ↔
      ∃ b : JSString × Option Nat,
        (b.1 ≠ [] ∧ (∀ c ∈ b.1, isWordUnit c = true) ∧ ∀ d ∈ b.2, isDotUnit d = true) ∧
          x = b.1 ++ b.2.toList := by
  rw [RE.matches_seq_iff]
  constructor
  · rintro ⟨s1, s2, rfl, h1, h2⟩
    obtain ⟨hne, hw⟩ := (matches_plus_unit_iff _ s1).mp h1
    obtain ⟨d, hd, rfl⟩ := (matches_opt_unit_iff _ s2).mp h2
    exact ⟨(s1, d), ⟨hne, hw, hd⟩, rfl⟩
  · rintro ⟨⟨w, d⟩, ⟨hne, hw, hd⟩, rfl⟩
    exact ⟨w, d.toList, rfl, (matches_plus_unit_iff _ w).mpr ⟨hne, hw⟩,
      (matches_opt_unit_iff _ _).mpr ⟨d, hd, rfl⟩⟩

theorem exists_map_of_forall_exists {α β : Type} (f : β → α) (P : β → Prop) (L : List α)
    (h : ∀ x ∈ L, ∃ b, P b ∧ x = f b) : ∃ bs : List β, (∀ b ∈ bs, P b) ∧ L = bs.map f := by
  induction L with
  | nil => exact ⟨[], by simp, rfl⟩
  | cons x xs ih =>
    obtain ⟨b, hb, rfl⟩ := h x (List.mem_cons_self x xs)
    obtain ⟨bs, hbs, rfl⟩ := ih fun y hy => h y (List.mem_cons_of_mem _ hy)
    refine ⟨b :: bs, ?_, rfl⟩
    intro c hc
    rcases List.mem_cons.mp hc with rfl | hc
    · exact hb
    · exact hbs c hc

/-- The email local-part pattern accepts exactly the strings the
specification describes. -/
theorem emailPattern_test_iff (l : JSString) : emailPattern.test l = true ↔ LocalPartSpec l := by
  unfold emailPattern LocalPartSpec
  rw [test_anchored_iff, RE.matches_seq_iff]
  constructor
  · rintro ⟨s1, s2, rfl, h1, h2⟩
    obtain ⟨L, hne, hL, rfl⟩ := (matches_plus_iff _ s1).mp h1
    obtain ⟨hne2, hw⟩ := (matches_plus_unit_iff _ s2).mp h2
    obtain ⟨bs, hbs, rfl⟩ := exists_map_of_forall_exists
      (fun b : JSString × Option Nat => b.1 ++ b.2.toList)
      (fun b => b.1 ≠ [] ∧ (∀ c ∈ b.1, isWordUnit c = true) ∧ ∀ d ∈ b.2, isDotUnit d = true)
      L (fun x hx => (matches_block_iff x).mp (hL x hx))
    refine ⟨bs, s2, ?_, hbs, hne2, hw, rfl⟩
    rintro rfl
    exact hne rfl
  · rintro ⟨bs, last, hne, hbs, hne2, hw, rfl⟩
    refine ⟨_, last, rfl, ?_, (matches_plus_unit_iff _ last).mpr ⟨hne2, hw⟩⟩
    refine (matches_plus_iff _ _).mpr ⟨bs.map fun b => b.1 ++ b.2.toList, ?_, ?_, rfl⟩
    · simpa using hne
    · intro x hx
      obtain ⟨b, hb, rfl⟩ := List.mem_map.mp hx
      exact (matches_block_iff _).mpr ⟨b, hbs b hb, rfl⟩

/-- C4: `emailValidate.validate` accepts a value exactly when the trimmed
value splits on `@` into two parts, the second is one of the six allowed
domains and the first matches the local-part pattern; `user.name@yandex.ru`
passes, `user@gmail.com` and `bad@@ya.ru` fail. -/
theorem email_accepts_iff :
    (∀ v : JSString, emailValidate.validate v = true ↔
      ∃ l domain, split 64 (trim v) = [l, domain] ∧
        domain ∈ [utf16 "ya.ru", utf16 "yandex.ru", utf16 "yandex.ua", utf16 "yandex.by",
          utf16 "yandex.kz", utf16 "yandex.com"] ∧
        LocalPartSpec l) ∧
    emailValidate.validate (utf16 "user.name@yandex.ru") = true ∧
    emailValidate.validate (utf16 "user@gmail.com") = false ∧
    emailValidate.validate (utf16 "bad@@ya.ru") = false := by
  refine ⟨?_, by decide, by decide, by decide⟩
  intro v
  simp only [emailValidate]
  generalize split 64 (trim v) = parts
  match parts with
  | [] => simp
  | [a] => simp
  | [a, b] =>
    have hmem : b ∈ allowedDomains ↔
        (b = utf16 "ya.ru" ∨ b = utf16 "yandex.ru" ∨ b = utf16 "yandex.ua" ∨
          b = utf16 "yandex.by" ∨ b = utf16 "yandex.kz" ∨ b = utf16 "yandex.com") := by
      simp [allowedDomains]
    have e0 : [a, b].getD 0 [] = a := rfl
    have e1 : [a, b].getD 1 [] = b := rfl
    by_cases hb : allowedDomains.contains b = true
    · have hb2 : b ∈ allowedDomains := by simpa using hb
      simp only [List.length_cons, List.length_nil, bne_self_eq_false, Bool.false_eq_true,
        if_false, e0, e1, hb, Bool.not_true, emailPattern_test_iff]
      constructor
      · intro h
        exact ⟨a, b, rfl, by simpa using hmem.mp hb2, h⟩
      · rintro ⟨l, d, h, _, hl⟩
        simp only [List.cons.injEq, and_true] at h
        rw [h.1]
        exact hl
    · have hb2 : b ∉ allowedDomains := by simpa using hb
      simp only [List.length_cons, List.length_nil, bne_self_eq_false, Bool.false_eq_true,
        if_false, e0, e1, hb, Bool.not_false, if_true]
      constructor
      · intro h
        cases h
      · rintro ⟨l, d, h, hd, _⟩
        simp only [List.cons.injEq, and_true] at h
        rw [← h.2] at hd
        exact absurd (hmem.mpr (by simpa using hd)) hb2
  | a :: b :: c :: rest => simp

theorem matches_seq_unit_iff (p : Nat → Bool) (r : RE) (s : JSString) :
    RE.Matches (RE.seq (RE.unit p) r) s ↔ ∃ c t, s = c :: t ∧ p c = true ∧ RE.Matches r t := by
  rw [RE.matches_seq_iff]
  constructor
  · rintro ⟨s1, s2, rfl, h1, h2⟩
    obtain ⟨c, hc, rfl⟩ := RE.matches_unit_iff.mp h1
    exact ⟨c, s2, rfl, hc, h2⟩
  · rintro ⟨c, t, rfl, hc, h⟩
    exact ⟨[c], t, rfl, RE.Matches.unit p c hc, h⟩

theorem matches_seq_assoc_iff (a b c : RE) (s : JSString) :
    RE.Matches (RE.seq (RE.seq a b) c) s ↔ RE.Matches (RE.seq a (RE.seq b c)) s := by
  simp only [RE.matches_seq_iff]
  constructor
  · rintro ⟨s1, s2, rfl, ⟨s3, s4, rfl, h3, h4⟩, h2⟩
    exact ⟨s3, s4 ++ s2, by simp, h3, s4, s2, rfl, h4, h2⟩
  · rintro ⟨s1, s2, rfl, h1, s3, s4, rfl, h3, h4⟩
    exact ⟨s1 ++ s3, s4, by simp, ⟨s1, s3, rfl, h1, h3⟩, h4⟩

theorem matches_seq_empty_left_iff (r : RE) (s : JSString) :
    RE.Matches (RE.seq RE.empty r) s ↔ RE.Matches r s := by
  rw [RE.matches_seq_iff]
  constructor
  · rintro ⟨s1, s2, rfl, h1, h2⟩
    rw [RE.matches_empty_iff.mp h1]
    exact h2
  · intro h
    exact ⟨[], s, rfl, RE.Matches.empty, h⟩

/-- The body of the phone pattern matches exactly the strings of the form
`+7(XXX)XXX-XX-XX`. -/
theorem matches_phone_body_iff (s : JSString) :
    RE.Matches phonePattern.body s ↔ isPhoneForm s = true := by
  simp only [phonePattern, RE.cat, RE.rep, RE.lit, matches_seq_assoc_iff,
    matches_seq_empty_left_iff, matches_seq_unit_iff, RE.matches_unit_iff]
  constructor
  · rintro ⟨c1, t1, rfl, h1, c2, t2, rfl, h2, c3, t3, rfl, h3, c4, t4, rfl, h4, c5, t5, rfl, h5,
      c6, t6, rfl, h6, c7, t7, rfl, h7, c8, t8, rfl, h8, c9, t9, rfl, h9, c10, t10, rfl, h10,
      c11, t11, rfl, h11, c12, t12, rfl, h12, c13, t13, rfl, h13, c14, t14, rfl, h14,
      c15, t15, rfl, h15, c16, t16, rfl, h16, h17⟩
    rw [RE.matches_empty_iff.mp h17]
    simp only [isPhoneForm, h1, h2, h3, h4, h5, h6, h7, h8, h9, h10, h11, h12, h13, h14, h15,
      h16, Bool.and_self]
  · intro h
    unfold isPhoneForm at h
    split at h
    · simp only [Bool.and_eq_true] at h
      obtain ⟨⟨⟨⟨⟨⟨⟨⟨⟨⟨⟨⟨⟨⟨⟨h1, h2⟩, h3⟩, h4⟩, h5⟩, h6⟩, h7⟩, h8⟩, h9⟩, h10⟩, h11⟩, h12⟩, h13⟩,
        h14⟩, h15⟩, h16⟩ := h
      exact ⟨_, _, rfl, h1, _, _, rfl, h2, _, _, rfl, h3, _, _, rfl, h4, _, _, rfl, h5,
        _, _, rfl, h6, _, _, rfl, h7, _, _, rfl, h8, _, _, rfl, h9, _, _, rfl, h10,
        _, _, rfl, h11, _, _, rfl, h12, _, _, rfl, h13, _, _, rfl, h14, _, _, rfl, h15,
        _, _, rfl, h16, RE.Matches.empty⟩
    · cases h

/-- C5 as stated fails: the pattern of `phoneValidate` has no `^`, so a value
with characters before `+7(` is accepted. -/
theorem phone_not_anchored_at_start :
    ¬ (phoneValidate.validate (utf16 "x+7(911)123-45-67") = true ↔
        phoneFormatSpec (utf16 "x+7(911)123-45-67") = true) := by
  decide

/-- C5, amended: `phoneValidate.validate` accepts a value exactly when the
trimmed value contains, at any position, a string of the form
`+7(XXX)XXX-XX-XX` with every `X` a digit, whatever stands before or after
it; `+7(911)123-45-67` passes and `89111234567` fails. -/
theorem phone_accepts_iff :
    (∀ v : JSString, phoneValidate.validate v = true ↔
      ∃ before p after, trim v = before ++ p ++ after ∧ isPhoneForm p = true) ∧
    phoneValidate.validate (utf16 "+7(911)123-45-67") = true ∧
    phoneValidate.validate (utf16 "89111234567") = false := by
  refine ⟨?_, by decide, by decide⟩
  intro v
  have h := test_unanchored_iff phonePattern.body (trim v)
  simp only [matches_phone_body_iff] at h
  exact h


theorem digitValue_ten (c : Nat) :
    digitValue 10 c = if isDigitUnit c = true then some (c - 48) else none := by
  unfold digitValue isDigitUnit
  by_cases h1 : 48 ≤ c ∧ c ≤ 57
  · have : c - 48 < 10 := by omega
    simp [h1, Option.filter, this]
  · by_cases h2 : 97 ≤ c ∧ c ≤ 122
    · have : ¬ c - 87 < 10 := by omega
      simp [h1, h2, Option.filter, this]
    · by_cases h3 : 65 ≤ c ∧ c ≤ 90
      · have : ¬ c - 55 < 10 := by omega
        simp [h1, h2, h3, Option.filter, this]
      · simp [h1, h2, h3, Option.filter]

theorem parseDigits_unit (c : Nat) :
    parseDigits 10 [c] none = if isDigitUnit c = true then some (c - 48) else none := by
  simp only [parseDigits, digitValue_ten]
  by_cases hd : isDigitUnit c = true <;> simp [hd, parseDigits]

theorem stripRadix_unit (c : Nat) : stripRadix [c] = (10, [c]) := by
  unfold stripRadix
  split
  · rename_i h; simp at h
  · rename_i h; simp at h
  · rfl

theorem stripSign_unit (c : Nat) (h45 : c ≠ 45) (h43 : c ≠ 43) : stripSign [c] = (false, [c]) := by
  unfold stripSign
  split
  · rename_i h
    simp only [List.cons.injEq] at h
    exact absurd h.1 h45
  · rename_i h
    simp only [List.cons.injEq] at h
    exact absurd h.1 h43
  · rfl

theorem parseInt_unit (c : Nat) : (parseInt [c]).isSome = isDigitUnit c := by
  by_cases ht : isTrimUnit c = true
  · have hd : isDigitUnit c = false := by
      simp only [isTrimUnit, Bool.or_eq_true, Bool.and_eq_true, beq_iff_eq,
        decide_eq_true_eq] at ht
      simp only [isDigitUnit, Bool.and_eq_false_iff, decide_eq_false_iff_not]
      omega
    simp [parseInt, trimStart, ht, hd, parseDigits, stripSign, stripRadix]
  · simp only [Bool.not_eq_true] at ht
    by_cases h45 : c = 45
    · subst h45
      simp [parseInt, trimStart, isTrimUnit, isDigitUnit, parseDigits, stripSign, stripRadix]
    · by_cases h43 : c = 43
      · subst h43
        simp [parseInt, trimStart, isTrimUnit, isDigitUnit, parseDigits, stripSign, stripRadix]
      · have e : trimStart [c] = [c] := by simp [trimStart, ht]
        unfold parseInt
        rw [e, stripSign_unit c h45 h43]
        simp only [stripRadix_unit, parseDigits_unit]
        by_cases hd : isDigitUnit c = true <;> simp [hd]

theorem trim_unit (c : Nat) (h : isTrimUnit c = false) : trim [c] = [c] := by
  simp [trim, trimStart, trimEnd, h]

theorem toNumber_digit (c : Nat) (hd : isDigitUnit c = true) : toNumber [c] = some (c - 48) := by
  have ht : isTrimUnit c = false := by
    simp only [isDigitUnit, Bool.and_eq_true, decide_eq_true_eq] at hd
    simp only [isTrimUnit, Bool.or_eq_false_iff, Bool.and_eq_false_iff, beq_eq_false_iff_ne,
      decide_eq_false_iff_not]
    omega
  simp [toNumber, trim_unit c ht, hd, parseDigits_unit]

theorem sumStep_unit (a c : Nat) :
    sumStep (some a) [c] = some (a + if isDigitUnit c = true then c - 48 else 0) := by
  unfold sumStep
  rw [parseInt_unit]
  by_cases hd : isDigitUnit c = true
  · simp [hd, toNumber_digit c hd]
  · simp [hd]

theorem foldl_sumStep (v : JSString) (a : Nat) :
    (splitUnits v).foldl sumStep (some a) = some (a + digitSum v) := by
  induction v generalizing a with
  | nil => simp [splitUnits, digitSum]
  | cons c cs ih =>
    have h := ih (a + if isDigitUnit c = true then c - 48 else 0)
    simp only [splitUnits] at h
    simp only [splitUnits, List.map_cons, List.foldl_cons, sumStep_unit, h]
    by_cases hd : isDigitUnit c = true
    · simp [digitSum, hd, List.filter_cons]
      omega
    · simp [digitSum, hd, List.filter_cons]

/-- C6: `phoneNumberSum.validate` accepts a value exactly when the digit
characters of the raw value sum to at most 30; a value without digits
passes, a sum of exactly 30 passes and a sum of 31 fails. -/
theorem digitSum_accepts_iff :
    (∀ v : JSString, phoneNumberSum.validate v = true ↔ digitSum v ≤ 30) ∧
    phoneNumberSum.validate (utf16 " no digits ") = true ∧
    (digitSum (utf16 " 9-9 9x3 ") = 30 ∧ phoneNumberSum.validate (utf16 " 9-9 9x3 ") = true) ∧
    (digitSum (utf16 " 9-9 9x4 ") = 31 ∧ phoneNumberSum.validate (utf16 " 9-9 9x4 ") = false) := by
  refine ⟨?_, by decide, by decide, by decide⟩
  intro v
  have h := foldl_sumStep v 0
  simp only [Nat.zero_add] at h
  simp only [phoneNumberSum, h]
  by_cases h30 : digitSum v ≤ 30
  · simp [h30]
  · simp [h30]

/-! ## The validator -/

theorem getErrors_eq (self : Validator) : self.getErrors = self.messages := by
  unfold Validator.getErrors
  exact List.map_id _

theorem hasErrors_eq_false_iff (self : Validator) : self.hasErrors = false ↔ self.messages = [] := by
  cases h : self.messages <;> simp [Validator.hasErrors, h]

theorem hasErrors_eq_true_iff (self : Validator) : self.hasErrors = true ↔ self.messages ≠ [] := by
  cases h : self.messages <;> simp [Validator.hasErrors, h]

theorem mem_of_lookup {β : Type} (k : String) (v : β) :
    ∀ l : List (String × β), l.lookup k = some v → (k, v) ∈ l := by
  intro l
  induction l with
  | nil => intro h; simp [List.lookup] at h
  | cons p ps ih =>
    intro h
    obtain ⟨k1, v1⟩ := p
    by_cases hk : k = k1
    · subst hk
      simp [List.lookup] at h
      simp [h]
    · have hb : (k == k1) = false := by simpa using hk
      simp only [List.lookup, hb] at h
      exact List.mem_cons_of_mem _ (ih h)

/-- The inner loop on registered names: it completes, and appends the
message of every failing check. -/
theorem checkLoop_registered (value : JSString) :
    ∀ (names errors : List String), (∀ n ∈ names, (types.lookup n).isSome = true) →
      checkLoop value names errors = .ok (errors ++ failedMessages value names) := by
  intro names
  induction names with
  | nil => intro errors _; simp [checkLoop, failedMessages]
  | cons n ns ih =>
    intro errors h
    have hn := h n (List.mem_cons_self n ns)
    have hns : ∀ m ∈ ns, (types.lookup m).isSome = true :=
      fun m hm => h m (List.mem_cons_of_mem n hm)
    obtain ⟨checker, hc⟩ := Option.isSome_iff_exists.mp hn
    by_cases hv : checker.validate value = true
    · simp [checkLoop, hc, hv, ih _ hns, failedMessages, passes, List.filter_cons]
    · simp only [Bool.not_eq_true] at hv
      simp [checkLoop, hc, hv, ih _ hns, failedMessages, passes, messageOf, List.filter_cons]

/-- The inner loop on a list with a name that `this.types` does not own: it
throws at the first such name. -/
theorem checkLoop_unknown (value : JSString) :
    ∀ (names errors : List String), (∃ n ∈ names, types.lookup n = none) →
      ∃ n ∈ names, types.lookup n = none ∧ checkLoop value names errors = .error (thrownAt n) := by
  intro names
  induction names with
  | nil => rintro errors ⟨n, hn, _⟩; cases hn
  | cons n ns ih =>
    rintro errors ⟨m, hm, hm2⟩
    cases hc : types.lookup n with
    | none =>
      refine ⟨n, List.mem_cons_self n ns, hc, ?_⟩
      by_cases hi : inherited n = true
      · simp [checkLoop, hc, thrownAt, hi]
      · simp only [Bool.not_eq_true] at hi
        simp [checkLoop, hc, thrownAt, hi, unknownCheck]
    | some checker =>
      have hmns : m ∈ ns := by
        rcases List.mem_cons.mp hm with rfl | h
        · rw [hc] at hm2; cases hm2
        · exact h
      by_cases hv : checker.validate value = true
      · obtain ⟨k, hk, hk2, hk3⟩ := ih errors ⟨m, hmns, hm2⟩
        exact ⟨k, List.mem_cons_of_mem n hk, hk2, by simp [checkLoop, hc, hv, hk3]⟩
      · obtain ⟨k, hk, hk2, hk3⟩ := ih (errors ++ [checker.errorMessage]) ⟨m, hmns, hm2⟩
        simp only [Bool.not_eq_true] at hv
        exact ⟨k, List.mem_cons_of_mem n hk, hk2, by simp [checkLoop, hc, hv, hk3]⟩

theorem registered_or_unknown (names : List String) :
    (∀ n ∈ names, (types.lookup n).isSome = true) ∨ ∃ n ∈ names, types.lookup n = none := by
  induction names with
  | nil => exact Or.inl (by simp)
  | cons n ns ih =>
    cases hc : types.lookup n with
    | none => exact Or.inr ⟨n, List.mem_cons_self n ns, hc⟩
    | some c =>
      rcases ih with h | ⟨m, hm, hm2⟩
      · left
        intro k hk
        rcases List.mem_cons.mp hk with rfl | hk
        · simp [hc]
        · exact h k hk
      · exact Or.inr ⟨m, List.mem_cons_of_mem n hm, hm2⟩


theorem length_bne_zero (l : List String) : (l.length != 0) = true ↔ l ≠ [] := by
  cases l <;> simp

theorem lookup_eq_none_iff (config : Config) (k : String) :
    config.lookup k = none ↔ hasOwnProperty config k = false := by
  unfold hasOwnProperty
  induction config with
  | nil => simp [List.lookup]
  | cons p ps ih =>
    obtain ⟨k1, v1⟩ := p
    by_cases hk : k = k1
    · subst hk
      simp [List.lookup]
    · have hb : (k == k1) = false := by simpa using hk
      have hb2 : (k1 == k) = false := by simpa using fun h : k1 = k => hk h.symm
      simp only [List.lookup, hb, List.any_cons, hb2, Bool.false_or]
      exact ih

/-- Without a check name outside the registry and without a field name that
finds an inherited member in the configuration, the loop over the fields
completes and appends the recorded errors of every field. -/
theorem fieldLoop_complete (config : Config) :
    ∀ (data : Snapshot) (messages : List FieldError), ¬ HasUnknownCheck config data →
      (∀ p ∈ data, config.lookup p.1 = none → inherited p.1 = false) →
      fieldLoop config data messages = (messages ++ data.filterMap (recorded config), .ok ()) := by
  intro data
  induction data with
  | nil => intro messages _ _; simp [fieldLoop]
  | cons p rest ih =>
    intro messages hno hni
    obtain ⟨i, value⟩ := p
    have hrest : ¬ HasUnknownCheck config rest := by
      rintro ⟨q, hq, h⟩
      exact hno ⟨q, List.mem_cons_of_mem _ hq, h⟩
    have hnirest : ∀ q ∈ rest, config.lookup q.1 = none → inherited q.1 = false :=
      fun q hq => hni q (List.mem_cons_of_mem _ hq)
    cases hl : config.lookup i with
    | none =>
      have hi : inherited i = false := hni (i, value) (List.mem_cons_self _ _) hl
      simp [fieldLoop, hl, hi, recorded, ih _ hrest hnirest]
    | some entry =>
      by_cases ht : entry.truthy = true
      · have hnames : ∀ n ∈ entry.names, (types.lookup n).isSome = true := by
          rcases registered_or_unknown entry.names with h | h
          · exact h
          · exact absurd ⟨(i, value), List.mem_cons_self _ _, entry, hl, ht, h⟩ hno
        have hc := checkLoop_registered value entry.names [] hnames
        simp only [List.nil_append] at hc
        by_cases hf : failedMessages value entry.names = []
        · simp [fieldLoop, hl, ht, hc, hf, recorded, ih _ hrest hnirest]
        · have hlen : ((failedMessages value entry.names).length != 0) = true :=
            (length_bne_zero _).mpr hf
          simp [fieldLoop, hl, ht, hc, hf, hlen, recorded, ih _ hrest hnirest]
      · simp only [Bool.not_eq_true] at ht
        simp [fieldLoop, hl, ht, recorded, ih _ hrest hnirest]

/-- When the loop over the fields completes, no field of the snapshot names a
check outside the registry and no field name found an inherited member in the
configuration. -/
theorem fieldLoop_returned (config : Config) :
    ∀ (data : Snapshot) (messages : List FieldError),
      (fieldLoop config data messages).2 = .ok () →
      ¬ HasUnknownCheck config data ∧
        ∀ p ∈ data, config.lookup p.1 = none → inherited p.1 = false := by
  intro data
  induction data with
  | nil =>
    intro messages _
    refine ⟨?_, ?_⟩
    · rintro ⟨q, hq, _⟩
      cases hq
    · intro p hp
      cases hp
  | cons p rest ih =>
    intro messages h
    obtain ⟨i, value⟩ := p
    have combine : (¬ HasUnknownCheck config rest ∧
          ∀ q ∈ rest, config.lookup q.1 = none → inherited q.1 = false) →
        (∀ entry, config.lookup i = some entry → entry.truthy = true →
          ∀ n ∈ entry.names, (types.lookup n).isSome = true) →
        (config.lookup i = none → inherited i = false) →
        ¬ HasUnknownCheck config ((i, value) :: rest) ∧
          ∀ q ∈ (i, value) :: rest, config.lookup q.1 = none → inherited q.1 = false := by
      rintro ⟨h1, h2⟩ hok hin
      refine ⟨?_, ?_⟩
      · rintro ⟨x, hx, entry, a1, a2, n, a3, a4⟩
        rcases List.mem_cons.mp hx with rfl | hx
        · have := hok entry a1 a2 n a3
          rw [a4] at this
          cases this
        · exact h1 ⟨x, hx, entry, a1, a2, n, a3, a4⟩
      · intro q hq
        rcases List.mem_cons.mp hq with rfl | hq
        · exact hin
        · exact h2 q hq
    cases hl : config.lookup i with
    | none =>
      by_cases hi : inherited i = true
      · simp [fieldLoop, hl, hi] at h
      · simp only [Bool.not_eq_true] at hi
        have h2 : (fieldLoop config rest messages).2 = .ok () := by
          simpa [fieldLoop, hl, hi] using h
        refine combine (ih _ h2) ?_ (fun _ => hi)
        intro entry h1
        rw [hl] at h1
        cases h1
    | some entry =>
      have hin : config.lookup i = none → inherited i = false := by
        intro h1
        rw [hl] at h1
        cases h1
      by_cases ht : entry.truthy = true
      · rcases registered_or_unknown entry.names with hreg | hun
        · have hc := checkLoop_registered value entry.names [] hreg
          simp only [List.nil_append] at hc
          have hok : ∀ entry1, config.lookup i = some entry1 → entry1.truthy = true →
              ∀ n ∈ entry1.names, (types.lookup n).isSome = true := by
            intro entry1 h1 _
            rw [hl] at h1
            cases h1
            exact hreg
          by_cases hlen : ((failedMessages value entry.names).length != 0) = true
          · have h2 : (fieldLoop config rest
                (messages ++ [{ field := i, messages := failedMessages value entry.names }])).2 =
                .ok () := by
              simpa [fieldLoop, hl, ht, hc, hlen] using h
            exact combine (ih _ h2) hok hin
          · have h2 : (fieldLoop config rest messages).2 = .ok () := by
              simpa [fieldLoop, hl, ht, hc, hlen] using h
            exact combine (ih _ h2) hok hin
        · obtain ⟨n, _, _, hn3⟩ := checkLoop_unknown value entry.names [] hun
          simp [fieldLoop, hl, ht, hn3] at h
      · simp only [Bool.not_eq_true] at ht
        have h2 : (fieldLoop config rest messages).2 = .ok () := by
          simpa [fieldLoop, hl, ht] using h
        refine combine (ih _ h2) ?_ hin
        intro entry1 h1 h3
        rw [hl] at h1
        cases h1
        rw [ht] at h3
        cases h3

/-- When the loop over the fields throws, the snapshot splits at the field at
which it throws: that field finds an inherited member in the configuration,
or names a check outside the registry; the messages are those recorded for
the fields before it. -/
theorem fieldLoop_partial (config : Config) :
    ∀ (data : Snapshot) (messages : List FieldError) (e : String),
      (fieldLoop config data messages).2 = .error e →
      ∃ before p after, data = before ++ p :: after ∧
        ¬ HasUnknownCheck config before ∧
        (∀ q ∈ before, config.lookup q.1 = none → inherited q.1 = false) ∧
        ((config.lookup p.1 = none ∧ inherited p.1 = true ∧ e = notIterable) ∨
          ∃ entry, config.lookup p.1 = some entry ∧ entry.truthy = true ∧
            ∃ n ∈ entry.names, types.lookup n = none ∧ e = thrownAt n) ∧
        (fieldLoop config data messages).1 = messages ++ before.filterMap (recorded config) := by
  intro data
  induction data with
  | nil =>
    intro messages e h
    simp [fieldLoop] at h
  | cons q rest ih =>
    intro messages e h
    obtain ⟨i, value⟩ := q
    have extend : ∀ (m1 : List FieldError),
        fieldLoop config ((i, value) :: rest) messages = fieldLoop config rest m1 →
        m1 = messages ++ (recorded config (i, value)).toList →
        (∀ entry, config.lookup i = some entry → entry.truthy = true →
          ∀ n ∈ entry.names, (types.lookup n).isSome = true) →
        (config.lookup i = none → inherited i = false) →
        ∃ before p after, (i, value) :: rest = before ++ p :: after ∧
          ¬ HasUnknownCheck config before ∧
          (∀ q ∈ before, config.lookup q.1 = none → inherited q.1 = false) ∧
          ((config.lookup p.1 = none ∧ inherited p.1 = true ∧ e = notIterable) ∨
            ∃ entry, config.lookup p.1 = some entry ∧ entry.truthy = true ∧
              ∃ n ∈ entry.names, types.lookup n = none ∧ e = thrownAt n) ∧
          (fieldLoop config ((i, value) :: rest) messages).1 =
            messages ++ before.filterMap (recorded config) := by
      intro m1 heq hm1 hok hin
      rw [heq] at h ⊢
      obtain ⟨before, p, after, h1, h2, h2b, h3, h4⟩ := ih m1 e h
      refine ⟨(i, value) :: before, p, after, by rw [h1]; rfl, ?_, ?_, h3, ?_⟩
      · rintro ⟨x, hx, entry, a1, a2, n, a3, a4⟩
        rcases List.mem_cons.mp hx with rfl | hx
        · have := hok entry a1 a2 n a3
          rw [a4] at this
          cases this
        · exact h2 ⟨x, hx, entry, a1, a2, n, a3, a4⟩
      · intro x hx
        rcases List.mem_cons.mp hx with rfl | hx
        · exact hin
        · exact h2b x hx
      · rw [h4, hm1]
        cases hrec : recorded config (i, value) <;> simp [List.filterMap_cons, hrec]
    have stop : ∀ (hcase : (config.lookup i = none ∧ inherited i = true ∧ e = notIterable) ∨
          ∃ entry, config.lookup i = some entry ∧ entry.truthy = true ∧
            ∃ n ∈ entry.names, types.lookup n = none ∧ e = thrownAt n),
        (fieldLoop config ((i, value) :: rest) messages).1 = messages →
        ∃ before p after, (i, value) :: rest = before ++ p :: after ∧
          ¬ HasUnknownCheck config before ∧
          (∀ q ∈ before, config.lookup q.1 = none → inherited q.1 = false) ∧
          ((config.lookup p.1 = none ∧ inherited p.1 = true ∧ e = notIterable) ∨
            ∃ entry, config.lookup p.1 = some entry ∧ entry.truthy = true ∧
              ∃ n ∈ entry.names, types.lookup n = none ∧ e = thrownAt n) ∧
          (fieldLoop config ((i, value) :: rest) messages).1 =
            messages ++ before.filterMap (recorded config) := by
      intro hcase hm
      refine ⟨[], (i, value), rest, rfl, ?_, ?_, hcase, by rw [hm]; simp⟩
      · rintro ⟨x, hx, _⟩
        cases hx
      · intro x hx
        cases hx
    cases hl : config.lookup i with
    | none =>
      by_cases hi : inherited i = true
      · have hres : fieldLoop config ((i, value) :: rest) messages =
            (messages, .error notIterable) := by
          simp [fieldLoop, hl, hi]
        rw [hres] at h
        simp only [Except.error.injEq] at h
        exact stop (Or.inl ⟨hl, hi, h.symm⟩) (by rw [hres])
      · simp only [Bool.not_eq_true] at hi
        apply extend messages
        · simp [fieldLoop, hl, hi]
        · simp [recorded, hl]
        · intro entry h1
          rw [hl] at h1
          cases h1
        · exact fun _ => hi
    | some entry =>
      have hin : config.lookup i = none → inherited i = false := by
        intro h1
        rw [hl] at h1
        cases h1
      by_cases ht : entry.truthy = true
      · rcases registered_or_unknown entry.names with hreg | hun
        · have hc := checkLoop_registered value entry.names [] hreg
          simp only [List.nil_append] at hc
          have hok : ∀ entry1, config.lookup i = some entry1 → entry1.truthy = true →
              ∀ n ∈ entry1.names, (types.lookup n).isSome = true := by
            intro entry1 h1 _
            rw [hl] at h1
            cases h1
            exact hreg
          by_cases hf : failedMessages value entry.names = []
          · apply extend messages
            · simp [fieldLoop, hl, ht, hc, hf]
            · simp [recorded, hl, ht, hf]
            · exact hok
            · exact hin
          · have hlen : ((failedMessages value entry.names).length != 0) = true :=
              (length_bne_zero _).mpr hf
            apply extend
              (messages ++ [{ field := i, messages := failedMessages value entry.names }])
            · simp [fieldLoop, hl, ht, hc, hlen]
            · simp [recorded, hl, ht, hf]
            · exact hok
            · exact hin
        · obtain ⟨n, hn1, hn2, hn3⟩ := checkLoop_unknown value entry.names [] hun
          have hres : fieldLoop config ((i, value) :: rest) messages =
              (messages, .error (thrownAt n)) := by
            simp [fieldLoop, hl, ht, hn3]
          rw [hres] at h
          simp only [Except.error.injEq] at h
          exact stop (Or.inr ⟨entry, hl, ht, n, hn1, hn2, h.symm⟩) (by rw [hres])
      · simp only [Bool.not_eq_true] at ht
        apply extend messages
        · simp [fieldLoop, hl, ht]
        · simp [recorded, hl, ht]
        · intro entry1 h1 h2
          rw [hl] at h1
          cases h1
          rw [ht] at h2
          cases h2
        · exact hin

/-! ### The errors `validate` can throw are different strings -/

theorem unknownCheck_data (n : String) :
    (unknownCheck n).data = "Нет обработчика ".data ++ n.data := by
  unfold unknownCheck
  exact String.data_append _ _

theorem unknownCheck_head (n : String) : (unknownCheck n).data.head? = some 'Н' := by
  rw [unknownCheck_data]
  rfl

theorem unknownCheck_ne_notIterable (n : String) : unknownCheck n ≠ notIterable := by
  intro h
  have h2 := unknownCheck_head n
  rw [h] at h2
  revert h2
  decide

theorem unknownCheck_ne_notAFunction (n : String) : unknownCheck n ≠ notAFunction := by
  intro h
  have h2 := unknownCheck_head n
  rw [h] at h2
  revert h2
  decide

theorem unknownCheck_ne_guard (n : String) : unknownCheck n ≠ guardNotAFunction := by
  intro h
  have h2 := unknownCheck_head n
  rw [h] at h2
  revert h2
  decide

theorem unknownCheck_injective (n m : String) (h : unknownCheck n = unknownCheck m) : n = m := by
  have h2 := congrArg String.data h
  rw [unknownCheck_data, unknownCheck_data] at h2
  exact String.ext (List.append_cancel_left h2)

/-- The error thrown at a check name is the error for a name without a
handler only when the name is not that of an inherited member. -/
theorem thrownAt_eq_unknownCheck (n m : String) (h : thrownAt n = unknownCheck m) :
    inherited n = false ∧ n = m := by
  unfold thrownAt at h
  by_cases hi : inherited n = true
  · rw [if_pos hi] at h
    exact absurd h.symm (unknownCheck_ne_notAFunction m)
  · rw [if_neg hi] at h
    simp only [Bool.not_eq_true] at hi
    exact ⟨hi, unknownCheck_injective n m h⟩

/-! ### From the loop to `validate` -/

theorem validateLoop_plain (config : Config) (data : Snapshot)
    (h : (data.any fun p => p.1 == "hasOwnProperty") = false) :
    validateLoop config data = fieldLoop config data [] := by
  unfold validateLoop
  rw [h]
  rfl

theorem validateLoop_shadowed (config : Config) (data : Snapshot)
    (h : (data.any fun p => p.1 == "hasOwnProperty") = true) :
    validateLoop config data = ([], .error guardNotAFunction) := by
  unfold validateLoop
  rw [h]
  rfl

theorem validate_messages (self : Validator) (data : Snapshot) :
    (self.validate data).1.messages = (validateLoop self.config data).1 := by
  unfold Validator.validate
  generalize validateLoop self.config data = r
  obtain ⟨m, o⟩ := r
  cases o <;> rfl

theorem validate_error_iff (self : Validator) (data : Snapshot) (e : String) :
    (self.validate data).2 = .error e ↔ (validateLoop self.config data).2 = .error e := by
  unfold Validator.validate
  generalize validateLoop self.config data = r
  obtain ⟨m, o⟩ := r
  cases o <;> simp

theorem validate_ok (self : Validator) (data : Snapshot) (b : Bool)
    (h : (self.validate data).2 = .ok b) :
    (validateLoop self.config data).2 = .ok () ∧ b = !(self.validate data).1.hasErrors := by
  unfold Validator.validate at h ⊢
  generalize validateLoop self.config data = r at h ⊢
  obtain ⟨m, o⟩ := r
  cases o with
  | error x => simp at h
  | ok u =>
    simp only [Except.ok.injEq] at h
    exact ⟨rfl, h.symm⟩

theorem not_meets_iff (config : Config) (data : Snapshot) :
    ¬ MeetsPrototype config data ↔
      (data.any fun p => p.1 == "hasOwnProperty") = false ∧
        ∀ p ∈ data, config.lookup p.1 = none → inherited p.1 = false := by
  unfold MeetsPrototype
  constructor
  · intro h
    refine ⟨?_, ?_⟩
    · rw [Bool.eq_false_iff]
      intro hany
      obtain ⟨p, hp, hp2⟩ := List.any_eq_true.mp hany
      exact h ⟨p, hp, Or.inl (by simpa using hp2)⟩
    · intro p hp hl
      cases hi : inherited p.1 with
      | false => rfl
      | true => exact absurd ⟨p, hp, Or.inr ⟨(lookup_eq_none_iff config p.1).mp hl, hi⟩⟩ h
  · rintro ⟨h1, h2⟩ ⟨p, hp, hp2 | ⟨hp3, hp4⟩⟩
    · have : (data.any fun p => p.1 == "hasOwnProperty") = true :=
        List.any_eq_true.mpr ⟨p, hp, by simpa using hp2⟩
      rw [h1] at this
      cases this
    · have := h2 p hp ((lookup_eq_none_iff config p.1).mpr hp3)
      rw [hp4] at this
      cases this

theorem validate_complete (self : Validator) (data : Snapshot)
    (hno : ¬ HasUnknownCheck self.config data) (hmp : ¬ MeetsPrototype self.config data) :
    (self.validate data).1.messages = data.filterMap (recorded self.config) ∧
    (self.validate data).2 = .ok (!(self.validate data).1.hasErrors) := by
  obtain ⟨h1, h2⟩ := (not_meets_iff self.config data).mp hmp
  simp [Validator.validate, validateLoop_plain self.config data h1,
    fieldLoop_complete self.config data [] hno h2]

theorem validate_config (self : Validator) (data : Snapshot) :
    (self.validate data).1.config = self.config := by
  unfold Validator.validate
  generalize validateLoop self.config data = r
  obtain ⟨m, e⟩ := r
  cases e <;> rfl

/-- When `validate` returns, no field of the snapshot names a check outside
the registry and no field name met a member of `Object.prototype`. -/
theorem validate_returned (self : Validator) (data : Snapshot) (b : Bool)
    (hret : (self.validate data).2 = .ok b) :
    ¬ HasUnknownCheck self.config data ∧ ¬ MeetsPrototype self.config data := by
  obtain ⟨h1, _⟩ := validate_ok self data b hret
  cases hany : (data.any fun p => p.1 == "hasOwnProperty") with
  | true =>
    rw [validateLoop_shadowed _ _ hany] at h1
    cases h1
  | false =>
    rw [validateLoop_plain _ _ hany] at h1
    obtain ⟨a1, a2⟩ := fieldLoop_returned self.config data [] h1
    exact ⟨a1, (not_meets_iff self.config data).mpr ⟨hany, a2⟩⟩

/-- When `validate` throws, either the guard of the first iteration threw and
nothing is stored, or the snapshot splits at the field at which the loop
threw and the stored messages are those recorded for the fields before it. -/
theorem validate_partial (self : Validator) (data : Snapshot) (e : String)
    (h : (self.validate data).2 = .error e) :
    (e = guardNotAFunction ∧ (∃ p ∈ data, p.1 = "hasOwnProperty") ∧
        (self.validate data).1.messages = []) ∨
      ∃ before p after, data = before ++ p :: after ∧
        ¬ HasUnknownCheck self.config before ∧ ¬ MeetsPrototype self.config before ∧
        ((hasOwnProperty self.config p.1 = false ∧ inherited p.1 = true ∧ e = notIterable) ∨
          ∃ entry, self.config.lookup p.1 = some entry ∧ entry.truthy = true ∧
            ∃ n ∈ entry.names, types.lookup n = none ∧ e = thrownAt n) ∧
        (self.validate data).1.messages = before.filterMap (recorded self.config) := by
  rw [validate_error_iff] at h
  rw [validate_messages]
  cases hany : (data.any fun p => p.1 == "hasOwnProperty") with
  | true =>
    rw [validateLoop_shadowed _ _ hany] at h ⊢
    simp only [Except.error.injEq] at h
    obtain ⟨p, hp, hp2⟩ := List.any_eq_true.mp hany
    exact Or.inl ⟨h.symm, ⟨p, hp, by simpa using hp2⟩, rfl⟩
  | false =>
    rw [validateLoop_plain _ _ hany] at h ⊢
    obtain ⟨before, p, after, h1, h2, h3, h4, h5⟩ := fieldLoop_partial self.config data [] e h
    simp only [List.nil_append] at h5
    refine Or.inr ⟨before, p, after, h1, h2, ?_, ?_, h5⟩
    · rw [not_meets_iff]
      refine ⟨?_, h3⟩
      rw [Bool.eq_false_iff]
      intro hb
      obtain ⟨x, hx, hx2⟩ := List.any_eq_true.mp hb
      have : (data.any fun p => p.1 == "hasOwnProperty") = true :=
        List.any_eq_true.mpr ⟨x, by rw [h1]; exact List.mem_append_left _ hx, hx2⟩
      rw [hany] at this
      cases this
    · rcases h4 with ⟨a1, a2, a3⟩ | h4
      · exact Or.inl ⟨(lookup_eq_none_iff _ _).mp a1, a2, a3⟩
      · exact Or.inr h4

/-- A field name that meets a member of `Object.prototype` makes `validate`
throw. -/
theorem validate_meets (self : Validator) (data : Snapshot)
    (hmp : MeetsPrototype self.config data) : ∃ e, (self.validate data).2 = .error e := by
  cases hr : (self.validate data).2 with
  | error e => exact ⟨e, rfl⟩
  | ok b => exact absurd hmp (validate_returned self data b hr).2

theorem registered_no_unknown (config : Config) (data : Snapshot) (hreg : Registered config) :
    ¬ HasUnknownCheck config data := by
  rintro ⟨p, _, entry, hl, _, n, hn, hn2⟩
  have := hreg (p.1, entry) (mem_of_lookup p.1 entry config hl) n hn
  rw [hn2] at this
  cases this

theorem registered_truthy (config : Config) (hreg : Registered config) (k : String)
    (entry : ConfigEntry) (hl : config.lookup k = some entry) : entry.truthy = true := by
  cases entry with
  | many names => rfl
  | single name =>
    have h := hreg (k, .single name) (mem_of_lookup k _ config hl) name (by simp [ConfigEntry.names])
    simp only [ConfigEntry.truthy, bne_iff_ne, ne_eq]
    rintro rfl
    exact absurd h (by decide)

theorem recorded_eq_fieldErrorOf (config : Config) (hreg : Registered config)
    (p : String × JSString) : recorded config p = fieldErrorOf config p := by
  unfold recorded fieldErrorOf
  cases hl : config.lookup p.1 with
  | none => rfl
  | some entry =>
    have ht := registered_truthy config hreg p.1 entry hl
    by_cases hf : failedMessages p.2 entry.names = [] <;> simp [ht, hf]

theorem validate_registered (self : Validator) (data : Snapshot) (hreg : Registered self.config)
    (hmp : ¬ MeetsPrototype self.config data) :
    (self.validate data).1.messages = expectedErrors self.config data ∧
    (self.validate data).2 = .ok (!(self.validate data).1.hasErrors) := by
  have h := validate_complete self data (registered_no_unknown self.config data hreg) hmp
  refine ⟨?_, h.2⟩
  rw [h.1, expectedErrors]
  exact List.filterMap_congr fun p _ => recorded_eq_fieldErrorOf self.config hreg p

theorem failedMessages_eq_nil_iff (value : JSString) (names : List String) :
    failedMessages value names = [] ↔ ∀ n ∈ names, passes n value = true := by
  simp [failedMessages, List.filter_eq_nil_iff]

theorem fieldErrorOf_eq_none_iff (config : Config) (p : String × JSString) :
    fieldErrorOf config p = none ↔
      ∀ entry, config.lookup p.1 = some entry → ∀ n ∈ entry.names, passes n p.2 = true := by
  unfold fieldErrorOf
  cases hl : config.lookup p.1 with
  | none => simp
  | some entry =>
    by_cases hf : failedMessages p.2 entry.names = []
    · simpa [hf] using (failedMessages_eq_nil_iff _ _).mp hf
    · simp only [hf, if_false, Option.some.injEq, forall_eq']
      constructor
      · intro h
        cases h
      · intro h
        exact absurd ((failedMessages_eq_nil_iff _ _).mpr h) hf

theorem expectedErrors_eq_nil_iff (config : Config) (data : Snapshot) :
    expectedErrors config data = [] ↔
      ∀ p ∈ data, ∀ entry, config.lookup p.1 = some entry →
        ∀ n ∈ entry.names, passes n p.2 = true := by
  unfold expectedErrors
  rw [List.filterMap_eq_nil_iff]
  exact forall₂_congr fun p _ => fieldErrorOf_eq_none_iff config p

theorem fieldErrorOf_field (config : Config) (p : String × JSString) (e : FieldError)
    (h : fieldErrorOf config p = some e) : e.field = p.1 := by
  unfold fieldErrorOf at h
  cases hl : config.lookup p.1 with
  | none => simp [hl] at h
  | some entry =>
    simp only [hl] at h
    split at h
    · cases h
    · cases h
      rfl

theorem filter_field_of_not_mem (config : Config) (f : String) :
    ∀ data : Snapshot, f ∉ data.map Prod.fst →
      ((expectedErrors config data).filter fun e => e.field == f) = [] := by
  intro data hf
  rw [List.filter_eq_nil_iff]
  intro e he
  obtain ⟨p, hp, hpe⟩ := List.mem_filterMap.mp he
  have := fieldErrorOf_field config p e hpe
  simp only [beq_iff_eq]
  intro h
  exact hf (List.mem_map.mpr ⟨p, hp, by rw [← this, h]⟩)

/-- The errors recorded under one field name: those of the value of that
field in the snapshot. -/
theorem filter_field_expectedErrors (config : Config) (f : String) :
    ∀ data : Snapshot, (data.map Prod.fst).Nodup →
      ((expectedErrors config data).filter fun e => e.field == f) =
        match data.lookup f with
        | none => []
        | some value => (fieldErrorOf config (f, value)).toList := by
  intro data
  induction data with
  | nil => intro _; rfl
  | cons p rest ih =>
    intro hnd
    obtain ⟨k, value⟩ := p
    simp only [List.map_cons, List.nodup_cons] at hnd
    have hcons : expectedErrors config ((k, value) :: rest) =
        (fieldErrorOf config (k, value)).toList ++ expectedErrors config rest := by
      unfold expectedErrors
      cases h : fieldErrorOf config (k, value) <;> simp [List.filterMap_cons, h]
    rw [hcons, List.filter_append]
    by_cases hk : f = k
    · subst hk
      rw [filter_field_of_not_mem config f rest hnd.1]
      simp only [List.lookup, beq_self_eq_true, List.append_nil]
      cases h : fieldErrorOf config (f, value) with
      | none => rfl
      | some e =>
        have := fieldErrorOf_field config (f, value) e h
        simp [this]
    · have hb : (f == k) = false := by simpa using hk
      rw [ih hnd.2]
      simp only [List.lookup, hb]
      cases h : fieldErrorOf config (k, value) with
      | none => rfl
      | some e =>
        have := fieldErrorOf_field config (k, value) e h
        have hne : (e.field == f) = false := by
          simp only [beq_eq_false_iff_ne, ne_eq, this]
          exact fun h => hk h.symm
        simp [hne]

/-- Every stored error is for a field of the snapshot. -/
theorem getErrors_field_mem (self : Validator) (data : Snapshot) :
    ∀ e ∈ (self.validate data).1.getErrors, ∃ value, (e.field, value) ∈ data := by
  intro e he
  rw [getErrors_eq, validate_messages] at he
  have key : ∀ (d : Snapshot) (m : List FieldError),
      ∀ x ∈ (fieldLoop self.config d m).1, x ∈ m ∨ ∃ value, (x.field, value) ∈ d := by
    intro d
    induction d with
    | nil => intro m x hx; exact Or.inl (by simpa [fieldLoop] using hx)
    | cons p rest ih =>
      intro m x hx
      obtain ⟨i, value⟩ := p
      have lift : (x ∈ m ∨ ∃ v, (x.field, v) ∈ rest) →
          (x ∈ m ∨ ∃ v, (x.field, v) ∈ (i, value) :: rest) := by
        rintro (h | ⟨v, hv⟩)
        · exact Or.inl h
        · exact Or.inr ⟨v, List.mem_cons_of_mem _ hv⟩
      unfold fieldLoop at hx
      cases hl : self.config.lookup i with
      | none =>
        simp only [hl] at hx
        split at hx
        · exact Or.inl hx
        · exact lift (ih m x hx)
      | some entry =>
        simp only [hl] at hx
        split at hx
        · exact lift (ih m x hx)
        · split at hx
          · exact Or.inl hx
          · split at hx
            · rcases ih _ x hx with h | h
              · rcases List.mem_append.mp h with h | h
                · exact Or.inl h
                · simp only [List.mem_singleton] at h
                  subst h
                  exact Or.inr ⟨value, List.mem_cons_self _ _⟩
              · exact lift (Or.inr h)
            · exact lift (ih m x hx)
  cases hany : (data.any fun p => p.1 == "hasOwnProperty") with
  | true =>
    rw [validateLoop_shadowed _ _ hany] at he
    cases he
  | false =>
    rw [validateLoop_plain _ _ hany] at he
    rcases key data [] e he with h | h
    · cases h
    · exact h

/-- With every configured check name registered, `validate` throws only on
a snapshot with a field name that meets a member of `Object.prototype`, and
then a `TypeError`. -/
theorem registered_throws (self : Validator) (data : Snapshot) (hreg : Registered self.config)
    (hmp : MeetsPrototype self.config data) :
    (self.validate data).2 = .error guardNotAFunction ∨
      (self.validate data).2 = .error notIterable := by
  obtain ⟨e, he⟩ := validate_meets self data hmp
  rcases validate_partial self data e he with ⟨h1, _, _⟩ | ⟨before, p, after, _, _, _, h4, _⟩
  · exact Or.inl (by rw [he, h1])
  · rcases h4 with ⟨_, _, h3⟩ | ⟨entry, a1, _, n, a3, a4, _⟩
    · exact Or.inr (by rw [he, h3])
    · have := hreg (p.1, entry) (mem_of_lookup p.1 entry self.config a1) n a3
      rw [a4] at this
      cases this

/-- C1: with every configured check name registered, on a snapshot none of
whose field names meets a member of `Object.prototype`, `validate` returns,
and it returns `true` exactly when every field of the snapshot that is in the
configuration passes every check configured for it; whenever it returns
`true`, `getErrors()` is empty and `hasErrors()` is false.  On a snapshot with
a field name that meets a member of `Object.prototype`, such as an
unconfigured field `toString`, `validate` does not return: it throws a
`TypeError`. -/
theorem validate_true_iff_all_pass (self : Validator) (data : Snapshot)
    (hreg : Registered self.config) :
    (¬ MeetsPrototype self.config data →
      ∃ b, (self.validate data).2 = .ok b ∧
        (b = true ↔
          ∀ p ∈ data, ∀ entry, self.config.lookup p.1 = some entry →
            ∀ n ∈ entry.names, passes n p.2 = true) ∧
        (b = true →
          (self.validate data).1.getErrors = [] ∧ (self.validate data).1.hasErrors = false)) ∧
    (MeetsPrototype self.config data →
      (self.validate data).2 = .error guardNotAFunction ∨
        (self.validate data).2 = .error notIterable) := by
  refine ⟨?_, registered_throws self data hreg⟩
  intro hmp
  obtain ⟨hm, hr⟩ := validate_registered self data hreg hmp
  refine ⟨_, hr, ?_, ?_⟩
  · rw [← expectedErrors_eq_nil_iff, ← hm, ← hasErrors_eq_false_iff]
    simp
  · intro hb
    have hfalse : (self.validate data).1.hasErrors = false := by simpa using hb
    exact ⟨by rw [getErrors_eq]; exact (hasErrors_eq_false_iff _).mp hfalse, hfalse⟩

/-- The hypothesis of C1 holds of the shipped configuration; the theorem
applies to a snapshot of the three fields, and to the snapshot that holds
only a field `toString`, on which `validate` throws where every configured
field passes. -/
theorem validate_true_iff_all_pass_witness :
    Registered config ∧ ¬ MeetsPrototype config validSnapshot ∧
    (∃ b, (Validator.validate { config := config, messages := [] } validSnapshot).2 = .ok b ∧
      (b = true ↔
        ∀ p ∈ validSnapshot, ∀ entry, config.lookup p.1 = some entry →
          ∀ n ∈ entry.names, passes n p.2 = true) ∧
      (b = true →
        (Validator.validate { config := config, messages := [] } validSnapshot).1.getErrors = [] ∧
        (Validator.validate { config := config, messages := [] } validSnapshot).1.hasErrors
          = false)) ∧
    MeetsPrototype config [("toString", utf16 "x")] ∧
    (∀ p ∈ [("toString", utf16 "x")], ∀ entry, config.lookup p.1 = some entry →
      ∀ n ∈ entry.names, passes n p.2 = true) ∧
    (Validator.validate { config := config, messages := [] } [("toString", utf16 "x")]).2 =
      .error notIterable ∧
    ((Validator.validate { config := config, messages := [] } [("toString", utf16 "x")]).2 =
        .error guardNotAFunction ∨
      (Validator.validate { config := config, messages := [] } [("toString", utf16 "x")]).2 =
        .error notIterable) :=
  ⟨by unfold Registered; decide, by unfold MeetsPrototype; decide,
   (validate_true_iff_all_pass { config := config, messages := [] } validSnapshot
     (by unfold Registered; decide)).1 (by unfold MeetsPrototype; decide),
   by unfold MeetsPrototype; decide,
   (by
     intro p hp entry hl
     simp only [List.mem_singleton] at hp
     subst hp
     cases hl),
   by decide,
   (validate_true_iff_all_pass { config := config, messages := [] } [("toString", utf16 "x")]
     (by unfold Registered; decide)).2 (by unfold MeetsPrototype; decide)⟩

/-- C2: with every configured check name registered and at least one failing
check, on a snapshot none of whose field names meets a member of
`Object.prototype`, `validate` returns `false`; `getErrors()` holds, in the
order of the snapshot, one `FieldError` per field with a failing check and
none for any other field; its messages are those of the checks the field
fails, in configured order, every configured check having been run.  On a
snapshot with a field name that meets a member of `Object.prototype`,
`validate` does not return `false`: it throws a `TypeError`. -/
theorem validate_false_field_errors (self : Validator) (data : Snapshot)
    (hreg : Registered self.config) (hkeys : (data.map Prod.fst).Nodup)
    (hfail : ∃ p ∈ data, ∃ entry, self.config.lookup p.1 = some entry ∧
      ∃ n ∈ entry.names, passes n p.2 = false) :
    (¬ MeetsPrototype self.config data →
      (self.validate data).2 = .ok false ∧
      (self.validate data).1.getErrors = expectedErrors self.config data ∧
      ∀ f : String,
        ((self.validate data).1.getErrors.filter fun e => e.field == f) =
          match data.lookup f, self.config.lookup f with
          | some value, some entry =>
            if (entry.names.filter fun n => !passes n value) = [] then []
            else
              [{ field := f
                 messages := (entry.names.filter fun n => !passes n value).map messageOf }]
          | _, _ => []) ∧
    (MeetsPrototype self.config data →
      (self.validate data).2 = .error guardNotAFunction ∨
        (self.validate data).2 = .error notIterable) := by
  refine ⟨?_, registered_throws self data hreg⟩
  intro hmp
  obtain ⟨hm, hr⟩ := validate_registered self data hreg hmp
  have hne : expectedErrors self.config data ≠ [] := by
    intro h
    obtain ⟨p, hp, entry, hl, n, hn, hn2⟩ := hfail
    have := (expectedErrors_eq_nil_iff _ _).mp h p hp entry hl n hn
    rw [hn2] at this
    cases this
  refine ⟨?_, by rw [getErrors_eq, hm], ?_⟩
  · rw [hr]
    have : (self.validate data).1.hasErrors = true := by
      rw [hasErrors_eq_true_iff, hm]
      exact hne
    simp [this]
  · intro f
    rw [getErrors_eq, hm, filter_field_expectedErrors self.config f data hkeys]
    cases hd : data.lookup f with
    | none => rfl
    | some value =>
      cases hl : self.config.lookup f with
      | none => simp [fieldErrorOf, hl]
      | some entry =>
        by_cases hf : (entry.names.filter fun n => !passes n value) = []
        · simp [fieldErrorOf, hl, failedMessages, hf]
        · simp [fieldErrorOf, hl, failedMessages, hf]

/-- The hypotheses of C2 hold of the shipped configuration and a snapshot
with a bad name and a bad phone number; and of a snapshot with a bad name and
a field `toString`, on which `validate` throws. -/
theorem validate_false_field_errors_witness :
    Registered config ∧ (invalidSnapshot.map Prod.fst).Nodup ∧
    ¬ MeetsPrototype config invalidSnapshot ∧
    ((Validator.validate { config := config, messages := [] } invalidSnapshot).2 = .ok false ∧
      (Validator.validate { config := config, messages := [] } invalidSnapshot).1.getErrors =
        expectedErrors config invalidSnapshot ∧
      ∀ f : String,
        ((Validator.validate { config := config, messages := [] }
            invalidSnapshot).1.getErrors.filter fun e => e.field == f) =
          match invalidSnapshot.lookup f, config.lookup f with
          | some value, some entry =>
            if (entry.names.filter fun n => !passes n value) = [] then []
            else
              [{ field := f
                 messages := (entry.names.filter fun n => !passes n value).map messageOf }]
          | _, _ => []) ∧
    (([("fio", utf16 "Иван Иванов"), ("toString", utf16 "x")] : Snapshot).map Prod.fst).Nodup ∧
    passes "fioValidate" (utf16 "Иван Иванов") = false ∧
    (Validator.validate { config := config, messages := [] }
      [("fio", utf16 "Иван Иванов"), ("toString", utf16 "x")]).2 = .error notIterable ∧
    ((Validator.validate { config := config, messages := [] }
        [("fio", utf16 "Иван Иванов"), ("toString", utf16 "x")]).2 = .error guardNotAFunction ∨
      (Validator.validate { config := config, messages := [] }
        [("fio", utf16 "Иван Иванов"), ("toString", utf16 "x")]).2 = .error notIterable) :=
  ⟨by unfold Registered; decide, by decide, by unfold MeetsPrototype; decide,
   (validate_false_field_errors { config := config, messages := [] } invalidSnapshot
     (by unfold Registered; decide) (by decide)
     ⟨("phone", utf16 "89111234567"), by decide, .many ["phoneValidate", "phoneNumberSum"],
      rfl, "phoneNumberSum", by decide, by decide⟩).1 (by unfold MeetsPrototype; decide),
   by decide, by decide, by decide,
   (validate_false_field_errors { config := config, messages := [] }
     [("fio", utf16 "Иван Иванов"), ("toString", utf16 "x")]
     (by unfold Registered; decide) (by decide)
     ⟨("fio", utf16 "Иван Иванов"), by decide, .single "fioValidate",
      rfl, "fioValidate", by decide, by decide⟩).2 (by unfold MeetsPrototype; decide)⟩

/-- C7: whenever `validate` throws the error of a check name without a
handler, some field of the snapshot that is in the configuration names that
check, which is not in the registry; so `validate` never fails this way when
the names of every such field are registered.  The converse holds on a
snapshot none of whose field names meets a member of `Object.prototype` when
no field of the snapshot is configured with the empty string and no
configured name outside the registry is the name of a member of
`Object.prototype`: then `validate` throws that error exactly when some field
present in both names a check that is not in the registry. -/
theorem unknown_check_iff (self : Validator) (data : Snapshot) :
    (∀ n, (self.validate data).2 = .error (unknownCheck n) →
      types.lookup n = none ∧
        ∃ p ∈ data, ∃ entry, self.config.lookup p.1 = some entry ∧ n ∈ entry.names) ∧
    ((∀ p ∈ data, ∀ entry, self.config.lookup p.1 = some entry →
        ∀ n ∈ entry.names, (types.lookup n).isSome = true) →
      ∀ n, (self.validate data).2 ≠ .error (unknownCheck n)) ∧
    (¬ MeetsPrototype self.config data →
      (∀ p ∈ data, ∀ entry, self.config.lookup p.1 = some entry → entry.truthy = true) →
      (∀ p ∈ data, ∀ entry, self.config.lookup p.1 = some entry →
        ∀ n ∈ entry.names, types.lookup n = none → inherited n = false) →
      ((∃ n, types.lookup n = none ∧ (self.validate data).2 = .error (unknownCheck n)) ↔
        ∃ p ∈ data, ∃ entry, self.config.lookup p.1 = some entry ∧
          ∃ n ∈ entry.names, types.lookup n = none)) := by
  have only_if : ∀ n, (self.validate data).2 = .error (unknownCheck n) →
      types.lookup n = none ∧
        ∃ p ∈ data, ∃ entry, self.config.lookup p.1 = some entry ∧ n ∈ entry.names := by
    intro n hn
    rcases validate_partial self data _ hn with ⟨h1, _, _⟩ | ⟨before, p, after, h1, _, _, h4, _⟩
    · exact absurd h1 (unknownCheck_ne_guard n)
    · rcases h4 with ⟨_, _, h3⟩ | ⟨entry, a1, _, m, a3, a4, a5⟩
      · exact absurd h3 (unknownCheck_ne_notIterable n)
      · obtain ⟨_, hmn⟩ := thrownAt_eq_unknownCheck m n a5.symm
        subst hmn
        exact ⟨a4, p, by rw [h1]; simp, entry, a1, a3⟩
  refine ⟨only_if, ?_, ?_⟩
  · intro hreg n hn
    obtain ⟨h1, p, hp, entry, h2, h3⟩ := only_if n hn
    have := hreg p hp entry h2 n h3
    rw [h1] at this
    cases this
  · intro hmp htruthy hplain
    constructor
    · rintro ⟨n, _, hn⟩
      obtain ⟨h1, p, hp, entry, h2, h3⟩ := only_if n hn
      exact ⟨p, hp, entry, h2, n, h3, h1⟩
    · rintro ⟨p, hp, entry, h1, n, h2, h3⟩
      have hu : HasUnknownCheck self.config data :=
        ⟨p, hp, entry, h1, htruthy p hp entry h1, n, h2, h3⟩
      cases hr : (self.validate data).2 with
      | ok b => exact absurd hu (validate_returned self data b hr).1
      | error e =>
        rcases validate_partial self data e hr with
          ⟨_, ⟨q, hq, hq2⟩, _⟩ | ⟨before, q, after, b1, _, _, b4, _⟩
        · exact absurd ⟨q, hq, Or.inl hq2⟩ hmp
        · have hq : q ∈ data := by rw [b1]; simp
          rcases b4 with ⟨c1, c2, _⟩ | ⟨entry1, c1, _, m, c3, c4, c5⟩
          · exact absurd ⟨q, hq, Or.inr ⟨c1, c2⟩⟩ hmp
          · have hi := hplain q hq entry1 c1 m c3 c4
            refine ⟨m, c4, ?_⟩
            rw [c5, thrownAt, hi]
            rfl

/-- The last part of C7 holds of a configuration that names a check without
handler for the phone: `validate` throws the error of that name.  Where its
conditions fail, so does the claim: a field configured with the empty string
as its check name is skipped, although the empty name has no handler and the
same name in an array throws; and a check name that is a member of
`Object.prototype` makes `validate` throw a `TypeError`, which is not the
error of a name without handler. -/
theorem unknown_check_iff_witness :
    ¬ MeetsPrototype brokenConfig invalidSnapshot ∧
    ((∃ n, types.lookup n = none ∧
        (Validator.validate { config := brokenConfig, messages := [] } invalidSnapshot).2 =
          .error (unknownCheck n)) ↔
      ∃ p ∈ invalidSnapshot, ∃ entry, brokenConfig.lookup p.1 = some entry ∧
        ∃ n ∈ entry.names, types.lookup n = none) ∧
    (Validator.validate { config := brokenConfig, messages := [] } invalidSnapshot).2 =
      .error (unknownCheck "noSuchCheck") ∧
    types.lookup "" = none ∧ types.lookup "toString" = none ∧
    (Validator.validate { config := [("a", .single "")], messages := [] }
      [("a", utf16 "x")]).2 = .ok true ∧
    (Validator.validate { config := [("a", .many [""])], messages := [] }
      [("a", utf16 "x")]).2 = .error (unknownCheck "") ∧
    (Validator.validate { config := [("fio", .single "toString")], messages := [] }
      [("fio", utf16 "x")]).2 = .error notAFunction ∧
    (∀ n, (Validator.validate { config := [("fio", .single "toString")], messages := [] }
      [("fio", utf16 "x")]).2 ≠ .error (unknownCheck n)) :=
  ⟨by unfold MeetsPrototype; decide,
   (unknown_check_iff { config := brokenConfig, messages := [] } invalidSnapshot).2.2
     (by unfold MeetsPrototype; decide)
     (by
       intro p hp entry hl
       have hreg : ∀ q ∈ brokenConfig, q.2.truthy = true := by decide
       exact hreg (p.1, entry) (mem_of_lookup p.1 entry brokenConfig hl))
     (by
       intro p hp entry hl n hn _
       have hreg : ∀ q ∈ brokenConfig, ∀ m ∈ q.2.names, inherited m = false := by decide
       exact hreg (p.1, entry) (mem_of_lookup p.1 entry brokenConfig hl) n hn),
   by decide, rfl, rfl, rfl, rfl, rfl,
   (by
     intro n h
     have h2 : (Validator.validate { config := [("fio", .single "toString")], messages := [] }
         [("fio", utf16 "x")]).2 = .error notAFunction := rfl
     rw [h2] at h
     simp only [Except.error.injEq] at h
     exact unknownCheck_ne_notAFunction n h.symm)⟩

/-- The outcome of `validate` does not depend on the stored messages. -/
theorem validate_eq_of_config (self other : Validator) (data : Snapshot)
    (hcfg : other.config = self.config) :
    (other.validate data).2 = (self.validate data).2 ∧
    (other.validate data).1.messages = (self.validate data).1.messages := by
  unfold Validator.validate
  rw [hcfg]
  generalize validateLoop self.config data = r
  obtain ⟨m, e⟩ := r
  cases e <;> exact ⟨rfl, rfl⟩

/-- C8: the outcome of `validate(s)`, the value it returns or the error it
throws, and the following `getErrors()` and `hasErrors()` depend only on the
configuration and on `s`, whatever an earlier call left in the validator: a
second call in a row, and a call after `validate` on another snapshot, end
the same way and leave the same errors, every one of them for a field of `s`.
With every configured check name registered and no field name of `s` meeting
a member of `Object.prototype`, `validate(s)` returns, and the errors are
those of `s` alone. -/
theorem validate_independent_of_history (self other : Validator) (data earlier : Snapshot)
    (hreg : Registered self.config) (hcfg : other.config = self.config) :
    ((other.validate data).2 = (self.validate data).2 ∧
      (other.validate data).1.getErrors = (self.validate data).1.getErrors ∧
      (other.validate data).1.hasErrors = (self.validate data).1.hasErrors) ∧
    (((self.validate data).1.validate data).2 = (self.validate data).2 ∧
      ((self.validate data).1.validate data).1.getErrors = (self.validate data).1.getErrors ∧
      ((self.validate data).1.validate data).1.hasErrors
        = (self.validate data).1.hasErrors) ∧
    (((self.validate earlier).1.validate data).2 = (self.validate data).2 ∧
      ((self.validate earlier).1.validate data).1.getErrors
        = (self.validate data).1.getErrors ∧
      ((self.validate earlier).1.validate data).1.hasErrors
        = (self.validate data).1.hasErrors) ∧
    (∀ e ∈ (self.validate data).1.getErrors, ∃ value, (e.field, value) ∈ data) ∧
    (¬ MeetsPrototype self.config data →
      ∃ b, (self.validate data).2 = .ok b ∧
        (self.validate data).1.getErrors = expectedErrors self.config data ∧
        (self.validate data).1.hasErrors = !b) := by
  have key : ∀ o : Validator, o.config = self.config →
      (o.validate data).2 = (self.validate data).2 ∧
      (o.validate data).1.getErrors = (self.validate data).1.getErrors ∧
      (o.validate data).1.hasErrors = (self.validate data).1.hasErrors := by
    intro o ho
    obtain ⟨h1, h2⟩ := validate_eq_of_config self o data ho
    refine ⟨h1, by rw [getErrors_eq, getErrors_eq, h2], ?_⟩
    simp only [Validator.hasErrors, h2]
  refine ⟨key other hcfg, key _ (validate_config self data), key _ (validate_config self earlier),
    getErrors_field_mem self data, ?_⟩
  intro hmp
  obtain ⟨hm, hr⟩ := validate_registered self data hreg hmp
  exact ⟨_, hr, by rw [getErrors_eq, hm], by simp⟩

/-- The hypotheses of C8 hold of the shipped configuration: a validator that
holds the errors of an invalid snapshot, then validates a valid one. -/
theorem validate_independent_of_history_witness :
    Registered config ∧ ¬ MeetsPrototype config validSnapshot ∧
    (Validator.validate { config := config, messages := [] } invalidSnapshot).1.getErrors =
      [{ field := "fio", messages := ["ФИО должно состоять из трех слов"] },
       { field := "phone",
         messages := ["Неверный формат", "Cумма всех цифр телефона не должна превышать 30"] }] ∧
    ((Validator.validate { config := config, messages := [] } invalidSnapshot).1.validate
      validSnapshot).2 = .ok true ∧
    ((Validator.validate { config := config, messages := [] } invalidSnapshot).1.validate
      validSnapshot).1.getErrors = [] ∧
    (((Validator.validate { config := config, messages := [{ field := "fio", messages := ["x"] }] }
          validSnapshot).2 =
        (Validator.validate { config := config, messages := [] } validSnapshot).2 ∧
      (Validator.validate
          { config := config, messages := [{ field := "fio", messages := ["x"] }] }
          validSnapshot).1.getErrors =
        (Validator.validate { config := config, messages := [] } validSnapshot).1.getErrors ∧
      (Validator.validate
          { config := config, messages := [{ field := "fio", messages := ["x"] }] }
          validSnapshot).1.hasErrors =
        (Validator.validate { config := config, messages := [] } validSnapshot).1.hasErrors) ∧
    (((Validator.validate { config := config, messages := [] } validSnapshot).1.validate
          validSnapshot).2 =
        (Validator.validate { config := config, messages := [] } validSnapshot).2 ∧
      ((Validator.validate { config := config, messages := [] } validSnapshot).1.validate
          validSnapshot).1.getErrors =
        (Validator.validate { config := config, messages := [] } validSnapshot).1.getErrors ∧
      ((Validator.validate { config := config, messages := [] } validSnapshot).1.validate
          validSnapshot).1.hasErrors =
        (Validator.validate { config := config, messages := [] } validSnapshot).1.hasErrors) ∧
    (((Validator.validate { config := config, messages := [] } invalidSnapshot).1.validate
          validSnapshot).2 =
        (Validator.validate { config := config, messages := [] } validSnapshot).2 ∧
      ((Validator.validate { config := config, messages := [] } invalidSnapshot).1.validate
          validSnapshot).1.getErrors =
        (Validator.validate { config := config, messages := [] } validSnapshot).1.getErrors ∧
      ((Validator.validate { config := config, messages := [] } invalidSnapshot).1.validate
          validSnapshot).1.hasErrors =
        (Validator.validate { config := config, messages := [] } validSnapshot).1.hasErrors) ∧
    (∀ e ∈ (Validator.validate { config := config, messages := [] } validSnapshot).1.getErrors,
      ∃ value, (e.field, value) ∈ validSnapshot) ∧
    (¬ MeetsPrototype config validSnapshot →
      ∃ b, (Validator.validate { config := config, messages := [] } validSnapshot).2 = .ok b ∧
        (Validator.validate { config := config, messages := [] } validSnapshot).1.getErrors =
          expectedErrors config validSnapshot ∧
        (Validator.validate { config := config, messages := [] } validSnapshot).1.hasErrors
          = !b)) :=
  ⟨by unfold Registered; decide, by unfold MeetsPrototype; decide, by decide, by decide,
   by decide,
   validate_independent_of_history { config := config, messages := [] }
     { config := config, messages := [{ field := "fio", messages := ["x"] }] }
     validSnapshot invalidSnapshot (by unfold Registered; decide) rfl⟩

theorem recorded_messages_ne_nil (config : Config) (p : String × JSString) (e : FieldError)
    (h : recorded config p = some e) : e.messages ≠ [] := by
  unfold recorded at h
  cases hl : config.lookup p.1 with
  | none => simp [hl] at h
  | some entry =>
    simp only [hl] at h
    split at h
    · rename_i hc
      cases h
      exact hc.2
    · cases h

theorem no_unknown_of_returned (self : Validator) (data : Snapshot) (b : Bool)
    (hret : (self.validate data).2 = .ok b) : ¬ HasUnknownCheck self.config data :=
  (validate_returned self data b hret).1

/-- C9: after a call of `validate` that returned, `hasErrors()` is true
exactly when `getErrors()` is non-empty, which is exactly when `validate`
returned `false`, and every `FieldError` of `getErrors()` has at least one
message; the result of `FormController.validate()` has `isValid` true exactly
when `errorFields` is empty, and `errorFields` lists the field names of
`getErrors()` in the same order. -/
theorem stored_result_invariants (self : Validator) (data : Snapshot) (b : Bool)
    (form : FormController) (result : ValidationResult)
    (hret : (self.validate data).2 = .ok b) (hform : form.validate.2 = .ok result) :
    ((self.validate data).1.hasErrors = true ↔ (self.validate data).1.getErrors ≠ []) ∧
    ((self.validate data).1.getErrors ≠ [] ↔ b = false) ∧
    (∀ e ∈ (self.validate data).1.getErrors, e.messages ≠ []) ∧
    (result.isValid = true ↔ result.errorFields = []) ∧
    result.errorFields = form.validate.1.validator.getErrors.map fun e => e.field := by
  obtain ⟨hno, hmp⟩ := validate_returned self data b hret
  obtain ⟨hm, hr⟩ := validate_complete self data hno hmp
  rw [hr] at hret
  have hb : b = !(self.validate data).1.hasErrors := by
    cases hret
    rfl
  refine ⟨?_, ?_, ?_, ?_⟩
  · rw [getErrors_eq, hasErrors_eq_true_iff]
  · rw [getErrors_eq, hb, ← hasErrors_eq_true_iff]
    simp
  · intro e he
    rw [getErrors_eq, hm] at he
    obtain ⟨p, _, hp⟩ := List.mem_filterMap.mp he
    exact recorded_messages_ne_nil self.config p e hp
  · unfold FormController.validate at hform ⊢
    generalize form.validator.validate form.getData = r at hform ⊢
    obtain ⟨v, e⟩ := r
    cases e with
    | error msg => cases hform
    | ok c =>
      simp only [Except.ok.injEq] at hform
      subst hform
      refine ⟨?_, rfl⟩
      simp only [getErrors_eq, List.map_eq_nil_iff, Bool.not_eq_true']
      exact hasErrors_eq_false_iff v

/-- The hypotheses of C9 hold of the shipped configuration: `validate`
returns on a snapshot with two bad fields, and so does
`FormController.validate` on a form holding the same values. -/
theorem stored_result_invariants_witness :
    (Validator.validate { config := config, messages := [] } invalidSnapshot).2 = .ok false ∧
    invalidForm.validate.2 = .ok { isValid := false, errorFields := ["fio", "phone"] } ∧
    (((Validator.validate { config := config, messages := [] } invalidSnapshot).1.hasErrors = true ↔
      (Validator.validate { config := config, messages := [] } invalidSnapshot).1.getErrors ≠ []) ∧
    ((Validator.validate { config := config, messages := [] } invalidSnapshot).1.getErrors ≠ [] ↔
      false = false) ∧
    (∀ e ∈ (Validator.validate { config := config, messages := [] } invalidSnapshot).1.getErrors,
      e.messages ≠ []) ∧
    ((({ isValid := false, errorFields := ["fio", "phone"] } : ValidationResult).isValid = true) ↔
      ({ isValid := false, errorFields := ["fio", "phone"] } : ValidationResult).errorFields = []) ∧
    ({ isValid := false, errorFields := ["fio", "phone"] } : ValidationResult).errorFields =
      invalidForm.validate.1.validator.getErrors.map fun e => e.field) :=
  ⟨by decide, by decide,
   stored_result_invariants { config := config, messages := [] } invalidSnapshot false
     invalidForm { isValid := false, errorFields := ["fio", "phone"] } (by decide) (by decide)⟩

/-! ## Submission -/

theorem run_append (enc : JSString → Option JSString) (w : World) (a b : List Event) :
    run enc w (a ++ b) = run enc (run enc w a) b := by
  simp [run, List.foldl_append]

theorem trace_cons (enc : JSString → Option JSString) (w : World) (e : Event) (es : List Event) :
    trace enc w (e :: es) = w :: trace enc (step enc w e) es := rfl

theorem mem_trace_append (enc : JSString → Option JSString) (x : World) :
    ∀ (a b : List Event) (w : World),
      x ∈ trace enc w (a ++ b) ↔ x ∈ trace enc w a ∨ x ∈ trace enc (run enc w a) b := by
  intro a
  induction a with
  | nil =>
    intro b w
    simp only [List.nil_append, trace, List.mem_singleton, run, List.foldl_nil]
    constructor
    · exact Or.inr
    · rintro (rfl | h)
      · cases b <;> simp [trace]
      · exact h
  | cons e es ih =>
    intro b w
    have h := ih b (step enc w e)
    have hrun : run enc w (e :: es) = run enc (step enc w e) es := rfl
    rw [List.cons_append, trace_cons, trace_cons, List.mem_cons, List.mem_cons, h, hrun,
      or_assoc]

theorem removeErrors_getData (form : FormController) :
    form.removeErrors.getData = form.getData := by
  unfold FormController.getData FormController.formInputs FormController.removeErrors
  simp only [List.filter_map, List.foldl_map]
  congr 1
  · funext data elem
    split <;> rfl
  · apply List.filter_congr
    intro elem _
    simp only [Function.comp, tracked]
    split <;> rfl

theorem queryLoop_map (enc : JSString → Option JSString) (g : Element → Element)
    (hg : ∀ e, (g e).name = e.name ∧ (g e).value = e.value) :
    ∀ (l : List Element) (str : JSString), queryLoop enc (l.map g) str = queryLoop enc l str := by
  intro l
  induction l with
  | nil => intro str; rfl
  | cons e es ih =>
    intro str
    rw [List.map_cons]
    unfold queryLoop
    rw [(hg e).1, (hg e).2]
    simp only [ih]

theorem removeErrors_queryString (enc : JSString → Option JSString) (form : FormController) :
    queryString enc form.removeErrors.formInputs = queryString enc form.formInputs := by
  have hf : form.removeErrors.formInputs =
      form.formInputs.map fun elem =>
        if tracked form.rules elem && elem.classList.contains "error" then
          { elem with classList := classRemove elem.classList "error" }
        else elem := by
    unfold FormController.formInputs FormController.removeErrors
    simp only [List.filter_map]
    congr 1
    apply List.filter_congr
    intro elem _
    simp only [Function.comp, tracked]
    split <;> rfl
  unfold queryString
  rw [hf, queryLoop_map]
  intro e
  split <;> exact ⟨rfl, rfl⟩

theorem SameOutside.rfl (a : World) : SameOutside a a :=
  ⟨Eq.refl _, Eq.refl _, Eq.refl _, Eq.refl _, Eq.refl _, Eq.refl _, Eq.refl _⟩

theorem SameOutside.trans {a b c : World} (h1 : SameOutside a b) (h2 : SameOutside b c) :
    SameOutside a c := by
  obtain ⟨a1, a2, a3, a4, a5, a6, a7⟩ := h1
  obtain ⟨b1, b2, b3, b4, b5, b6, b7⟩ := h2
  exact ⟨a1.trans b1, a2.trans b2, a3.trans b3, a4.trans b4, a5.trans b5, a6.trans b6,
    a7.trans b7⟩

theorem step_input_sameOutside (enc : JSString → Option JSString) (w : World) (name : String)
    (value : JSString) : SameOutside (step enc w (.input name value)) w :=
  ⟨rfl, rfl, rfl, rfl, rfl, rfl, rfl⟩

/-- The user's edits change nothing but the fields of the form, at any moment. -/
theorem edits_sameOutside (enc : JSString → Option JSString) :
    ∀ (edits : List (String × JSString)) (w : World),
      ∀ x ∈ trace enc w (editEvents edits) ++ [run enc w (editEvents edits)],
        SameOutside x w := by
  intro edits
  induction edits with
  | nil =>
    intro w x hx
    simp only [editEvents, List.map_nil, trace, run, List.foldl_nil, List.mem_append,
      List.mem_singleton, or_self] at hx
    rw [hx]
    exact SameOutside.rfl w
  | cons e es ih =>
    intro w x hx
    have hx2 : x = w ∨ x ∈ trace enc (step enc w (.input e.1 e.2)) (editEvents es) ++
        [run enc (step enc w (.input e.1 e.2)) (editEvents es)] := by
      simpa [editEvents, trace, run] using hx
    rcases hx2 with rfl | hx2
    · exact SameOutside.rfl _
    · exact (ih _ x hx2).trans (step_input_sameOutside enc w e.1 e.2)

theorem run_edits_sameOutside (enc : JSString → Option JSString) (edits : List (String × JSString))
    (w : World) : SameOutside (run enc w (editEvents edits)) w :=
  edits_sameOutside enc edits w _ (by simp)

theorem trace_edits_sameOutside (enc : JSString → Option JSString) (edits : List (String × JSString))
    (w x : World) (hx : x ∈ trace enc w (editEvents edits)) : SameOutside x w :=
  edits_sameOutside enc edits w x (by simp [hx])

theorem showResult_status (c : ContainerController) (status : String) (msg : Option String) :
    (c.showResult status msg).status = some status := by
  unfold ContainerController.showResult
  cases msg with
  | none => rfl
  | some m => by_cases hm : (m != "") = true <;> simp [hm]

theorem clear_textContent (c : ContainerController) (hc : c.Consistent) :
    c.clear.textContent = "" := by
  unfold ContainerController.clear
  cases hs : c.status with
  | none => exact hc.1 hs
  | some st =>
    have hne : (st != "") = true := by
      simp only [bne_iff_ne, ne_eq]
      rintro rfl
      exact hc.2 hs
    simp [hne]

/-- On a consistent container `showResult` leaves the message as the text,
and no text when there is no message. -/
theorem showResult_textContent (c : ContainerController) (hc : c.Consistent) (status : String)
    (msg : Option String) : (c.showResult status msg).textContent = msg.getD "" := by
  unfold ContainerController.showResult
  cases msg with
  | none => exact clear_textContent c hc
  | some m =>
    by_cases hm : (m != "") = true
    · simp [hm]
    · have : m = "" := by simpa using hm
      simp [this, clear_textContent c hc]

theorem showResult_consistent (c : ContainerController) (status : String) (msg : Option String)
    (hs : status ≠ "") : (c.showResult status msg).Consistent := by
  constructor
  · intro h
    rw [showResult_status] at h
    cases h
  · rw [showResult_status]
    intro h
    exact hs (Option.some.inj h)

theorem form_validate_valid (form : FormController)
    (h : (form.validator.validate form.getData).2 = .ok true) :
    form.validate.2 = .ok { isValid := true, errorFields := [] } ∧
    form.validate.1.elements = form.elements ∧ form.validate.1.action = form.action ∧
    form.validate.1.rules = form.rules := by
  obtain ⟨hno, hmp⟩ := validate_returned _ _ _ h
  obtain ⟨_, hr⟩ := validate_complete _ _ hno hmp
  rw [hr] at h
  have hh : (form.validator.validate form.getData).1.hasErrors = false := by
    simpa using h
  have hm := (hasErrors_eq_false_iff _).mp hh
  unfold FormController.validate
  simp only [hr, hh, getErrors_eq, hm]
  exact ⟨by trivial, by trivial, by trivial, by trivial⟩

/-- A submit request on valid data: the trigger is disabled and the container
is not touched; when `encodeURIComponent` returns for every input, one
request is issued; when it throws, `submit` throws and no request is issued. -/
theorem submit_valid (enc : JSString → Option JSString) (w : World)
    (hvalid : (w.form.validator.validate w.form.getData).2 = .ok true) :
    ((submit enc w).1.timers = w.timers ∧
      (submit enc w).1.form.action = w.form.action ∧
      (submit enc w).1.submitDisabled = true ∧
      (submit enc w).1.container = w.container) ∧
    (∀ q, queryString enc w.form.formInputs = some q →
      (submit enc w).2 = .ok () ∧
      (submit enc w).1.pending = w.pending ++ [{ queryString := q }] ∧
      (submit enc w).1.requests = w.requests ++ [submitUrl w q]) ∧
    (queryString enc w.form.formInputs = none →
      (submit enc w).2 = .error uriError ∧
      (submit enc w).1.pending = w.pending ∧
      (submit enc w).1.requests = w.requests) := by
  have hv : (w.form.removeErrors.validator.validate w.form.removeErrors.getData).2 = .ok true := by
    rw [removeErrors_getData]
    exact hvalid
  obtain ⟨h1, h2, h3, h4⟩ := form_validate_valid w.form.removeErrors hv
  have hq : queryString enc w.form.removeErrors.validate.1.formInputs =
      queryString enc w.form.formInputs := by
    rw [← removeErrors_queryString enc w.form]
    unfold FormController.formInputs
    rw [h2, h4]
  cases henc : queryString enc w.form.formInputs with
  | none =>
    rw [henc] at hq
    unfold submit
    simp only [h1, if_true, hq, h3]
    refine ⟨⟨by trivial, by trivial, by trivial, by trivial⟩, ?_, ?_⟩
    · intro q hq2
      cases hq2
    · intro _
      exact ⟨by trivial, by trivial, by trivial⟩
  | some q0 =>
    rw [henc] at hq
    unfold submit
    simp only [h1, if_true, hq, request, h3, submitUrl]
    refine ⟨⟨by trivial, by trivial, by trivial, by trivial⟩, ?_, ?_⟩
    · intro q hq2
      cases hq2
      exact ⟨by trivial, by trivial, by trivial⟩
    · intro hq2
      cases hq2

theorem awaiting_of_sameOutside {url query action : JSString} {base : List JSString} {n : Nat}
    {x y : World} (h : SameOutside y x) (hx : Awaiting url query action base n x) :
    Awaiting url query action base n y := by
  obtain ⟨a1, a2, a3, a4, a5, _, a7⟩ := h
  obtain ⟨b1, b2, b3, b4, b5, b6⟩ := hx
  exact ⟨a4.trans b1, a5.trans b2, a3.trans b3, a7.trans b4, a2.trans b5, a1 ▸ b6⟩

theorem delayed_of_sameOutside {url query action : JSString} {base : List JSString} {n : Nat}
    {delay : Option Nat} {x y : World} (h : SameOutside y x)
    (hx : Delayed url query action base n delay x) :
    Delayed url query action base n delay y := by
  obtain ⟨a1, a2, a3, a4, a5, _, a7⟩ := h
  obtain ⟨b1, b2, b3, b4, b5, b6, b7⟩ := hx
  exact ⟨a4.trans b1, a5.trans b2, a3.trans b3, a7.trans b4, a2.trans b5, a1 ▸ b6, a1 ▸ b7⟩

/-- A `progress` response: the container shows `progress` without text and a
timer is set; no request is issued. -/
theorem step_response_progress (enc : JSString → Option JSString) {url query action : JSString}
    {base : List JSString} {n : Nat} {x : World} (r : Round)
    (hx : Awaiting url query action base n x) :
    Delayed url query action base n r.delay (step enc x r.response) := by
  obtain ⟨b1, b2, b3, b4, b5, b6⟩ := hx
  have hs : ("progress" == "success") = false := by decide
  have he : ("progress" == "error") = false := by decide
  simp only [Round.response, step, b1, List.get?_cons_zero, List.eraseIdx_cons_zero, onResponse,
    hs, he, Bool.false_eq_true, if_false, beq_self_eq_true, if_true]
  exact ⟨rfl, by simp [b2], b3, b4, b5, showResult_status _ _ _,
    showResult_textContent _ b6 _ _⟩

/-- The timer fires: the next request is issued, to the same URL. -/
theorem step_timeout (enc : JSString → Option JSString) {query action : JSString}
    {base : List JSString} {n : Nat} {delay : Option Nat} {x : World}
    (hx : Delayed (action ++ utf16 "?" ++ query) query action base n delay x) :
    Awaiting (action ++ utf16 "?" ++ query) query action base (n + 1)
      (step enc x (.timeout 0)) := by
  obtain ⟨b1, b2, b3, b4, b5, b6, _⟩ := hx
  simp only [step, b2, List.get?_cons_zero, List.eraseIdx_cons_zero, request]
  refine ⟨by simp [b1], rfl, ?_, b4, b5, ?_⟩
  · simp only [b3, b4, List.replicate_succ', List.append_assoc]
  · constructor
    · intro h
      rw [b6] at h
      cases h
    · rw [b6]
      decide

/-- The last response: the container shows it, the trigger is enabled again
and nothing is left outstanding. -/
theorem step_response_final (enc : JSString → Option JSString) {url query action : JSString}
    {base : List JSString} {n : Nat} {x : World} (fin : ResponseData)
    (hfin : fin.status = "success" ∨ fin.status = "error")
    (hx : Awaiting url query action base n x) :
    (step enc x (.response 0 (.json fin))).requests = base ++ List.replicate n url ∧
    (step enc x (.response 0 (.json fin))).pending = [] ∧
    (step enc x (.response 0 (.json fin))).timers = [] ∧
    (step enc x (.response 0 (.json fin))).submitDisabled = false ∧
    (step enc x (.response 0 (.json fin))).container.status = some fin.status ∧
    (step enc x (.response 0 (.json fin))).container.textContent =
      if fin.status = "success" then "Success" else fin.reason.getD "" := by
  obtain ⟨b1, b2, b3, _, _, b6⟩ := hx
  rcases hfin with h | h
  · simp only [step, b1, List.get?_cons_zero, List.eraseIdx_cons_zero, onResponse, h,
      beq_self_eq_true, if_true]
    exact ⟨b3, by trivial, b2, by trivial, showResult_status _ _ _,
      showResult_textContent _ b6 _ _⟩
  · have hs : ("error" == "success") = false := by decide
    have hs2 : ¬ ("error" = "success") := by decide
    simp only [step, b1, List.get?_cons_zero, List.eraseIdx_cons_zero, onResponse, h, hs, hs2,
      Bool.false_eq_true, if_false, beq_self_eq_true, if_true]
    exact ⟨b3, by trivial, b2, by trivial, showResult_status _ _ _,
      showResult_textContent _ b6 _ _⟩

theorem awaiting_bounded {url query action : JSString} {base : List JSString} {n : Nat}
    {x : World} (hx : Awaiting url query action base n x) :
    x.pending.length + x.timers.length ≤ 1 := by
  simp [hx.1, hx.2.1]

theorem delayed_bounded {url query action : JSString} {base : List JSString} {n : Nat}
    {delay : Option Nat} {x : World} (hx : Delayed url query action base n delay x) :
    x.pending.length + x.timers.length ≤ 1 := by
  simp [hx.1, hx.2.1]

theorem sameOutside_bounded {x y : World} (h : SameOutside y x)
    (hx : x.pending.length + x.timers.length ≤ 1) : y.pending.length + y.timers.length ≤ 1 := by
  rw [h.2.2.2.1, h.2.2.2.2.1]
  exact hx

/-- One round of polling, from one outstanding request to the next. -/
theorem round_awaiting (enc : JSString → Option JSString) {query action : JSString}
    {base : List JSString} {n : Nat} {x : World} (r : Round)
    (hx : Awaiting (action ++ utf16 "?" ++ query) query action base n x) :
    Awaiting (action ++ utf16 "?" ++ query) query action base n
      (run enc x (editEvents r.editsBeforeResponse)) ∧
    Delayed (action ++ utf16 "?" ++ query) query action base n r.delay
      (run enc x (editEvents r.editsBeforeResponse ++ [r.response])) ∧
    Delayed (action ++ utf16 "?" ++ query) query action base n r.delay
      (run enc x (editEvents r.editsBeforeResponse ++ [r.response] ++
        editEvents r.editsBeforeTimeout)) ∧
    Awaiting (action ++ utf16 "?" ++ query) query action base (n + 1) (run enc x r.events) ∧
    ∀ s ∈ trace enc x r.events, s.pending.length + s.timers.length ≤ 1 := by
  have h1 := awaiting_of_sameOutside (run_edits_sameOutside enc r.editsBeforeResponse x) hx
  have h2 := step_response_progress enc r h1
  have e2 : run enc x (editEvents r.editsBeforeResponse ++ [r.response]) =
      step enc (run enc x (editEvents r.editsBeforeResponse)) r.response := by
    rw [run_append]
    rfl
  rw [← e2] at h2
  have h3 := delayed_of_sameOutside (run_edits_sameOutside enc r.editsBeforeTimeout _) h2
  rw [← run_append] at h3
  have h4 := step_timeout enc h3
  have e4 : run enc x r.events =
      step enc (run enc x (editEvents r.editsBeforeResponse ++ [r.response] ++
        editEvents r.editsBeforeTimeout)) (.timeout 0) := by
    unfold Round.events
    rw [run_append]
    rfl
  rw [← e4] at h4
  refine ⟨h1, h2, h3, h4, ?_⟩
  intro s hs
  unfold Round.events at hs
  rw [mem_trace_append, mem_trace_append, mem_trace_append] at hs
  rcases hs with ((hs | hs) | hs) | hs
  · exact sameOutside_bounded (trace_edits_sameOutside enc _ x s hs) (awaiting_bounded hx)
  · simp only [trace, List.mem_cons, List.mem_singleton, List.not_mem_nil, or_false] at hs
    rcases hs with rfl | rfl
    · exact awaiting_bounded h1
    · have := delayed_bounded h2
      rw [e2] at this
      exact this
  · exact sameOutside_bounded (trace_edits_sameOutside enc _ _ s hs) (delayed_bounded h2)
  · simp only [trace, List.mem_cons, List.mem_singleton, List.not_mem_nil, or_false] at hs
    rcases hs with rfl | rfl
    · exact delayed_bounded h3
    · have := awaiting_bounded h4
      rw [e4] at this
      exact this

/-- Any number of rounds of polling. -/
theorem rounds_awaiting (enc : JSString → Option JSString) {query action : JSString}
    {base : List JSString} :
    ∀ (rounds : List Round) (n : Nat) (x : World),
      Awaiting (action ++ utf16 "?" ++ query) query action base n x →
      Awaiting (action ++ utf16 "?" ++ query) query action base (n + rounds.length)
        (run enc x (pollEvents rounds)) ∧
      ∀ s ∈ trace enc x (pollEvents rounds), s.pending.length + s.timers.length ≤ 1 := by
  intro rounds
  induction rounds with
  | nil =>
    intro n x hx
    refine ⟨hx, ?_⟩
    intro s hs
    simp only [pollEvents, trace, List.mem_singleton] at hs
    rw [hs]
    exact awaiting_bounded hx
  | cons r rs ih =>
    intro n x hx
    obtain ⟨_, _, _, h4, h5⟩ := round_awaiting enc r hx
    obtain ⟨i1, i2⟩ := ih (n + 1) _ h4
    constructor
    · simp only [pollEvents, run_append, List.length_cons]
      have e : n + (rs.length + 1) = n + 1 + rs.length := by omega
      rw [e]
      exact i1
    · intro s hs
      simp only [pollEvents] at hs
      rw [mem_trace_append] at hs
      rcases hs with hs | hs
      · exact h5 s hs
      · exact i2 s hs

theorem pollEvents_append (a b : List Round) :
    pollEvents (a ++ b) = pollEvents a ++ pollEvents b := by
  induction a with
  | nil => rfl
  | cons r rs ih => simp [pollEvents, ih]

/-- With nothing outstanding, events other than a submit request change
neither the requests, nor the container, nor the trigger. -/
theorem run_stalled (enc : JSString → Option JSString) :
    ∀ (later : List Event) (y : World), y.pending = [] → y.timers = [] →
      (∀ e ∈ later, e.isSubmit = false) →
      (run enc y later).requests = y.requests ∧ (run enc y later).pending = [] ∧
      (run enc y later).timers = [] ∧ (run enc y later).container = y.container ∧
      (run enc y later).submitDisabled = y.submitDisabled := by
  intro later
  induction later with
  | nil => intro y hp ht _; exact ⟨rfl, hp, ht, rfl, rfl⟩
  | cons e es ih =>
    intro y hp ht hs
    have hes : ∀ x ∈ es, x.isSubmit = false := fun x hx => hs x (List.mem_cons_of_mem _ hx)
    have hstep : (step enc y e).requests = y.requests ∧ (step enc y e).pending = [] ∧
        (step enc y e).timers = [] ∧ (step enc y e).container = y.container ∧
        (step enc y e).submitDisabled = y.submitDisabled := by
      cases e with
      | response n r => simp [step, hp, ht]
      | timeout n => simp [step, ht, hp]
      | input name value => exact ⟨rfl, hp, ht, rfl, rfl⟩
      | submit =>
        have := hs .submit (List.mem_cons_self _ _)
        cases this
    obtain ⟨a1, a2, a3, a4, a5⟩ := hstep
    obtain ⟨b1, b2, b3, b4, b5⟩ := ih (step enc y e) a2 a3 hes
    have hrun : run enc y (e :: es) = run enc (step enc y e) es := rfl
    rw [hrun]
    exact ⟨b1.trans a1, b2, b3, b4.trans a4, b5.trans a5⟩

/-- C10: a submit request on valid data, made while nothing of an earlier
attempt is outstanding.  When `encodeURIComponent` returns for every input,
so that `submit` builds the query string `q`: the request is followed by `k`
rounds of a `progress` response and its timer and then by a `success` or
`error` response, whatever the user types in between.  At the end `k + 1`
requests have been issued, all to the URL built when `submit` ran, nothing is
outstanding, the trigger is enabled, and the container shows the last status
with `Success` or the reason of the server.  At every moment at most one
exchange or timer is outstanding.  In round `i` request `i` is outstanding
until its response; the response sets the timer, issues no request and makes
the container show `progress` without text; request `i + 1` is issued when
the timer fires.  When `encodeURIComponent` throws on an input, `submit`
throws after it disabled the trigger: no request is issued, and whatever
responses and timers follow, the trigger stays disabled. -/
theorem submit_polls_until_terminal (enc : JSString → Option JSString) (w : World)
    (rounds : List Round) (lastEdits : List (String × JSString)) (fin : ResponseData)
    (later : List Event)
    (hvalid : (w.form.validator.validate w.form.getData).2 = .ok true)
    (hquiet : w.Quiet) (hcons : w.container.Consistent)
    (hfin : fin.status = "success" ∨ fin.status = "error") :
    (∀ q, queryString enc w.form.formInputs = some q →
      ((run enc (submit enc w).1
          (pollEvents rounds ++ editEvents lastEdits ++ [.response 0 (.json fin)])).requests =
          w.requests ++ List.replicate (rounds.length + 1) (submitUrl w q) ∧
        (run enc (submit enc w).1
          (pollEvents rounds ++ editEvents lastEdits ++ [.response 0 (.json fin)])).pending = [] ∧
        (run enc (submit enc w).1
          (pollEvents rounds ++ editEvents lastEdits ++ [.response 0 (.json fin)])).timers = [] ∧
        (run enc (submit enc w).1
          (pollEvents rounds ++ editEvents lastEdits ++
            [.response 0 (.json fin)])).submitDisabled = false ∧
        (run enc (submit enc w).1
          (pollEvents rounds ++ editEvents lastEdits ++
            [.response 0 (.json fin)])).container.status = some fin.status ∧
        (run enc (submit enc w).1
          (pollEvents rounds ++ editEvents lastEdits ++
            [.response 0 (.json fin)])).container.textContent =
          if fin.status = "success" then "Success" else fin.reason.getD "") ∧
      (∀ s ∈ trace enc (submit enc w).1
          (pollEvents rounds ++ editEvents lastEdits ++ [.response 0 (.json fin)]),
        s.pending.length + s.timers.length ≤ 1) ∧
      ∀ (before : List Round) (r : Round) (after : List Round), rounds = before ++ r :: after →
        Awaiting (submitUrl w q) q w.form.action w.requests
          (before.length + 1)
          (run enc (submit enc w).1 (pollEvents before ++ editEvents r.editsBeforeResponse)) ∧
        Delayed (submitUrl w q) q w.form.action w.requests
          (before.length + 1) r.delay
          (run enc (submit enc w).1
            (pollEvents before ++ (editEvents r.editsBeforeResponse ++ [r.response]))) ∧
        Delayed (submitUrl w q) q w.form.action w.requests
          (before.length + 1) r.delay
          (run enc (submit enc w).1
            (pollEvents before ++
              (editEvents r.editsBeforeResponse ++ [r.response] ++
                editEvents r.editsBeforeTimeout))) ∧
        Awaiting (submitUrl w q) q w.form.action w.requests
          (before.length + 2) (run enc (submit enc w).1 (pollEvents before ++ r.events))) ∧
    (queryString enc w.form.formInputs = none → (∀ x ∈ later, x.isSubmit = false) →
      (submit enc w).2 = .error uriError ∧
      (run enc (submit enc w).1 later).requests = w.requests ∧
      (run enc (submit enc w).1 later).pending = [] ∧
      (run enc (submit enc w).1 later).timers = [] ∧
      (run enc (submit enc w).1 later).container = w.container ∧
      (run enc (submit enc w).1 later).submitDisabled = true) := by
  obtain ⟨⟨s2, s4, s5, s6⟩, sok, sthrow⟩ := submit_valid enc w hvalid
  refine ⟨?_, ?_⟩
  · intro q henc
    obtain ⟨_, s1, s3⟩ := sok q henc
    have h0 : Awaiting (submitUrl w q) q w.form.action
        w.requests 1 (submit enc w).1 := by
      refine ⟨?_, ?_, ?_, s4, s5, ?_⟩
      · rw [s1, hquiet.1]
        rfl
      · rw [s2, hquiet.2]
      · rw [s3]
        rfl
      · rw [s6]
        exact hcons
    obtain ⟨hk, hk2⟩ := rounds_awaiting enc rounds 1 _ h0
    have hk3 := awaiting_of_sameOutside (run_edits_sameOutside enc lastEdits _) hk
    have hend := step_response_final enc fin hfin hk3
    have e : run enc (submit enc w).1
        (pollEvents rounds ++ editEvents lastEdits ++ [.response 0 (.json fin)]) =
        step enc (run enc (run enc (submit enc w).1 (pollEvents rounds)) (editEvents lastEdits))
          (.response 0 (.json fin)) := by
      rw [run_append, run_append]
      rfl
    rw [← e] at hend
    have e1 : 1 + rounds.length = rounds.length + 1 := by omega
    rw [e1] at hend
    refine ⟨hend, ?_, ?_⟩
    · intro s hs
      rw [mem_trace_append, mem_trace_append] at hs
      rcases hs with (hs | hs) | hs
      · exact hk2 s hs
      · exact sameOutside_bounded (trace_edits_sameOutside enc _ _ s hs) (awaiting_bounded hk)
      · simp only [trace, List.mem_cons, List.mem_singleton, List.not_mem_nil, or_false] at hs
        rcases hs with rfl | rfl
        · rw [run_append]
          exact awaiting_bounded hk3
        · rw [run_append]
          have h := step_response_final enc fin hfin hk3
          simp [h.2.1, h.2.2.1]
    · intro before r after _
      obtain ⟨hb, _⟩ := rounds_awaiting enc before 1 _ h0
      have e2 : 1 + before.length = before.length + 1 := by omega
      rw [e2] at hb
      obtain ⟨r1, r2, r3, r4, _⟩ := round_awaiting enc r hb
      simp only [run_append]
      simp only [run_append] at r2 r3
      exact ⟨r1, r2, r3, r4⟩
  · intro henc hlater
    obtain ⟨t1, t2, t3⟩ := sthrow henc
    obtain ⟨r1, r2, r3, r4, r5⟩ := run_stalled enc later (submit enc w).1
      (by rw [t2, hquiet.1]) (by rw [s2, hquiet.2]) hlater
    exact ⟨t1, r1.trans t3, r2, r3, r4.trans s6, r5.trans s5⟩

/-- The hypotheses of C10 hold of the page as loaded with valid values, one
round of polling and a `success` response; and of the page whose email holds
an unpaired surrogate, on which the same responses find no request and leave
the trigger disabled. -/
theorem submit_polls_until_terminal_witness :
    (validPage.form.validator.validate validPage.form.getData).2 = .ok true ∧
    validPage.Quiet ∧ validPage.container.Consistent ∧
    (successResponse.status = "success" ∨ successResponse.status = "error") ∧
    (queryString encodeURIComponent validPage.form.formInputs).isSome = true ∧
    (run encodeURIComponent (submit encodeURIComponent validPage).1
      (pollEvents [sampleRound] ++ editEvents [] ++
        [.response 0 (.json successResponse)])).requests.length = 2 ∧
    (run encodeURIComponent (submit encodeURIComponent validPage).1
      (pollEvents [sampleRound] ++ editEvents [] ++
        [.response 0 (.json successResponse)])).submitDisabled = false ∧
    (surrogatePage.form.validator.validate surrogatePage.form.getData).2 = .ok true ∧
    surrogatePage.Quiet ∧ surrogatePage.container.Consistent ∧
    queryString encodeURIComponent surrogatePage.form.formInputs = none ∧
    (∀ x ∈ pollEvents [sampleRound] ++ [Event.response 0 (.json successResponse)],
      x.isSubmit = false) ∧
    ((submit encodeURIComponent surrogatePage).2 = .error uriError ∧
      (run encodeURIComponent (submit encodeURIComponent surrogatePage).1
        (pollEvents [sampleRound] ++ [.response 0 (.json successResponse)])).requests =
        surrogatePage.requests ∧
      (run encodeURIComponent (submit encodeURIComponent surrogatePage).1
        (pollEvents [sampleRound] ++ [.response 0 (.json successResponse)])).pending = [] ∧
      (run encodeURIComponent (submit encodeURIComponent surrogatePage).1
        (pollEvents [sampleRound] ++ [.response 0 (.json successResponse)])).timers = [] ∧
      (run encodeURIComponent (submit encodeURIComponent surrogatePage).1
        (pollEvents [sampleRound] ++ [.response 0 (.json successResponse)])).container =
        surrogatePage.container ∧
      (run encodeURIComponent (submit encodeURIComponent surrogatePage).1
        (pollEvents [sampleRound] ++ [.response 0 (.json successResponse)])).submitDisabled =
        true) :=
  ⟨by decide, ⟨rfl, rfl⟩, ⟨fun _ => rfl, by decide⟩, Or.inl rfl, by decide,
   by
     cases hq : queryString encodeURIComponent validPage.form.formInputs with
     | none => exact absurd hq (by decide)
     | some q =>
       have h := ((submit_polls_until_terminal encodeURIComponent validPage [sampleRound] []
         successResponse [] (by decide) ⟨rfl, rfl⟩ ⟨fun _ => rfl, by decide⟩ (Or.inl rfl)).1
         q hq).1.1
       rw [h]
       simp [validPage],
   by decide, by decide, ⟨rfl, rfl⟩, ⟨fun _ => rfl, by decide⟩, by decide, by decide,
   (submit_polls_until_terminal encodeURIComponent surrogatePage [] [] successResponse
     (pollEvents [sampleRound] ++ [.response 0 (.json successResponse)])
     (by decide) ⟨rfl, rfl⟩ ⟨fun _ => rfl, by decide⟩ (Or.inl rfl)).2 (by decide) (by decide)⟩

/-! ## Submission of invalid data, and what `submit` clears -/

theorem classRemove_not_contains (classes : List String) (token : String) :
    (classRemove classes token).contains token = false := by
  simp [classRemove]

theorem classAdd_contains (classes : List String) (token : String) :
    (classAdd classes token).contains token = true := by
  unfold classAdd
  by_cases h : classes.contains token = true
  · simp only [h, if_true]
  · simp only [h, Bool.false_eq_true, if_false]
    simp

theorem remark_tracked (rules : Config) (fields : Option (List String)) (e : Element) :
    tracked rules (remark rules fields e) = tracked rules e := by
  unfold remark
  cases fields with
  | none => simp only; split <;> rfl
  | some fs =>
    simp only
    split <;> split <;> rfl

theorem remark_name (rules : Config) (fields : Option (List String)) (e : Element) :
    (remark rules fields e).name = e.name := by
  unfold remark
  cases fields with
  | none => simp only; split <;> rfl
  | some fs =>
    simp only
    split <;> split <;> rfl

theorem remark_marked (rules : Config) (fields : Option (List String)) (e : Element)
    (ht : tracked rules e = true) :
    (remark rules fields e).marked =
      match fields with
      | none => false
      | some fs => fs.contains e.name := by
  have h1 : ∀ e1 : Element,
      e1 = (if tracked rules e && e.classList.contains "error" then
        { e with classList := classRemove e.classList "error" } else e) →
      e1.classList.contains "error" = false ∧ tracked rules e1 = true ∧ e1.name = e.name := by
    intro e1 he1
    by_cases hc : e.classList.contains "error" = true
    · simp only [ht, hc, Bool.and_self, if_true] at he1
      subst he1
      exact ⟨classRemove_not_contains _ _, ht, rfl⟩
    · simp only [ht, hc, Bool.and_false, Bool.false_eq_true, if_false] at he1
      subst he1
      exact ⟨by simpa using hc, ht, rfl⟩
  obtain ⟨a1, a2, a3⟩ := h1 _ rfl
  unfold remark Element.marked
  cases fields with
  | none => exact a1
  | some fs =>
    simp only [a2, a3, Bool.true_and]
    by_cases hf : fs.contains e.name = true
    · simp only [hf, if_true]
      exact classAdd_contains _ _
    · simp only [hf, Bool.false_eq_true, if_false]
      rw [a1]

/-- The effect of `submit` when `validate` returns `b`. -/
theorem submit_returned (enc : JSString → Option JSString) (w : World) (b : Bool)
    (hret : (w.form.validator.validate w.form.getData).2 = .ok b) :
    (submit enc w).1.form.rules = w.form.rules ∧
    (submit enc w).1.form.elements =
      w.form.elements.map (remark w.form.rules
        (if b = true then none
         else some ((w.form.validator.validate w.form.getData).1.getErrors.map fun e => e.field))) ∧
    (submit enc w).1.container = (if b = true then w.container else w.container.clear) ∧
    (submit enc w).1.timers = w.timers ∧
    (submit enc w).1.submitDisabled = (if b = true then true else w.submitDisabled) ∧
    (b = false →
      (submit enc w).2 = .ok () ∧ (submit enc w).1.requests = w.requests ∧
      (submit enc w).1.pending = w.pending) ∧
    (b = true →
      (∀ q, queryString enc w.form.formInputs = some q →
        (submit enc w).2 = .ok () ∧
        (submit enc w).1.pending = w.pending ++ [{ queryString := q }] ∧
        (submit enc w).1.requests = w.requests ++ [submitUrl w q]) ∧
      (queryString enc w.form.formInputs = none →
        (submit enc w).2 = .error uriError ∧
        (submit enc w).1.pending = w.pending ∧
        (submit enc w).1.requests = w.requests)) := by
  obtain ⟨hno, hmp⟩ := validate_returned _ _ _ hret
  obtain ⟨_, hr⟩ := validate_complete _ _ hno hmp
  have hb : b = !(w.form.validator.validate w.form.getData).1.hasErrors := by
    rw [hr] at hret
    cases hret
    rfl
  have hg := removeErrors_getData w.form
  have hv : w.form.removeErrors.validator = w.form.validator := rfl
  cases b with
  | true =>
    obtain ⟨⟨s2, _, s5, s6⟩, sok, sthrow⟩ := submit_valid enc w hret
    have hvr : (w.form.removeErrors.validator.validate w.form.removeErrors.getData).2 =
        .ok true := by
      rw [hg]
      exact hret
    obtain ⟨f1, f2, _, f4⟩ := form_validate_valid w.form.removeErrors hvr
    have hform : (submit enc w).1.form = w.form.removeErrors.validate.1 := by
      unfold submit
      simp only [f1, if_true]
      split <;> rfl
    refine ⟨?_, ?_, by simpa using s6, s2, by simpa using s5, ?_, fun _ => ⟨sok, sthrow⟩⟩
    · rw [hform, f4]
      rfl
    · rw [hform, f2]
      simp only [FormController.removeErrors, if_true]
      apply List.map_congr_left
      intro e _
      simp only [remark]
    · intro h
      cases h
  | false =>
    have hh : (w.form.validator.validate w.form.getData).1.hasErrors = true := by
      simpa using hb
    unfold submit FormController.validate
    simp only [hv, hg, hret, hh, Bool.not_true, Bool.false_eq_true, if_false]
    simp only [FormController.showErrors, FormController.removeErrors, Bool.false_eq_true,
      if_false, List.map_map]
    refine ⟨by trivial, ?_, by trivial, by trivial, by trivial,
      fun _ => ⟨by trivial, by trivial, by trivial⟩, ?_⟩
    · apply List.map_congr_left
      intro e _
      simp only [Function.comp, remark]
    · intro h
      cases h

theorem clear_status (c : ContainerController) (hc : c.Consistent) : c.clear.status = none := by
  unfold ContainerController.clear
  cases hs : c.status with
  | none => simp [hs]
  | some st =>
    have hne : (st != "") = true := by
      simp only [bne_iff_ne, ne_eq]
      rintro rfl
      exact hc.2 hs
    simp [hne]

theorem recorded_field (config : Config) (p : String × JSString) (e : FieldError)
    (h : recorded config p = some e) : e.field = p.1 := by
  unfold recorded at h
  cases hl : config.lookup p.1 with
  | none => simp [hl] at h
  | some entry =>
    simp only [hl] at h
    split at h
    · cases h
      rfl
    · cases h

theorem recorded_isSome_iff (config : Config) (p : String × JSString) :
    (∃ e, recorded config p = some e) ↔
      ∃ entry, config.lookup p.1 = some entry ∧ entry.truthy = true ∧
        ∃ n ∈ entry.names, passes n p.2 = false := by
  unfold recorded
  cases hl : config.lookup p.1 with
  | none => simp
  | some entry =>
    have hf := failedMessages_eq_nil_iff p.2 entry.names
    by_cases ht : entry.truthy = true
    · by_cases hm : failedMessages p.2 entry.names = []
      · simp only [ht, hm, ne_eq, not_true_eq_false, and_false, if_false, exists_false,
          Option.some.injEq, exists_eq_left', true_and]
        constructor
        · rintro ⟨e, he⟩
          cases he
        · rintro ⟨n, hn, hn2⟩
          have := hf.mp hm n hn
          rw [hn2] at this
          cases this
      · simp only [ht, hm, ne_eq, not_false_eq_true, and_self, if_true, Option.some.injEq,
          exists_eq', exists_eq_left', true_and, true_iff]
        by_contra hcon
        apply hm
        apply hf.mpr
        intro n hn
        by_contra hp
        exact hcon ⟨n, hn, by simpa using hp⟩
    · simp [ht]

/-- The names in `errorFields` after a `validate` that returned: the fields
of the data with a failing check. -/
theorem mem_errorFields_iff (self : Validator) (data : Snapshot) (b : Bool)
    (hret : (self.validate data).2 = .ok b) (name : String) :
    name ∈ ((self.validate data).1.getErrors.map fun e => e.field) ↔
      ∃ value, (name, value) ∈ data ∧ ∃ entry, self.config.lookup name = some entry ∧
        entry.truthy = true ∧ ∃ n ∈ entry.names, passes n value = false := by
  obtain ⟨hno, hmp⟩ := validate_returned _ _ _ hret
  obtain ⟨hm, _⟩ := validate_complete _ _ hno hmp
  rw [getErrors_eq, hm]
  simp only [List.mem_map, List.mem_filterMap]
  constructor
  · rintro ⟨e, ⟨p, hp, hpe⟩, rfl⟩
    have hf := recorded_field _ _ _ hpe
    obtain ⟨entry, h1, h2, h3⟩ := (recorded_isSome_iff self.config p).mp ⟨e, hpe⟩
    rw [hf]
    exact ⟨p.2, hp, entry, h1, h2, h3⟩
  · rintro ⟨value, hp, entry, h1, h2, h3⟩
    obtain ⟨e, he⟩ := (recorded_isSome_iff self.config (name, value)).mpr ⟨entry, h1, h2, h3⟩
    exact ⟨e, ⟨(name, value), hp, he⟩, recorded_field _ _ _ he⟩

/-- The marks after `submit`: a tracked control is marked exactly when
`validate` returned `false` and its name is among the fields in error. -/
theorem submit_marks (enc : JSString → Option JSString) (w : World) (b : Bool)
    (hret : (w.form.validator.validate w.form.getData).2 = .ok b) :
    ∀ e ∈ (submit enc w).1.form.formInputs,
      (e.marked = true ↔
        b = false ∧
          e.name ∈ ((w.form.validator.validate w.form.getData).1.getErrors.map
            fun x => x.field)) := by
  obtain ⟨h2, h3, _⟩ := submit_returned enc w b hret
  intro e he
  unfold FormController.formInputs at he
  rw [h2, h3] at he
  obtain ⟨he1, he2⟩ := List.mem_filter.mp he
  obtain ⟨e0, _, rfl⟩ := List.mem_map.mp he1
  rw [remark_tracked] at he2
  rw [remark_marked _ _ _ he2, remark_name]
  cases b with
  | true => simp
  | false => simp

/-- C11: a submit request on data that fails validation issues no request,
leaves the trigger as it is and clears the container, which then shows no
status and no text; afterwards a tracked control is marked as in error
exactly when its field has a failing check, whatever marks an earlier attempt
left. -/
theorem submit_invalid (enc : JSString → Option JSString) (w : World)
    (hinvalid : (w.form.validator.validate w.form.getData).2 = .ok false)
    (hcons : w.container.Consistent) :
    (submit enc w).1.requests = w.requests ∧
    (submit enc w).1.pending = w.pending ∧
    (submit enc w).1.timers = w.timers ∧
    (submit enc w).1.submitDisabled = w.submitDisabled ∧
    (submit enc w).1.container.status = none ∧
    (submit enc w).1.container.textContent = "" ∧
    ∀ e ∈ (submit enc w).1.form.formInputs,
      (e.marked = true ↔
        ∃ value, (e.name, value) ∈ w.form.getData ∧
          ∃ entry, w.form.validator.config.lookup e.name = some entry ∧ entry.truthy = true ∧
            ∃ n ∈ entry.names, passes n value = false) := by
  obtain ⟨_, _, h4, h7, h8, hfalse, _⟩ := submit_returned enc w false hinvalid
  obtain ⟨_, h5, h6⟩ := hfalse rfl
  simp only [Bool.false_eq_true, if_false] at h4 h8
  refine ⟨h5, h6, h7, h8, ?_, ?_, ?_⟩
  · rw [h4]
    exact clear_status _ hcons
  · rw [h4]
    exact clear_textContent _ hcons
  · intro e he
    rw [submit_marks enc w false hinvalid e he,
      mem_errorFields_iff _ _ false hinvalid e.name]
    simp

/-- The hypotheses of C11 hold of a page with a bad name and phone number
on which an earlier attempt left `success` and a mark on the email field. -/
theorem submit_invalid_witness :
    (invalidPage.form.validator.validate invalidPage.form.getData).2 = .ok false ∧
    invalidPage.container.Consistent ∧
    ((submit encodeURIComponent invalidPage).1.requests = invalidPage.requests ∧
    (submit encodeURIComponent invalidPage).1.pending = invalidPage.pending ∧
    (submit encodeURIComponent invalidPage).1.timers = invalidPage.timers ∧
    (submit encodeURIComponent invalidPage).1.submitDisabled = invalidPage.submitDisabled ∧
    (submit encodeURIComponent invalidPage).1.container.status = none ∧
    (submit encodeURIComponent invalidPage).1.container.textContent = "" ∧
    ∀ e ∈ (submit encodeURIComponent invalidPage).1.form.formInputs,
      (e.marked = true ↔
        ∃ value, (e.name, value) ∈ invalidPage.form.getData ∧
          ∃ entry, invalidPage.form.validator.config.lookup e.name = some entry ∧
            entry.truthy = true ∧ ∃ n ∈ entry.names, passes n value = false)) :=
  ⟨by decide, ⟨by decide, by decide⟩,
   submit_invalid encodeURIComponent invalidPage (by decide) ⟨by decide, by decide⟩⟩

/-- C12 as stated fails: on valid data `submit` does not clear the container,
so the `success` of an earlier attempt is still shown while the first request
is outstanding. -/
theorem stale_status_shown_while_sending :
    (validPageAfterSuccess.form.validator.validate validPageAfterSuccess.form.getData).2
      = .ok true ∧
    (submit encodeURIComponent validPageAfterSuccess).1.pending.length = 1 ∧
    (submit encodeURIComponent validPageAfterSuccess).1.container.status = some "success" ∧
    ¬ (submit encodeURIComponent validPageAfterSuccess).1.container.status = none := by
  decide

/-- C12, amended: every submit request whose validation returns removes the
error marks of earlier attempts before validating, so that afterwards a
tracked control is marked exactly when the data is invalid and its field is
in error now.  The container is cleared only when the data is invalid; on
valid data `submit` leaves it as it was, so an earlier status is still shown
when the first request is issued and, whatever the user types meanwhile,
while the exchange is outstanding. -/
theorem submit_clears (enc : JSString → Option JSString) (w : World) (b : Bool)
    (edits : List (String × JSString))
    (hret : (w.form.validator.validate w.form.getData).2 = .ok b)
    (hcons : w.container.Consistent) :
    (∀ e ∈ (submit enc w).1.form.formInputs,
      (e.marked = true ↔
        b = false ∧
          e.name ∈ ((w.form.validator.validate w.form.getData).1.getErrors.map
            fun x => x.field))) ∧
    (b = false →
      (submit enc w).1.container.status = none ∧
      (submit enc w).1.container.textContent = "" ∧
      (submit enc w).1.requests = w.requests) ∧
    (b = true →
      (submit enc w).1.container = w.container ∧
      (run enc (submit enc w).1 (editEvents edits)).container = w.container ∧
      (∀ q, queryString enc w.form.formInputs = some q →
        (submit enc w).1.requests = w.requests ++ [submitUrl w q] ∧
        (submit enc w).1.pending = w.pending ++ [{ queryString := q }] ∧
        (run enc (submit enc w).1 (editEvents edits)).requests =
          w.requests ++ [submitUrl w q] ∧
        (run enc (submit enc w).1 (editEvents edits)).pending =
          w.pending ++ [{ queryString := q }]) ∧
      (queryString enc w.form.formInputs = none →
        (submit enc w).1.requests = w.requests)) := by
  obtain ⟨_, _, h4, _, _, hfalse, htrue⟩ := submit_returned enc w b hret
  obtain ⟨e1, _, e3, e4, _⟩ := run_edits_sameOutside enc edits (submit enc w).1
  refine ⟨submit_marks enc w b hret, ?_, ?_⟩
  · rintro rfl
    obtain ⟨_, h5, _⟩ := hfalse rfl
    simp only [Bool.false_eq_true, if_false] at h4
    exact ⟨by rw [h4]; exact clear_status _ hcons,
      by rw [h4]; exact clear_textContent _ hcons, h5⟩
  · rintro rfl
    obtain ⟨hok, hthrow⟩ := htrue rfl
    simp only [if_true] at h4
    refine ⟨h4, e1.trans h4, ?_, fun hq => (hthrow hq).2.2⟩
    intro q hq
    obtain ⟨_, h6, h5⟩ := hok q hq
    exact ⟨h5, h6, e3.trans h5, e4.trans h6⟩

/-- The hypotheses of the amended C12 hold of a page with valid values on
which an earlier attempt left `success` and a mark on the email field; the
user retypes the name while the exchange is outstanding. -/
theorem submit_clears_witness :
    (validPageAfterSuccess.form.validator.validate validPageAfterSuccess.form.getData).2
      = .ok true ∧
    validPageAfterSuccess.container.Consistent ∧
    validPageAfterSuccess.container.status = some "success" ∧
    (submit encodeURIComponent validPageAfterSuccess).1.container =
      validPageAfterSuccess.container ∧
    (run encodeURIComponent (submit encodeURIComponent validPageAfterSuccess).1
      (editEvents [("fio", utf16 "Пётр Петров Петрович")])).container =
      validPageAfterSuccess.container ∧
    (run encodeURIComponent (submit encodeURIComponent validPageAfterSuccess).1
      (editEvents [("fio", utf16 "Пётр Петров Петрович")])).pending.length = 1 ∧
    (∀ e ∈ (submit encodeURIComponent validPageAfterSuccess).1.form.formInputs,
      (e.marked = true ↔
        true = false ∧
          e.name ∈ ((validPageAfterSuccess.form.validator.validate
            validPageAfterSuccess.form.getData).1.getErrors.map fun x => x.field))) :=
  ⟨by decide, ⟨by decide, by decide⟩, rfl,
   ((submit_clears encodeURIComponent validPageAfterSuccess true
     [("fio", utf16 "Пётр Петров Петрович")] (by decide) ⟨by decide, by decide⟩).2.2 rfl).1,
   ((submit_clears encodeURIComponent validPageAfterSuccess true
     [("fio", utf16 "Пётр Петров Петрович")] (by decide) ⟨by decide, by decide⟩).2.2 rfl).2.1,
   by decide,
   (submit_clears encodeURIComponent validPageAfterSuccess true
     [("fio", utf16 "Пётр Петров Петрович")] (by decide) ⟨by decide, by decide⟩).1⟩

/-! ## The query string -/

/-- The reduction appends `pair&` for every input, when every pair can be
encoded, and throws otherwise. -/
theorem queryLoop_pairs (enc : JSString → Option JSString) :
    ∀ (inputs : List Element) (str : JSString),
      queryLoop enc inputs str =
        (queryPairs enc inputs).map fun pairs =>
          str ++ (pairs.map fun p => p ++ utf16 "&").flatten := by
  intro inputs
  induction inputs with
  | nil => intro str; simp [queryLoop, queryPairs]
  | cons e es ih =>
    intro str
    unfold queryLoop queryPairs queryPair
    cases hn : enc (utf16 e.name) with
    | none => simp
    | some n =>
      cases hv : enc e.value with
      | none => simp
      | some v =>
        simp only [ih]
        cases hps : queryPairs enc es with
        | none => simp
        | some ps => simp [List.append_assoc]

theorem dropLast_flatten_pairs (pairs : List JSString) :
    ((pairs.map fun p => p ++ utf16 "&").flatten).dropLast = joinWith (utf16 "&") pairs := by
  have hamp : utf16 "&" = [38] := by decide
  induction pairs with
  | nil => rfl
  | cons e es ih =>
    cases es with
    | nil =>
      simp only [List.map_cons, List.map_nil, List.flatten_cons, List.flatten_nil,
        List.append_nil, joinWith, hamp]
      exact List.dropLast_concat
    | cons e2 es2 =>
      have hne : ((e2 :: es2).map fun p => p ++ utf16 "&").flatten ≠ [] := by
        simp [hamp]
      rw [List.map_cons, List.flatten_cons, List.dropLast_append_of_ne_nil _ hne, ih]
      simp only [joinWith, List.append_assoc]

theorem queryString_eq_joinWith (enc : JSString → Option JSString) (inputs : List Element) :
    queryString enc inputs = (queryPairs enc inputs).map (joinWith (utf16 "&")) := by
  unfold queryString
  rw [queryLoop_pairs]
  cases queryPairs enc inputs with
  | none => rfl
  | some pairs =>
    simp only [Option.map_some', List.nil_append, dropLast_flatten_pairs]

theorem queryPairs_length (enc : JSString → Option JSString) :
    ∀ (inputs : List Element) (pairs : List JSString), queryPairs enc inputs = some pairs →
      pairs.length = inputs.length := by
  intro inputs
  induction inputs with
  | nil =>
    intro pairs h
    simp only [queryPairs, Option.some.injEq] at h
    rw [← h]
    rfl
  | cons e es ih =>
    intro pairs h
    unfold queryPairs at h
    cases hp : queryPair enc e with
    | none => simp [hp] at h
    | some pr =>
      cases hps : queryPairs enc es with
      | none => simp [hp, hps] at h
      | some ps =>
        simp only [hp, hps, Option.some.injEq] at h
        rw [← h, List.length_cons, List.length_cons, ih ps hps]

theorem joinWith_starts (sep p : JSString) (rest : List JSString) :
    ∃ tail, joinWith sep (p :: rest) = p ++ tail := by
  cases rest with
  | nil => exact ⟨[], by simp [joinWith]⟩
  | cons q qs => exact ⟨sep ++ joinWith sep (q :: qs), by simp [joinWith]⟩

theorem joinWith_ends (sep p : JSString) :
    ∀ parts : List JSString, ∃ init, joinWith sep (parts ++ [p]) = init ++ p := by
  intro parts
  induction parts with
  | nil => exact ⟨[], by simp [joinWith]⟩
  | cons a as ih =>
    obtain ⟨init, hi⟩ := ih
    cases as with
    | nil => exact ⟨a ++ sep, by simp [joinWith]⟩
    | cons b bs =>
      refine ⟨a ++ sep ++ init, ?_⟩
      have hj : joinWith sep (a :: b :: (bs ++ [p])) =
          a ++ sep ++ joinWith sep (b :: (bs ++ [p])) := rfl
      rw [List.cons_append, List.cons_append, hj, ← List.cons_append, hi]
      simp

/-- C13: the string `submit` builds by appending `name=value&` for every
tracked input and dropping the last character is the encoded `name=value`
pairs joined by `&`, in input order: empty for no input, the pair alone for
one input, starting with the first pair and ending with the last one; and it
is built exactly when every name and value can be encoded.  The request
`submit` issues on valid data is the action, `?` and that string; when a name
or value cannot be encoded, `submit` issues no request. -/
theorem query_string_joined (enc : JSString → Option JSString) (w : World)
    (inputs : List Element)
    (hvalid : (w.form.validator.validate w.form.getData).2 = .ok true) :
    queryString enc inputs = (queryPairs enc inputs).map (joinWith (utf16 "&")) ∧
    queryString enc [] = some [] ∧
    (∀ e n v, enc (utf16 e.name) = some n → enc e.value = some v →
      queryString enc [e] = some (n ++ utf16 "=" ++ v)) ∧
    (∀ pairs, queryPairs enc inputs = some pairs →
      pairs.length = inputs.length ∧
      (∀ first rest, pairs = first :: rest →
        ∃ tail, joinWith (utf16 "&") pairs = first ++ tail) ∧
      (∀ front last, pairs = front ++ [last] →
        ∃ init, joinWith (utf16 "&") pairs = init ++ last)) ∧
    (∀ q, queryString enc w.form.formInputs = some q →
      (submit enc w).1.requests = w.requests ++ [w.form.action ++ utf16 "?" ++ q] ∧
      ∃ pairs, queryPairs enc w.form.formInputs = some pairs ∧
        q = joinWith (utf16 "&") pairs) ∧
    (queryString enc w.form.formInputs = none → (submit enc w).1.requests = w.requests) := by
  obtain ⟨_, sok, sthrow⟩ := submit_valid enc w hvalid
  refine ⟨queryString_eq_joinWith enc inputs, rfl, ?_, ?_, ?_, fun h => (sthrow h).2.2⟩
  · intro e n v hn hv
    rw [queryString_eq_joinWith]
    simp [queryPairs, queryPair, hn, hv, joinWith]
  · intro pairs hp
    refine ⟨queryPairs_length enc inputs pairs hp, ?_, ?_⟩
    · rintro first rest rfl
      exact joinWith_starts _ _ _
    · rintro front last rfl
      exact joinWith_ends _ _ _
  · intro q hq
    refine ⟨(sok q hq).2.2, ?_⟩
    rw [queryString_eq_joinWith] at hq
    cases hp : queryPairs enc w.form.formInputs with
    | none =>
      rw [hp] at hq
      cases hq
    | some pairs =>
      rw [hp] at hq
      simp only [Option.map_some', Option.some.injEq] at hq
      exact ⟨pairs, rfl, hq.symm⟩

/-- The hypothesis of C13 holds of the page as loaded with valid values, and
of the page whose email holds an unpaired surrogate, for which no query
string is built. -/
theorem query_string_joined_witness :
    (validPage.form.validator.validate validPage.form.getData).2 = .ok true ∧
    (queryString encodeURIComponent validPage.form.formInputs).isSome = true ∧
    (queryString encodeURIComponent validPage.form.formInputs =
      (queryPairs encodeURIComponent validPage.form.formInputs).map (joinWith (utf16 "&"))) ∧
    (submit encodeURIComponent validPage).1.requests.length = 1 ∧
    (surrogatePage.form.validator.validate surrogatePage.form.getData).2 = .ok true ∧
    queryString encodeURIComponent surrogatePage.form.formInputs = none ∧
    (submit encodeURIComponent surrogatePage).1.requests = surrogatePage.requests :=
  ⟨by decide, by decide,
   (query_string_joined encodeURIComponent validPage validPage.form.formInputs (by decide)).1,
   by decide, by decide, by decide,
   (query_string_joined encodeURIComponent surrogatePage surrogatePage.form.formInputs
     (by decide)).2.2.2.2.2 (by decide)⟩

/-! ## Fields outside the configuration or outside the snapshot -/

theorem lookup_isSome_own (config : Config) (i : String) (entry : ConfigEntry)
    (hl : config.lookup i = some entry) : hasOwnProperty config i = true := by
  cases h : hasOwnProperty config i with
  | true => rfl
  | false =>
    rw [(lookup_eq_none_iff config i).mpr h] at hl
    cases hl

theorem restrictTo_cons_own (config : Config) (i : String) (value : JSString) (rest : Snapshot)
    (h : hasOwnProperty config i = true) :
    restrictTo config ((i, value) :: rest) = (i, value) :: restrictTo config rest := by
  simp [restrictTo, List.filter_cons, h]

theorem restrictTo_cons_other (config : Config) (i : String) (value : JSString) (rest : Snapshot)
    (h : hasOwnProperty config i = false) :
    restrictTo config ((i, value) :: rest) = restrictTo config rest := by
  simp [restrictTo, List.filter_cons, h]

theorem fieldLoop_restrictTo (config : Config) :
    ∀ (data : Snapshot) (messages : List FieldError),
      (∀ p ∈ data, hasOwnProperty config p.1 = false → inherited p.1 = false) →
      fieldLoop config (restrictTo config data) messages = fieldLoop config data messages := by
  intro data
  induction data with
  | nil => intro messages _; rfl
  | cons p rest ih =>
    intro messages hni
    obtain ⟨i, value⟩ := p
    have hrest : ∀ q ∈ rest, hasOwnProperty config q.1 = false → inherited q.1 = false :=
      fun q hq => hni q (List.mem_cons_of_mem _ hq)
    cases hl : config.lookup i with
    | none =>
      have hp : hasOwnProperty config i = false := (lookup_eq_none_iff config i).mp hl
      have hi : inherited i = false := hni (i, value) (List.mem_cons_self _ _) hp
      rw [restrictTo_cons_other config i value rest hp, ih _ hrest]
      simp [fieldLoop, hl, hi]
    | some entry =>
      rw [restrictTo_cons_own config i value rest (lookup_isSome_own config i entry hl)]
      simp only [fieldLoop, hl, ih _ hrest]

theorem fieldCalls_restrictTo (config : Config) :
    ∀ data : Snapshot,
      (∀ p ∈ data, hasOwnProperty config p.1 = false → inherited p.1 = false) →
      fieldCalls config (restrictTo config data) = fieldCalls config data := by
  intro data
  induction data with
  | nil => intro _; rfl
  | cons p rest ih =>
    intro hni
    obtain ⟨i, value⟩ := p
    have hrest : ∀ q ∈ rest, hasOwnProperty config q.1 = false → inherited q.1 = false :=
      fun q hq => hni q (List.mem_cons_of_mem _ hq)
    cases hl : config.lookup i with
    | none =>
      have hp : hasOwnProperty config i = false := (lookup_eq_none_iff config i).mp hl
      have hi : inherited i = false := hni (i, value) (List.mem_cons_self _ _) hp
      rw [restrictTo_cons_other config i value rest hp, ih hrest]
      simp [fieldCalls, hl, hi]
    | some entry =>
      rw [restrictTo_cons_own config i value rest (lookup_isSome_own config i entry hl)]
      simp only [fieldCalls, hl, ih hrest]

/-- The restriction keeps a field `hasOwnProperty` when every unconfigured
field name is free of inherited members. -/
theorem any_restrictTo (config : Config) (data : Snapshot)
    (hni : ∀ p ∈ data, hasOwnProperty config p.1 = false → inherited p.1 = false) :
    ((restrictTo config data).any fun p => p.1 == "hasOwnProperty") =
      data.any fun p => p.1 == "hasOwnProperty" := by
  cases hany : (data.any fun p => p.1 == "hasOwnProperty") with
  | false =>
    rw [Bool.eq_false_iff]
    intro h
    obtain ⟨q, hq, hq2⟩ := List.any_eq_true.mp h
    have : (data.any fun p => p.1 == "hasOwnProperty") = true :=
      List.any_eq_true.mpr ⟨q, (List.mem_filter.mp hq).1, hq2⟩
    rw [hany] at this
    cases this
  | true =>
    obtain ⟨q, hq, hq2⟩ := List.any_eq_true.mp hany
    have hname : q.1 = "hasOwnProperty" := by simpa using hq2
    have hown : hasOwnProperty config q.1 = true := by
      cases h : hasOwnProperty config q.1 with
      | true => rfl
      | false =>
        have := hni q hq h
        rw [hname] at this
        exact absurd this (by decide)
    exact List.any_eq_true.mpr ⟨q, List.mem_filter.mpr ⟨hq, hown⟩, hq2⟩

theorem validate_restrictTo (self : Validator) (data : Snapshot)
    (hni : ∀ p ∈ data, hasOwnProperty self.config p.1 = false → inherited p.1 = false) :
    self.validate (restrictTo self.config data) = self.validate data := by
  unfold Validator.validate validateLoop
  rw [any_restrictTo self.config data hni, fieldLoop_restrictTo self.config data [] hni]

theorem validateCalls_restrictTo (config : Config) (data : Snapshot)
    (hni : ∀ p ∈ data, hasOwnProperty config p.1 = false → inherited p.1 = false) :
    validateCalls config (restrictTo config data) = validateCalls config data := by
  unfold validateCalls
  rw [any_restrictTo config data hni, fieldCalls_restrictTo config data hni]

theorem restrictTo_of_absent (config : Config) (absent : Snapshot)
    (h : ∀ p ∈ absent, hasOwnProperty config p.1 = false) : restrictTo config absent = [] := by
  unfold restrictTo
  rw [List.filter_eq_nil_iff]
  intro p hp
  simp [h p hp]

/-- A field that is not configured and whose name is not that of an inherited
member is passed over by the loop. -/
theorem fieldLoop_skip (config : Config) (name : String) (value : JSString) (after : Snapshot)
    (hname : hasOwnProperty config name = false) (hi : inherited name = false) :
    ∀ (before : Snapshot) (messages : List FieldError),
      fieldLoop config (before ++ (name, value) :: after) messages =
        fieldLoop config (before ++ after) messages := by
  have hl : config.lookup name = none := (lookup_eq_none_iff config name).mpr hname
  intro before
  induction before with
  | nil =>
    intro messages
    simp [fieldLoop, hl, hi]
  | cons p rest ih =>
    intro messages
    obtain ⟨i, v⟩ := p
    rw [List.cons_append, List.cons_append]
    unfold fieldLoop
    simp only [ih]

theorem fieldCalls_skip (config : Config) (name : String) (value : JSString) (after : Snapshot)
    (hname : hasOwnProperty config name = false) (hi : inherited name = false) :
    ∀ before : Snapshot,
      fieldCalls config (before ++ (name, value) :: after) =
        fieldCalls config (before ++ after) := by
  have hl : config.lookup name = none := (lookup_eq_none_iff config name).mpr hname
  intro before
  induction before with
  | nil => simp [fieldCalls, hl, hi]
  | cons p rest ih =>
    obtain ⟨i, v⟩ := p
    rw [List.cons_append, List.cons_append]
    unfold fieldCalls
    simp only [ih]

theorem any_skip (name : String) (value : JSString) (before after : Snapshot)
    (hi : inherited name = false) :
    ((before ++ (name, value) :: after).any fun p => p.1 == "hasOwnProperty") =
      (before ++ after).any fun p => p.1 == "hasOwnProperty" := by
  have hne : (name == "hasOwnProperty") = false := by
    rw [beq_eq_false_iff_ne]
    rintro rfl
    exact absurd hi (by decide)
  simp [List.any_append, hne]

/-- C14: `validate` passes over the fields of the snapshot that are not
configured, unless the name of such a field is that of a member of
`Object.prototype`.  When no unconfigured field name is, `validate` treats
the snapshot as its restriction to the field names of the configuration: same
outcome, same errors, same checks run; an unconfigured field whose name is
not that of an inherited member can be added or removed without changing the
result; every recorded error belongs to a field of the snapshot, so a
configured field that is absent is skipped; and a snapshot of such
unconfigured fields only, the empty one included, validates as `true` with no
error and no check run.  An unconfigured field whose name is that of an
inherited member is not ignored: `validate` throws. -/
theorem validate_ignores_unconfigured (self : Validator) (data before after absent : Snapshot)
    (name : String) (value : JSString)
    (hname : hasOwnProperty self.config name = false)
    (habsent : ∀ p ∈ absent, hasOwnProperty self.config p.1 = false) :
    ((∀ p ∈ data, hasOwnProperty self.config p.1 = false → inherited p.1 = false) →
      (self.validate data).2 = (self.validate (restrictTo self.config data)).2 ∧
      (self.validate data).1.getErrors =
        (self.validate (restrictTo self.config data)).1.getErrors ∧
      validateCalls self.config data = validateCalls self.config (restrictTo self.config data)) ∧
    (inherited name = false →
      (self.validate (before ++ (name, value) :: after)).2 = (self.validate (before ++ after)).2 ∧
      (self.validate (before ++ (name, value) :: after)).1.getErrors =
        (self.validate (before ++ after)).1.getErrors ∧
      validateCalls self.config (before ++ (name, value) :: after) =
        validateCalls self.config (before ++ after)) ∧
    (∀ e ∈ (self.validate data).1.getErrors, ∃ v, (e.field, v) ∈ data) ∧
    ((∀ p ∈ absent, inherited p.1 = false) →
      (self.validate absent).2 = .ok true ∧ (self.validate absent).1.getErrors = [] ∧
      (self.validate absent).1.hasErrors = false ∧ validateCalls self.config absent = []) ∧
    ((self.validate []).2 = .ok true ∧ (self.validate []).1.getErrors = [] ∧
      (self.validate []).1.hasErrors = false ∧ validateCalls self.config [] = []) ∧
    (inherited name = true →
      (∃ e, (self.validate (before ++ (name, value) :: after)).2 = .error e) ∧
      (self.validate (restrictTo self.config [(name, value)])).2 = .ok true ∧
      ((self.validate [(name, value)]).2 = .error guardNotAFunction ∨
        (self.validate [(name, value)]).2 = .error notIterable)) := by
  have hempty : (self.validate []).2 = .ok true ∧ (self.validate []).1.getErrors = [] ∧
      (self.validate []).1.hasErrors = false ∧ validateCalls self.config [] = [] :=
    ⟨rfl, rfl, rfl, rfl⟩
  refine ⟨?_, ?_, getErrors_field_mem self data, ?_, hempty, ?_⟩
  · intro hni
    rw [validate_restrictTo self data hni, validateCalls_restrictTo self.config data hni]
    exact ⟨rfl, rfl, rfl⟩
  · intro hi
    have hv : self.validate (before ++ (name, value) :: after) =
        self.validate (before ++ after) := by
      unfold Validator.validate validateLoop
      rw [any_skip name value before after hi,
        fieldLoop_skip self.config name value after hname hi before []]
    have hc : validateCalls self.config (before ++ (name, value) :: after) =
        validateCalls self.config (before ++ after) := by
      unfold validateCalls
      rw [any_skip name value before after hi,
        fieldCalls_skip self.config name value after hname hi before]
    rw [hv, hc]
    exact ⟨rfl, rfl, rfl⟩
  · intro hi
    have hni : ∀ p ∈ absent, hasOwnProperty self.config p.1 = false → inherited p.1 = false :=
      fun p hp _ => hi p hp
    rw [← validate_restrictTo self absent hni, ← validateCalls_restrictTo self.config absent hni,
      restrictTo_of_absent _ _ habsent]
    exact hempty
  · intro hi
    refine ⟨?_, ?_, ?_⟩
    · apply validate_meets
      exact ⟨(name, value), by simp, Or.inr ⟨hname, hi⟩⟩
    · rw [restrictTo_cons_other self.config name value [] hname]
      rfl
    · have hl : self.config.lookup name = none := (lookup_eq_none_iff _ _).mpr hname
      by_cases hg : name = "hasOwnProperty"
      · left
        rw [validate_error_iff, validateLoop_shadowed]
        simp [hg]
      · right
        have hb : (name == "hasOwnProperty") = false := by simpa using hg
        rw [validate_error_iff, validateLoop_plain _ _ (by simp [hb])]
        simp [fieldLoop, hl, hi]

/-- The hypotheses of C14 hold of the shipped configuration, a field
`comment` and a snapshot holding only that field; with a field `toString` in
the place of `comment`, `validate` throws although the field is not
configured. -/
theorem validate_ignores_unconfigured_witness :
    hasOwnProperty config "comment" = false ∧ inherited "comment" = false ∧
    (∀ p ∈ [("comment", utf16 "hello")], hasOwnProperty config p.1 = false) ∧
    (∀ p ∈ snapshotWithExtra, hasOwnProperty config p.1 = false → inherited p.1 = false) ∧
    ((Validator.validate { config := config, messages := [] } snapshotWithExtra).2 =
        (Validator.validate { config := config, messages := [] }
          (restrictTo config snapshotWithExtra)).2 ∧
      (Validator.validate { config := config, messages := [] } snapshotWithExtra).1.getErrors =
        (Validator.validate { config := config, messages := [] }
          (restrictTo config snapshotWithExtra)).1.getErrors ∧
      validateCalls config snapshotWithExtra =
        validateCalls config (restrictTo config snapshotWithExtra)) ∧
    ((Validator.validate { config := config, messages := [] }
        ([("fio", utf16 "Иван Иванов")] ++ ("comment", utf16 "hello") ::
          [("email", utf16 "user.name@yandex.ru")])).2 =
        (Validator.validate { config := config, messages := [] }
          ([("fio", utf16 "Иван Иванов")] ++ [("email", utf16 "user.name@yandex.ru")])).2 ∧
      (Validator.validate { config := config, messages := [] }
        ([("fio", utf16 "Иван Иванов")] ++ ("comment", utf16 "hello") ::
          [("email", utf16 "user.name@yandex.ru")])).1.getErrors =
        (Validator.validate { config := config, messages := [] }
          ([("fio", utf16 "Иван Иванов")] ++
            [("email", utf16 "user.name@yandex.ru")])).1.getErrors ∧
      validateCalls config
        ([("fio", utf16 "Иван Иванов")] ++ ("comment", utf16 "hello") ::
          [("email", utf16 "user.name@yandex.ru")]) =
        validateCalls config
          ([("fio", utf16 "Иван Иванов")] ++ [("email", utf16 "user.name@yandex.ru")])) ∧
    ((Validator.validate { config := config, messages := [] }
        [("comment", utf16 "hello")]).2 = .ok true ∧
      (Validator.validate { config := config, messages := [] }
        [("comment", utf16 "hello")]).1.getErrors = [] ∧
      (Validator.validate { config := config, messages := [] }
        [("comment", utf16 "hello")]).1.hasErrors = false ∧
      validateCalls config [("comment", utf16 "hello")] = []) ∧
    hasOwnProperty config "toString" = false ∧ inherited "toString" = true ∧
    (Validator.validate { config := config, messages := [] }
      ([("fio", utf16 "Иван Иванов Иванович")] ++ ("toString", utf16 "hello") ::
        [("email", utf16 "user.name@yandex.ru")])).2 = .error notIterable ∧
    (Validator.validate { config := config, messages := [] }
      ([("fio", utf16 "Иван Иванов Иванович")] ++
        [("email", utf16 "user.name@yandex.ru")])).2 = .ok true ∧
    ((∃ e, (Validator.validate { config := config, messages := [] }
        ([("fio", utf16 "Иван Иванов Иванович")] ++ ("toString", utf16 "hello") ::
          [("email", utf16 "user.name@yandex.ru")])).2 = .error e) ∧
      (Validator.validate { config := config, messages := [] }
        (restrictTo config [("toString", utf16 "hello")])).2 = .ok true ∧
      ((Validator.validate { config := config, messages := [] }
          [("toString", utf16 "hello")]).2 = .error guardNotAFunction ∨
        (Validator.validate { config := config, messages := [] }
          [("toString", utf16 "hello")]).2 = .error notIterable)) :=
  ⟨by decide, by decide, by decide, by decide,
   (validate_ignores_unconfigured { config := config, messages := [] } snapshotWithExtra
     [("fio", utf16 "Иван Иванов")] [("email", utf16 "user.name@yandex.ru")]
     [("comment", utf16 "hello")] "comment" (utf16 "hello") (by decide) (by decide)).1
     (by decide),
   (validate_ignores_unconfigured { config := config, messages := [] } snapshotWithExtra
     [("fio", utf16 "Иван Иванов")] [("email", utf16 "user.name@yandex.ru")]
     [("comment", utf16 "hello")] "comment" (utf16 "hello") (by decide) (by decide)).2.1
     (by decide),
   (validate_ignores_unconfigured { config := config, messages := [] } snapshotWithExtra
     [("fio", utf16 "Иван Иванов")] [("email", utf16 "user.name@yandex.ru")]
     [("comment", utf16 "hello")] "comment" (utf16 "hello") (by decide) (by decide)).2.2.2.1
     (by decide),
   by decide, by decide, by decide, by decide,
   (validate_ignores_unconfigured { config := config, messages := [] } snapshotWithExtra
     [("fio", utf16 "Иван Иванов Иванович")] [("email", utf16 "user.name@yandex.ru")]
     [] "toString" (utf16 "hello") (by decide) (by decide)).2.2.2.2.2 (by decide)⟩

/-! ## Writing the fields -/

theorem assignValue_unique (elements : List Element) (key : String) (v : JSString)
    (h : (elements.filter fun e => e.name == key).length = 1) :
    assignValue elements key v =
      .ok (elements.map fun e => if e.name == key then { e with value := v } else e) := by
  unfold assignValue
  generalize (elements.filter fun e => e.name == key) = l at h
  match l, h with
  | [_], _ => rfl

theorem filter_name_map (elements : List Element) (g : Element → Element)
    (hg : ∀ e, (g e).name = e.name) (key : String) :
    ((elements.map g).filter fun e => e.name == key).length =
      (elements.filter fun e => e.name == key).length := by
  rw [List.filter_map, List.length_map]
  congr 1
  apply List.filter_congr
  intro e _
  simp [Function.comp, hg]

theorem lookup_cons_ne {β : Type} (k k1 : String) (v : β) (rest : List (String × β))
    (h : k ≠ k1) : List.lookup k ((k1, v) :: rest) = List.lookup k rest := by
  have hb : (k == k1) = false := by simpa using h
  simp [List.lookup, hb]

theorem lookup_none_of_not_mem {β : Type} (k : String) :
    ∀ l : List (String × β), k ∉ l.map Prod.fst → List.lookup k l = none := by
  intro l
  induction l with
  | nil => intro _; rfl
  | cons p ps ih =>
    intro h
    obtain ⟨k1, v1⟩ := p
    simp only [List.map_cons, List.mem_cons, not_or] at h
    rw [lookup_cons_ne k k1 v1 ps h.1]
    exact ih h.2

/-- The loop of `setData` on a form with one control for every key it
writes: it completes and leaves every control as the specification says. -/
theorem setDataLoop_written (rules : Config) :
    ∀ (newData : Snapshot) (elements : List Element), (newData.map Prod.fst).Nodup →
      (∀ p ∈ newData, hasOwnProperty rules p.1 = true →
        (elements.filter fun e => e.name == p.1).length = 1) →
      setDataLoop rules newData elements = (elements.map (written rules newData), .ok ()) := by
  intro newData
  induction newData with
  | nil =>
    intro elements _ _
    simp only [setDataLoop, Prod.mk.injEq, and_true]
    symm
    apply List.map_id''
    intro e
    simp [written, List.lookup]
  | cons p rest ih =>
    intro elements hnd hone
    obtain ⟨k, v⟩ := p
    simp only [List.map_cons, List.nodup_cons] at hnd
    by_cases hr : hasOwnProperty rules k = true
    · have h1 := hone (k, v) (List.mem_cons_self _ _) hr
      have hnext : ∀ q ∈ rest, hasOwnProperty rules q.1 = true →
          ((elements.map fun e => if e.name == k then { e with value := v } else e).filter
            fun e => e.name == q.1).length = 1 := by
        intro q hq hqr
        rw [filter_name_map]
        · exact hone q (List.mem_cons_of_mem _ hq) hqr
        · intro e
          split <;> rfl
      simp only [setDataLoop, hr, if_true, assignValue_unique _ _ _ h1, ih _ hnd.2 hnext,
        List.map_map, Prod.mk.injEq, and_true]
      apply List.map_congr_left
      intro e _
      simp only [Function.comp]
      by_cases hek : e.name = k
      · have hl := lookup_none_of_not_mem k rest hnd.1
        simp [written, hek, hr, hl, List.lookup]
      · have hb : (e.name == k) = false := by simpa using hek
        simp only [hb, Bool.false_eq_true, if_false, written, lookup_cons_ne _ _ _ _ hek]
    · simp only [Bool.not_eq_true] at hr
      have hnext : ∀ q ∈ rest, hasOwnProperty rules q.1 = true →
          (elements.filter fun e => e.name == q.1).length = 1 :=
        fun q hq hqr => hone q (List.mem_cons_of_mem _ hq) hqr
      simp only [setDataLoop, hr, Bool.false_eq_true, if_false, ih _ hnd.2 hnext,
        Prod.mk.injEq, and_true]
      apply List.map_congr_left
      intro e _
      by_cases hek : e.name = k
      · simp [written, hek, hr]
      · simp only [written, lookup_cons_ne _ _ _ _ hek]

theorem lookup_cons_self {β : Type} (k : String) (v : β) (rest : List (String × β)) :
    List.lookup k ((k, v) :: rest) = some v := by
  simp [List.lookup]

theorem lookup_map_set (k : String) (v : JSString) (k1 : String) :
    ∀ d : Snapshot,
      List.lookup k1 (d.map fun p => if p.1 == k then (k, v) else p) =
        if k1 = k then (if d.any (fun p => p.1 == k) then some v else none)
        else List.lookup k1 d := by
  intro d
  induction d with
  | nil => by_cases h : k1 = k <;> simp [List.lookup, h]
  | cons p ps ih =>
    obtain ⟨a, b⟩ := p
    by_cases hak : a = k
    · subst hak
      have hmap : List.map (fun p : String × JSString => if p.1 == a then (a, v) else p)
          ((a, b) :: ps) =
          (a, v) :: List.map (fun p : String × JSString => if p.1 == a then (a, v) else p) ps := by
        simp
      rw [hmap]
      by_cases h : k1 = a
      · subst h
        rw [lookup_cons_self]
        simp
      · rw [lookup_cons_ne _ _ _ _ h, lookup_cons_ne _ _ _ _ h, ih]
        simp [h]
    · have hb : (a == k) = false := by simpa using hak
      have hmap : List.map (fun p : String × JSString => if p.1 == k then (k, v) else p)
          ((a, b) :: ps) =
          (a, b) :: List.map (fun p : String × JSString => if p.1 == k then (k, v) else p) ps := by
        rw [List.map_cons]
        simp only [hb, Bool.false_eq_true, if_false]
      rw [hmap]
      by_cases h2 : k1 = a
      · subst h2
        rw [lookup_cons_self, lookup_cons_self]
        simp [hak]
      · rw [lookup_cons_ne _ _ _ _ h2, lookup_cons_ne _ _ _ _ h2, ih]
        simp only [List.any_cons, hb, Bool.false_or]

theorem lookup_insertIndex (n : Nat) (k : String) (v : JSString) (k1 : String) :
    ∀ d : Snapshot, d.any (fun p => p.1 == k) = false →
      List.lookup k1 (insertIndex n k v d) = if k1 = k then some v else List.lookup k1 d := by
  intro d
  induction d with
  | nil =>
    intro _
    by_cases h : k1 = k
    · subst h
      simp [insertIndex, List.lookup]
    · simp only [insertIndex, lookup_cons_ne _ _ _ _ h, h, if_false]
  | cons p ps ih =>
    intro hd
    obtain ⟨a, b⟩ := p
    simp only [List.any_cons, Bool.or_eq_false_iff] at hd
    have hak : a ≠ k := by simpa using hd.1
    have front : List.lookup k1 ((k, v) :: (a, b) :: ps) =
        if k1 = k then some v else List.lookup k1 ((a, b) :: ps) := by
      by_cases h : k1 = k
      · subst h
        simp [List.lookup]
      · have hb : (k1 == k) = false := by simpa using h
        simp only [List.lookup, hb, h, if_false]
    unfold insertIndex
    split
    · split
      · by_cases h : k1 = a
        · subst h
          simp [List.lookup, hak]
        · have hb : (k1 == a) = false := by simpa using h
          simp only [List.lookup, hb, ih hd.2]
      · exact front
    · exact front

theorem lookup_append_new (k : String) (v : JSString) (k1 : String) :
    ∀ d : Snapshot, d.any (fun p => p.1 == k) = false →
      List.lookup k1 (d ++ [(k, v)]) = if k1 = k then some v else List.lookup k1 d := by
  intro d
  induction d with
  | nil =>
    intro _
    by_cases h : k1 = k
    · subst h
      simp [List.lookup]
    · simp only [List.nil_append, lookup_cons_ne _ _ _ _ h, h, if_false]
  | cons p ps ih =>
    intro hd
    obtain ⟨a, b⟩ := p
    simp only [List.any_cons, Bool.or_eq_false_iff] at hd
    have hak : a ≠ k := by simpa using hd.1
    by_cases h : k1 = a
    · subst h
      simp [List.lookup, hak]
    · rw [List.cons_append, lookup_cons_ne _ _ _ _ h, lookup_cons_ne _ _ _ _ h, ih hd.2]

/-- Reading a property after the assignment `data[k] = v`. -/
theorem lookup_setProp (d : Snapshot) (k : String) (v : JSString) (k1 : String) :
    List.lookup k1 (setProp d k v) = if k1 = k then some v else List.lookup k1 d := by
  unfold setProp
  by_cases hany : d.any (fun p => p.1 == k) = true
  · simp only [hany, if_true, lookup_map_set]
  · simp only [Bool.not_eq_true] at hany
    simp only [hany, Bool.false_eq_true, if_false]
    split
    · exact lookup_insertIndex _ _ _ _ _ hany
    · exact lookup_append_new _ _ _ _ hany

/-- What `getData` reports for a name. -/
theorem lookup_foldl_setProp (name : String) :
    ∀ (inputs : List Element) (d : Snapshot),
      List.lookup name (inputs.foldl (fun data elem => setProp data elem.name elem.value) d) =
        match lastValue name inputs with
        | some v => some v
        | none => List.lookup name d := by
  intro inputs
  induction inputs with
  | nil => intro d; rfl
  | cons e es ih =>
    intro d
    rw [List.foldl_cons, ih, lookup_setProp]
    simp only [lastValue]
    cases lastValue name es with
    | some v => rfl
    | none =>
      by_cases h : name = e.name
      · subst h
        simp
      · have hb : (e.name == name) = false := by simpa using fun h2 : e.name = name => h h2.symm
        simp [h, hb]

theorem lookup_getData (form : FormController) (name : String) :
    List.lookup name form.getData = lastValue name form.formInputs := by
  unfold FormController.getData
  rw [lookup_foldl_setProp]
  cases lastValue name form.formInputs <;> rfl

theorem written_name (rules : Config) (newData : Snapshot) (e : Element) :
    (written rules newData e).name = e.name := by
  unfold written
  split
  · split <;> rfl
  · rfl

theorem written_tracked (rules rules1 : Config) (newData : Snapshot) (e : Element) :
    tracked rules1 (written rules newData e) = tracked rules1 e := by
  unfold written
  split
  · split <;> rfl
  · rfl

theorem lastValue_written_set (rules : Config) (newData : Snapshot) (name : String)
    (v : JSString) (hr : hasOwnProperty rules name = true)
    (hl : newData.lookup name = some v) :
    ∀ inputs : List Element,
      lastValue name (inputs.map (written rules newData)) =
        (lastValue name inputs).map fun _ => v := by
  intro inputs
  induction inputs with
  | nil => rfl
  | cons e es ih =>
    simp only [List.map_cons, lastValue, ih, written_name]
    cases lastValue name es with
    | some x => rfl
    | none =>
      by_cases h : e.name = name
      · subst h
        simp [written, hr, hl]
      · have hb : (e.name == name) = false := by simpa using h
        simp [hb]

theorem lastValue_written_same (rules : Config) (newData : Snapshot) (name : String)
    (h : hasOwnProperty rules name = false ∨ newData.lookup name = none) :
    ∀ inputs : List Element,
      lastValue name (inputs.map (written rules newData)) = lastValue name inputs := by
  intro inputs
  induction inputs with
  | nil => rfl
  | cons e es ih =>
    simp only [List.map_cons, lastValue, ih, written_name]
    cases lastValue name es with
    | some x => rfl
    | none =>
      by_cases he : e.name = name
      · subst he
        rcases h with h | h
        · simp [written, h]
        · simp [written, h]
      · have hb : (e.name == name) = false := by simpa using he
        simp [hb]

theorem lastValue_isSome_of_mem (name : String) :
    ∀ inputs : List Element, (∃ e ∈ inputs, e.name = name) →
      ∃ v, lastValue name inputs = some v := by
  intro inputs
  induction inputs with
  | nil => rintro ⟨e, he, _⟩; cases he
  | cons a as ih =>
    rintro ⟨e, he, hn⟩
    simp only [lastValue]
    cases hl : lastValue name as with
    | some v => exact ⟨v, rfl⟩
    | none =>
      rcases List.mem_cons.mp he with rfl | he
      · exact ⟨e.value, by simp [hn]⟩
      · obtain ⟨v, hv⟩ := ih ⟨e, he, hn⟩
        rw [hl] at hv
        cases hv

/-- C15: on a form with exactly one control for every key of `newData` that
is in the rules, `setData(newData)` completes; afterwards every control whose
name is a key of both `newData` and the rules holds the value of `newData`,
every other control is as it was, and `getData()` gives the value of
`newData` for every tracked field of such a name and the earlier value for
every other name. -/
theorem setData_writes_named_fields (form : FormController) (newData : Snapshot)
    (hkeys : (newData.map Prod.fst).Nodup)
    (hform : ∀ p ∈ newData, hasOwnProperty form.rules p.1 = true →
      (form.elements.filter fun e => e.name == p.1).length = 1) :
    (form.setData newData).2 = .ok () ∧
    (form.setData newData).1.elements = form.elements.map (written form.rules newData) ∧
    (∀ name v, hasOwnProperty form.rules name = true → newData.lookup name = some v →
      (∃ e ∈ form.formInputs, e.name = name) →
      List.lookup name (form.setData newData).1.getData = some v) ∧
    (∀ name, hasOwnProperty form.rules name = false ∨ newData.lookup name = none →
      List.lookup name (form.setData newData).1.getData = List.lookup name form.getData) := by
  have hloop := setDataLoop_written form.rules newData form.elements hkeys hform
  have hel : (form.setData newData).1.elements =
      form.elements.map (written form.rules newData) := by
    simp [FormController.setData, hloop]
  have hin : (form.setData newData).1.formInputs =
      form.formInputs.map (written form.rules newData) := by
    unfold FormController.formInputs
    rw [hel]
    have hrules : (form.setData newData).1.rules = form.rules := rfl
    rw [hrules, List.filter_map]
    congr 1
    apply List.filter_congr
    intro e _
    simp [Function.comp, written_tracked]
  refine ⟨by simp [FormController.setData, hloop], hel, ?_, ?_⟩
  · intro name v hr hl hex
    rw [lookup_getData, hin, lastValue_written_set _ _ _ _ hr hl]
    obtain ⟨x, hx⟩ := lastValue_isSome_of_mem name _ hex
    rw [hx]
    rfl
  · intro name h
    rw [lookup_getData, lookup_getData, hin, lastValue_written_same _ _ _ h]

/-- The hypotheses of C15 hold of the form of the page and new values for
the name field and for a name outside the rules. -/
theorem setData_writes_named_fields_witness :
    (sampleNewData.map Prod.fst).Nodup ∧
    (∀ p ∈ sampleNewData, hasOwnProperty validForm.rules p.1 = true →
      (validForm.elements.filter fun e => e.name == p.1).length = 1) ∧
    ((validForm.setData sampleNewData).2 = .ok () ∧
    (validForm.setData sampleNewData).1.elements =
      validForm.elements.map (written validForm.rules sampleNewData) ∧
    (∀ name v, hasOwnProperty validForm.rules name = true →
      sampleNewData.lookup name = some v →
      (∃ e ∈ validForm.formInputs, e.name = name) →
      List.lookup name (validForm.setData sampleNewData).1.getData = some v) ∧
    (∀ name, hasOwnProperty validForm.rules name = false ∨ sampleNewData.lookup name = none →
      List.lookup name (validForm.setData sampleNewData).1.getData =
        List.lookup name validForm.getData)) :=
  ⟨by decide, by decide,
   setData_writes_named_fields validForm sampleNewData (by decide) (by decide)⟩

/-! ## Exchanges that fail -/

theorem onResponse_unhandled (w : World) (query : JSString) (r : Response)
    (hr : r.Unhandled) :
    (onResponse w query r).requests = w.requests ∧
    (onResponse w query r).pending = w.pending ∧
    (onResponse w query r).timers = w.timers ∧
    (onResponse w query r).container = w.container ∧
    (onResponse w query r).submitDisabled = w.submitDisabled ∧
    (onResponse w query r).form = w.form := by
  cases r with
  | rejected => exact ⟨rfl, rfl, rfl, rfl, rfl, rfl⟩
  | malformed => exact ⟨rfl, rfl, rfl, rfl, rfl, rfl⟩
  | json data =>
    obtain ⟨h1, h2, h3⟩ := hr
    have b1 : (data.status == "success") = false := by simpa using h1
    have b2 : (data.status == "error") = false := by simpa using h2
    have b3 : (data.status == "progress") = false := by simpa using h3
    simp only [onResponse, b1, b2, b3, Bool.false_eq_true, if_false]
    exact ⟨by trivial, by trivial, by trivial, by trivial, by trivial, by trivial⟩

/-- The trigger is enabled again only by a `success` or `error` answer. -/
theorem enabled_only_by_terminal (enc : JSString → Option JSString) (w : World) (e : Event)
    (hd : w.submitDisabled = true) (he : (step enc w e).submitDisabled = false) :
    ∃ n data, e = .response n (.json data) ∧
      (data.status = "success" ∨ data.status = "error") := by
  cases e with
  | response n r =>
    cases hg : w.pending.get? n with
    | none =>
      simp only [step, hg] at he
      rw [hd] at he
      cases he
    | some x =>
      cases r with
      | rejected =>
        simp only [step, hg, onResponse] at he
        rw [hd] at he
        cases he
      | malformed =>
        simp only [step, hg, onResponse] at he
        rw [hd] at he
        cases he
      | json data =>
        refine ⟨n, data, rfl, ?_⟩
        by_cases h1 : data.status = "success"
        · exact Or.inl h1
        · by_cases h2 : data.status = "error"
          · exact Or.inr h2
          · exfalso
            have b1 : (data.status == "success") = false := by simpa using h1
            have b2 : (data.status == "error") = false := by simpa using h2
            simp only [step, hg, onResponse, b1, b2, Bool.false_eq_true, if_false] at he
            split at he
            · rw [hd] at he
              cases he
            · rw [hd] at he
              cases he
  | timeout n =>
    cases hg : w.timers.get? n with
    | none =>
      simp only [step, hg] at he
      rw [hd] at he
      cases he
    | some t =>
      simp only [step, hg, request] at he
      rw [hd] at he
      cases he
  | input name value =>
    simp only [step] at he
    rw [hd] at he
    cases he
  | submit =>
    exfalso
    simp only [step, submit] at he
    split at he
    · rw [hd] at he
      cases he
    · split at he
      · split at he
        · simp at he
        · simp [request] at he
      · rw [hd] at he
        cases he

theorem some_getD_of_isSome (o : Option JSString) (h : o.isSome = true) :
    o = some (o.getD []) := by
  cases o with
  | none => cases h
  | some x => rfl

/-- C17: during a submission of valid data, for which `submit` built the
query string `q` and issued its request, when the outstanding exchange
fails at transport level, cannot be decoded, or answers with a status that
is none of `success`, `error`, `progress`, no further request is issued and
no timer is set, the container stays as it was and the trigger stays
disabled, and this remains so whatever happens afterwards short of a new
submit request; and whenever the trigger goes from disabled to enabled, the
event is a `success` or `error` answer. -/
theorem failed_exchange_stalls (enc : JSString → Option JSString) (w : World) (rounds : List Round)
    (lastEdits : List (String × JSString)) (r : Response) (later : List Event)
    (v : World) (e : Event) (q : JSString)
    (hvalid : (w.form.validator.validate w.form.getData).2 = .ok true)
    (henc : queryString enc w.form.formInputs = some q)
    (hquiet : w.Quiet) (hcons : w.container.Consistent)
    (hr : r.Unhandled) (hlater : ∀ x ∈ later, x.isSubmit = false)
    (hd : v.submitDisabled = true) (he : (step enc v e).submitDisabled = false) :
    ((step enc (run enc (submit enc w).1 (pollEvents rounds ++ editEvents lastEdits))
        (.response 0 r)).requests =
        w.requests ++ List.replicate (rounds.length + 1) (submitUrl w q) ∧
      (step enc (run enc (submit enc w).1 (pollEvents rounds ++ editEvents lastEdits))
        (.response 0 r)).pending = [] ∧
      (step enc (run enc (submit enc w).1 (pollEvents rounds ++ editEvents lastEdits))
        (.response 0 r)).timers = [] ∧
      (step enc (run enc (submit enc w).1 (pollEvents rounds ++ editEvents lastEdits))
        (.response 0 r)).container =
        (run enc (submit enc w).1 (pollEvents rounds ++ editEvents lastEdits)).container ∧
      (step enc (run enc (submit enc w).1 (pollEvents rounds ++ editEvents lastEdits))
        (.response 0 r)).submitDisabled = true) ∧
    ((run enc (step enc (run enc (submit enc w).1 (pollEvents rounds ++ editEvents lastEdits))
        (.response 0 r)) later).requests =
        w.requests ++ List.replicate (rounds.length + 1) (submitUrl w q) ∧
      (run enc (step enc (run enc (submit enc w).1 (pollEvents rounds ++ editEvents lastEdits))
        (.response 0 r)) later).pending = [] ∧
      (run enc (step enc (run enc (submit enc w).1 (pollEvents rounds ++ editEvents lastEdits))
        (.response 0 r)) later).timers = [] ∧
      (run enc (step enc (run enc (submit enc w).1 (pollEvents rounds ++ editEvents lastEdits))
        (.response 0 r)) later).container =
        (run enc (submit enc w).1 (pollEvents rounds ++ editEvents lastEdits)).container ∧
      (run enc (step enc (run enc (submit enc w).1 (pollEvents rounds ++ editEvents lastEdits))
        (.response 0 r)) later).submitDisabled = true) ∧
    ∃ n data, e = .response n (.json data) ∧
      (data.status = "success" ∨ data.status = "error") := by
  obtain ⟨⟨s2, s4, s5, s6⟩, sok, _⟩ := submit_valid enc w hvalid
  obtain ⟨_, s1, s3⟩ := sok q henc
  have h0 : Awaiting (submitUrl w q) q w.form.action
      w.requests 1 (submit enc w).1 := by
    refine ⟨?_, ?_, ?_, s4, s5, ?_⟩
    · rw [s1, hquiet.1]
      rfl
    · rw [s2, hquiet.2]
    · rw [s3]
      rfl
    · rw [s6]
      exact hcons
  obtain ⟨hk, _⟩ := rounds_awaiting enc rounds 1 _ h0
  have hk3 := awaiting_of_sameOutside (run_edits_sameOutside enc lastEdits _) hk
  rw [← run_append] at hk3
  have e1 : 1 + rounds.length = rounds.length + 1 := by omega
  rw [e1] at hk3
  obtain ⟨b1, b2, b3, _, b5, _⟩ := hk3
  generalize run enc (submit enc w).1 (pollEvents rounds ++ editEvents lastEdits) = x at *
  have hstep : step enc x (.response 0 r) =
      onResponse { x with pending := [] } q r := by
    simp only [step, b1, List.get?_cons_zero, List.eraseIdx_cons_zero]
  obtain ⟨o1, o2, o3, o4, o5, _⟩ :=
    onResponse_unhandled { x with pending := [] } q r hr
  have first : (step enc x (.response 0 r)).requests =
        w.requests ++ List.replicate (rounds.length + 1) (submitUrl w q) ∧
      (step enc x (.response 0 r)).pending = [] ∧
      (step enc x (.response 0 r)).timers = [] ∧
      (step enc x (.response 0 r)).container = x.container ∧
      (step enc x (.response 0 r)).submitDisabled = true := by
    rw [hstep]
    exact ⟨o1.trans b3, o2, o3.trans b2, o4, o5.trans b5⟩
  obtain ⟨f1, f2, f3, f4, f5⟩ := first
  obtain ⟨r1, r2, r3, r4, r5⟩ := run_stalled enc later _ f2 f3 hlater
  exact ⟨⟨f1, f2, f3, f4, f5⟩, ⟨r1.trans f1, r2, r3, r4.trans f4, r5.trans f5⟩,
    enabled_only_by_terminal enc v e hd he⟩

/-- The hypotheses of C17 hold of the page as loaded with valid values, one
round of polling, an answer with the status `queued` and later events. -/
theorem failed_exchange_stalls_witness :
    (validPage.form.validator.validate validPage.form.getData).2 = .ok true ∧
    queryString encodeURIComponent validPage.form.formInputs =
      some ((queryString encodeURIComponent validPage.form.formInputs).getD []) ∧
    validPage.Quiet ∧ validPage.container.Consistent ∧ unknownStatusResponse.Unhandled ∧
    (∀ x ∈ lateEvents, x.isSubmit = false) ∧
    (submit encodeURIComponent validPage).1.submitDisabled = true ∧
    (step encodeURIComponent (submit encodeURIComponent validPage).1
      (.response 0 (.json successResponse))).submitDisabled = false ∧
    (((step encodeURIComponent (run encodeURIComponent (submit encodeURIComponent validPage).1 (pollEvents [sampleRound] ++ editEvents []))
        (.response 0 unknownStatusResponse)).requests =
        validPage.requests ++ List.replicate ([sampleRound].length + 1) (submitUrl validPage ((queryString encodeURIComponent validPage.form.formInputs).getD [])) ∧
      (step encodeURIComponent (run encodeURIComponent (submit encodeURIComponent validPage).1 (pollEvents [sampleRound] ++ editEvents []))
        (.response 0 unknownStatusResponse)).pending = [] ∧
      (step encodeURIComponent (run encodeURIComponent (submit encodeURIComponent validPage).1 (pollEvents [sampleRound] ++ editEvents []))
        (.response 0 unknownStatusResponse)).timers = [] ∧
      (step encodeURIComponent (run encodeURIComponent (submit encodeURIComponent validPage).1 (pollEvents [sampleRound] ++ editEvents []))
        (.response 0 unknownStatusResponse)).container =
        (run encodeURIComponent (submit encodeURIComponent validPage).1 (pollEvents [sampleRound] ++ editEvents [])).container ∧
      (step encodeURIComponent (run encodeURIComponent (submit encodeURIComponent validPage).1 (pollEvents [sampleRound] ++ editEvents []))
        (.response 0 unknownStatusResponse)).submitDisabled = true) ∧
    ((run encodeURIComponent (step encodeURIComponent (run encodeURIComponent (submit encodeURIComponent validPage).1 (pollEvents [sampleRound] ++ editEvents []))
        (.response 0 unknownStatusResponse)) lateEvents).requests =
        validPage.requests ++ List.replicate ([sampleRound].length + 1) (submitUrl validPage ((queryString encodeURIComponent validPage.form.formInputs).getD [])) ∧
      (run encodeURIComponent (step encodeURIComponent (run encodeURIComponent (submit encodeURIComponent validPage).1 (pollEvents [sampleRound] ++ editEvents []))
        (.response 0 unknownStatusResponse)) lateEvents).pending = [] ∧
      (run encodeURIComponent (step encodeURIComponent (run encodeURIComponent (submit encodeURIComponent validPage).1 (pollEvents [sampleRound] ++ editEvents []))
        (.response 0 unknownStatusResponse)) lateEvents).timers = [] ∧
      (run encodeURIComponent (step encodeURIComponent (run encodeURIComponent (submit encodeURIComponent validPage).1 (pollEvents [sampleRound] ++ editEvents []))
        (.response 0 unknownStatusResponse)) lateEvents).container =
        (run encodeURIComponent (submit encodeURIComponent validPage).1 (pollEvents [sampleRound] ++ editEvents [])).container ∧
      (run encodeURIComponent (step encodeURIComponent (run encodeURIComponent (submit encodeURIComponent validPage).1 (pollEvents [sampleRound] ++ editEvents []))
        (.response 0 unknownStatusResponse)) lateEvents).submitDisabled = true) ∧
    ∃ n data, Event.response 0 (.json successResponse) = .response n (.json data) ∧
      (data.status = "success" ∨ data.status = "error")) :=
  ⟨by decide, some_getD_of_isSome _ (by decide), ⟨rfl, rfl⟩, ⟨fun _ => rfl, by decide⟩,
   ⟨by decide, by decide, by decide⟩, by decide, by decide, by decide,
   failed_exchange_stalls encodeURIComponent validPage [sampleRound] [] unknownStatusResponse
     lateEvents (submit encodeURIComponent validPage).1 (.response 0 (.json successResponse))
     ((queryString encodeURIComponent validPage.form.formInputs).getD [])
     (by decide) (some_getD_of_isSome _ (by decide)) ⟨rfl, rfl⟩ ⟨fun _ => rfl, by decide⟩
     ⟨by decide, by decide, by decide⟩ (by decide) (by decide) (by decide)⟩

/-! ## The shape of an accepted local part -/

theorem noAdjacent_cons_word (a : Nat) (z : JSString) (ha : isWordUnit a = true)
    (hz : noAdjacentNonWord z = true) : noAdjacentNonWord (a :: z) = true := by
  cases z with
  | nil => rfl
  | cons b r => simp [noAdjacentNonWord, ha, hz]

theorem noAdjacent_cons_before_word (d b : Nat) (r : JSString) (hb : isWordUnit b = true)
    (hz : noAdjacentNonWord (b :: r) = true) : noAdjacentNonWord (d :: b :: r) = true := by
  simp [noAdjacentNonWord, hb, hz]

theorem noAdjacent_tail (a : Nat) (z : JSString) (h : noAdjacentNonWord (a :: z) = true) :
    noAdjacentNonWord z = true := by
  cases z with
  | nil => rfl
  | cons b r =>
    simp only [noAdjacentNonWord, Bool.and_eq_true] at h
    exact h.2

theorem noAdjacent_pair (a b : Nat) (z : JSString)
    (h : noAdjacentNonWord (a :: b :: z) = true) :
    isWordUnit a = true ∨ isWordUnit b = true := by
  simp only [noAdjacentNonWord, Bool.and_eq_true, Bool.or_eq_true] at h
  exact h.1

theorem noAdjacent_word_run (w z : JSString) (hw : ∀ c ∈ w, isWordUnit c = true)
    (hz : noAdjacentNonWord z = true) : noAdjacentNonWord (w ++ z) = true := by
  induction w with
  | nil => exact hz
  | cons a as ih =>
    exact noAdjacent_cons_word a (as ++ z) (hw a (List.mem_cons_self _ _))
      (ih fun c hc => hw c (List.mem_cons_of_mem _ hc))

theorem word_not_lineTerminator (c : Nat) (h : isWordUnit c = true) :
    isLineTerminator c = false := by
  simp only [isWordUnit, Bool.or_eq_true, Bool.and_eq_true, decide_eq_true_eq, beq_iff_eq] at h
  simp only [isLineTerminator, Bool.or_eq_false_iff, beq_eq_false_iff_ne]
  omega

theorem dot_not_lineTerminator (c : Nat) (h : isDotUnit c = true) :
    isLineTerminator c = false := by
  simpa [isDotUnit] using h

/-- One more block in front keeps the shape. -/
theorem block_step (w : JSString) (d : Option Nat) (x : JSString) (hw1 : w ≠ [])
    (hw2 : ∀ c ∈ w, isWordUnit c = true) (hd : ∀ c ∈ d, isDotUnit c = true)
    (hx1 : ∃ c, x.head? = some c ∧ isWordUnit c = true)
    (hx2 : ∀ c ∈ x, isLineTerminator c = false) (hx3 : noAdjacentNonWord x = true) :
    x.length + 1 ≤ (w ++ (d.toList ++ x)).length ∧
    (∃ c, (w ++ (d.toList ++ x)).head? = some c ∧ isWordUnit c = true) ∧
    (w ++ (d.toList ++ x)).getLast? = x.getLast? ∧
    (∀ c ∈ w ++ (d.toList ++ x), isLineTerminator c = false) ∧
    noAdjacentNonWord (w ++ (d.toList ++ x)) = true := by
  obtain ⟨y, hy, hyw⟩ := hx1
  have hxne : x ≠ [] := by
    intro h
    rw [h] at hy
    cases hy
  have hdx : d.toList ++ x ≠ [] := by simp [hxne]
  refine ⟨?_, ?_, ?_, ?_, ?_⟩
  · cases w with
    | nil => exact absurd rfl hw1
    | cons a as =>
      simp only [List.length_append, List.length_cons]
      omega
  · cases w with
    | nil => exact absurd rfl hw1
    | cons a as => exact ⟨a, rfl, hw2 a (List.mem_cons_self _ _)⟩
  · rw [List.getLast?_append_of_ne_nil _ hdx, List.getLast?_append_of_ne_nil _ hxne]
  · intro c hc
    rcases List.mem_append.mp hc with h | h
    · exact word_not_lineTerminator c (hw2 c h)
    · rcases List.mem_append.mp h with h | h
      · cases d with
        | none => cases h
        | some e =>
          simp only [Option.toList, List.mem_singleton] at h
          subst h
          exact dot_not_lineTerminator c (hd c rfl)
      · exact hx2 c h
  · apply noAdjacent_word_run w _ hw2
    cases d with
    | none => exact hx3
    | some e =>
      cases x with
      | nil => exact absurd rfl hxne
      | cons b r =>
        simp only [List.head?_cons, Option.some.injEq] at hy
        subst hy
        exact noAdjacent_cons_before_word e b r hyw hx3

/-- The strings built from blocks have the shape. -/
theorem blocks_shape (last : JSString) (hl1 : last ≠ [])
    (hl2 : ∀ c ∈ last, isWordUnit c = true) :
    ∀ blocks : List (JSString × Option Nat),
      (∀ b ∈ blocks,
        b.1 ≠ [] ∧ (∀ c ∈ b.1, isWordUnit c = true) ∧ ∀ d ∈ b.2, isDotUnit d = true) →
      blocks.length + 1 ≤ ((blocks.map fun b => b.1 ++ b.2.toList).flatten ++ last).length ∧
      (∃ c, ((blocks.map fun b => b.1 ++ b.2.toList).flatten ++ last).head? = some c ∧
        isWordUnit c = true) ∧
      ((blocks.map fun b => b.1 ++ b.2.toList).flatten ++ last).getLast? = last.getLast? ∧
      (∀ c ∈ (blocks.map fun b => b.1 ++ b.2.toList).flatten ++ last,
        isLineTerminator c = false) ∧
      noAdjacentNonWord ((blocks.map fun b => b.1 ++ b.2.toList).flatten ++ last) = true := by
  intro blocks
  induction blocks with
  | nil =>
    intro _
    simp only [List.map_nil, List.flatten_nil, List.nil_append, List.length_nil, Nat.zero_add]
    cases last with
    | nil => exact absurd rfl hl1
    | cons a as =>
      refine ⟨by simp, ⟨a, rfl, hl2 a (List.mem_cons_self _ _)⟩, by trivial,
        fun c hc => word_not_lineTerminator c (hl2 c hc), ?_⟩
      have := noAdjacent_word_run (a :: as) [] hl2 rfl
      simpa using this
  | cons b bs ih =>
    intro hb
    obtain ⟨hw1, hw2, hd⟩ := hb b (List.mem_cons_self _ _)
    obtain ⟨i1, i2, i3, i4, i5⟩ := ih fun x hx => hb x (List.mem_cons_of_mem _ hx)
    have hform : ((b :: bs).map fun b => b.1 ++ b.2.toList).flatten ++ last =
        b.1 ++ (b.2.toList ++ ((bs.map fun b => b.1 ++ b.2.toList).flatten ++ last)) := by
      simp
    rw [hform]
    obtain ⟨s1, s2, s3, s4, s5⟩ := block_step b.1 b.2 _ hw1 hw2 hd i2 i4 i5
    refine ⟨?_, s2, s3.trans i3, s4, s5⟩
    simp only [List.length_cons]
    omega

theorem spec_shape (l : JSString) (h : LocalPartSpec l) : LocalPartShape l := by
  obtain ⟨blocks, last, hne, hb, hl1, hl2, rfl⟩ := h
  obtain ⟨s1, s2, s3, s4, s5⟩ := blocks_shape last hl1 hl2 blocks hb
  refine ⟨?_, s2, ?_, s4, s5⟩
  · cases blocks with
    | nil => exact absurd rfl hne
    | cons b bs =>
      simp only [List.length_cons] at s1
      omega
  · rw [s3]
    cases hlast : last.getLast? with
    | none =>
      rw [List.getLast?_eq_none_iff] at hlast
      exact absurd hlast hl1
    | some z => exact ⟨z, rfl, hl2 z (List.mem_of_getLast?_eq_some hlast)⟩

/-- A word character in front of an accepted string gives an accepted string. -/
theorem spec_cons_word (c : Nat) (l : JSString) (hc : isWordUnit c = true)
    (h : LocalPartSpec l) : LocalPartSpec (c :: l) := by
  obtain ⟨blocks, last, hne, hb, hl1, hl2, rfl⟩ := h
  cases blocks with
  | nil => exact absurd rfl hne
  | cons b bs =>
    obtain ⟨hw1, hw2, hd⟩ := hb b (List.mem_cons_self _ _)
    refine ⟨(c :: b.1, b.2) :: bs, last, by simp, ?_, hl1, hl2, by simp⟩
    intro x hx
    rcases List.mem_cons.mp hx with rfl | hx
    · refine ⟨by simp, ?_, hd⟩
      intro y hy
      rcases List.mem_cons.mp hy with rfl | hy
      · exact hc
      · exact hw2 y hy
    · exact hb x (List.mem_cons_of_mem _ hx)

/-- A word character and one other character in front of an accepted string
give an accepted string. -/
theorem spec_cons_block (c d : Nat) (l : JSString) (hc : isWordUnit c = true)
    (hd : isDotUnit d = true) (h : LocalPartSpec l) : LocalPartSpec (c :: d :: l) := by
  obtain ⟨blocks, last, _, hb, hl1, hl2, rfl⟩ := h
  refine ⟨([c], some d) :: blocks, last, by simp, ?_, hl1, hl2, by simp⟩
  intro x hx
  rcases List.mem_cons.mp hx with rfl | hx
  · refine ⟨by simp, ?_, ?_⟩
    · intro y hy
      simp only [List.mem_singleton] at hy
      subst hy
      exact hc
    · intro y hy
      simp only [Option.mem_def, Option.some.injEq] at hy
      subst hy
      exact hd
  · exact hb x hx

theorem shape_spec_aux :
    ∀ (n : Nat) (l : JSString), l.length = n → ∀ c : Nat, isWordUnit c = true → l ≠ [] →
      (∃ z, (c :: l).getLast? = some z ∧ isWordUnit z = true) →
      (∀ x ∈ c :: l, isLineTerminator x = false) → noAdjacentNonWord (c :: l) = true →
      LocalPartSpec (c :: l) := by
  intro n
  induction n using Nat.strong_induction_on with
  | _ n ih =>
    intro l hlen c hc hne hlast hlt hadj
    cases l with
    | nil => exact absurd rfl hne
    | cons d l1 =>
      cases l1 with
      | nil =>
        obtain ⟨z, hz, hzw⟩ := hlast
        simp only [List.getLast?_cons_cons, List.getLast?_singleton, Option.some.injEq] at hz
        subst hz
        refine ⟨[([c], none)], [d], by simp, ?_, by simp, ?_, by simp⟩
        · intro x hx
          simp only [List.mem_singleton] at hx
          subst hx
          refine ⟨by simp, ?_, by simp⟩
          intro y hy
          simp only [List.mem_singleton] at hy
          subst hy
          exact hc
        · intro y hy
          simp only [List.mem_singleton] at hy
          subst hy
          exact hzw
      | cons e l2 =>
        have hlast1 : ∃ z, (d :: e :: l2).getLast? = some z ∧ isWordUnit z = true := by
          obtain ⟨z, hz, hzw⟩ := hlast
          rw [List.getLast?_cons_cons] at hz
          exact ⟨z, hz, hzw⟩
        have hlt1 : ∀ x ∈ d :: e :: l2, isLineTerminator x = false :=
          fun x hx => hlt x (List.mem_cons_of_mem _ hx)
        have hadj1 := noAdjacent_tail _ _ hadj
        by_cases hdw : isWordUnit d = true
        · have hn : (e :: l2).length < n := by
            rw [← hlen]
            simp
          exact spec_cons_word c _ hc
            (ih _ hn (e :: l2) rfl d hdw (by simp) hlast1 hlt1 hadj1)
        · have hew : isWordUnit e = true := by
            rcases noAdjacent_pair _ _ _ hadj1 with h | h
            · exact absurd h hdw
            · exact h
          have hdd : isDotUnit d = true := by
            have := hlt d (by simp)
            simp [isDotUnit, this]
          cases l2 with
          | nil =>
            refine ⟨[([c], some d)], [e], by simp, ?_, by simp, ?_, by simp⟩
            · intro x hx
              simp only [List.mem_singleton] at hx
              subst hx
              refine ⟨by simp, ?_, ?_⟩
              · intro y hy
                simp only [List.mem_singleton] at hy
                subst hy
                exact hc
              · intro y hy
                simp only [Option.mem_def, Option.some.injEq] at hy
                subst hy
                exact hdd
            · intro y hy
              simp only [List.mem_singleton] at hy
              subst hy
              exact hew
          | cons f l3 =>
            have hn : (f :: l3).length < n := by
              rw [← hlen]
              simp
            have hlast2 : ∃ z, (e :: f :: l3).getLast? = some z ∧ isWordUnit z = true := by
              obtain ⟨z, hz, hzw⟩ := hlast1
              rw [List.getLast?_cons_cons] at hz
              exact ⟨z, hz, hzw⟩
            exact spec_cons_block c d _ hc hdd
              (ih _ hn (f :: l3) rfl e hew (by simp) hlast2
                (fun x hx => hlt1 x (List.mem_cons_of_mem _ hx)) (noAdjacent_tail _ _ hadj1))

theorem shape_spec (l : JSString) (h : LocalPartShape l) : LocalPartSpec l := by
  obtain ⟨h1, ⟨c, hc, hcw⟩, h3, h4, h5⟩ := h
  cases l with
  | nil => simp at h1
  | cons a as =>
    simp only [List.head?_cons, Option.some.injEq] at hc
    subst hc
    have hne : as ≠ [] := by
      intro h
      rw [h] at h1
      simp at h1
    exact shape_spec_aux as.length as rfl a hcw hne h3 h4 h5

/-- C18: the local-part pattern accepts exactly the strings of at least two
code units whose first and last code units are word characters, that hold
no line terminator and in which no two adjacent code units are both outside
the word characters; so it rejects every one-unit string, `emailValidate`
rejects every address whose local part is one code unit, such as `a@ya.ru`,
and accepts `a!b@ya.ru` and `a b@ya.ru`. -/
theorem local_part_shape :
    (∀ l : JSString, emailPattern.test l = true ↔
      2 ≤ l.length ∧ (∃ c, l.head? = some c ∧ isWordUnit c = true) ∧
        (∃ c, l.getLast? = some c ∧ isWordUnit c = true) ∧
        (∀ c ∈ l, isLineTerminator c = false) ∧ noAdjacentNonWord l = true) ∧
    (∀ c : Nat, emailPattern.test [c] = false) ∧
    (∀ (v : JSString) (c : Nat) (domain : JSString),
      split 64 (trim v) = [[c], domain] → emailValidate.validate v = false) ∧
    emailValidate.validate (utf16 "a@ya.ru") = false ∧
    emailValidate.validate (utf16 "a!b@ya.ru") = true ∧
    emailValidate.validate (utf16 "a b@ya.ru") = true := by
  have key : ∀ l : JSString, emailPattern.test l = true ↔ LocalPartShape l := by
    intro l
    rw [emailPattern_test_iff]
    exact ⟨spec_shape l, shape_spec l⟩
  have one : ∀ c : Nat, emailPattern.test [c] = false := by
    intro c
    cases h : emailPattern.test [c] with
    | false => rfl
    | true =>
      have := ((key [c]).mp h).1
      simp at this
  refine ⟨key, one, ?_, by decide, by decide, by decide⟩
  intro v c domain hs
  simp only [emailValidate, hs]
  have e0 : [[c], domain].getD 0 [] = [c] := rfl
  simp only [e0, one c]
  simp

/-- The characterisation of C18 at the address `a@ya.ru`, whose local part
is one code unit, and at the local part `a!b`. -/
theorem local_part_shape_witness :
    split 64 (trim (utf16 "a@ya.ru")) = [[97], utf16 "ya.ru"] ∧
    emailValidate.validate (utf16 "a@ya.ru") = false ∧
    emailPattern.test (utf16 "a!b") = true :=
  ⟨by decide,
   local_part_shape.2.2.1 (utf16 "a@ya.ru") 97 (utf16 "ya.ru") (by decide),
   (local_part_shape.1 (utf16 "a!b")).mpr
     ⟨by decide, ⟨97, rfl, by decide⟩, ⟨98, rfl, by decide⟩, by decide, by decide⟩⟩

/-! ## The digit budget of a well-formed phone number -/

theorem trimStart_whitespace_append (ws s : JSString) (h : ∀ x ∈ ws, isTrimUnit x = true) :
    trimStart (ws ++ s) = trimStart s := by
  induction ws with
  | nil => rfl
  | cons a as ih =>
    have ha := h a (List.mem_cons_self _ _)
    simp only [List.cons_append, trimStart, ha, if_true]
    exact ih fun x hx => h x (List.mem_cons_of_mem _ hx)

theorem trimEnd_whitespace (ws : JSString) (h : ∀ x ∈ ws, isTrimUnit x = true) :
    trimEnd ws = [] := by
  induction ws with
  | nil => rfl
  | cons a as ih =>
    have ha := h a (List.mem_cons_self _ _)
    simp only [trimEnd, ih fun x hx => h x (List.mem_cons_of_mem _ hx), ha, if_true]

theorem trimEnd_cons (c : Nat) (cs : JSString) :
    trimEnd (c :: cs) =
      match trimEnd cs with
      | [] => if isTrimUnit c then [] else [c]
      | r :: rs => c :: r :: rs := rfl

theorem trimEnd_append_whitespace (s ws : JSString) (h : ∀ x ∈ ws, isTrimUnit x = true) :
    trimEnd (s ++ ws) = trimEnd s := by
  induction s with
  | nil => simpa [trimEnd] using trimEnd_whitespace ws h
  | cons a as ih => rw [List.cons_append, trimEnd_cons, trimEnd_cons, ih]

theorem trimEnd_of_last (s : JSString) (z : Nat) (hz : isTrimUnit z = false) :
    trimEnd (s ++ [z]) = s ++ [z] := by
  induction s with
  | nil => simp [trimEnd, hz]
  | cons a as ih =>
    rw [List.cons_append, trimEnd_cons, ih]
    cases as <;> rfl

theorem digit_not_trim (c : Nat) (h : isDigitUnit c = true) : isTrimUnit c = false := by
  simp only [isDigitUnit, Bool.and_eq_true, decide_eq_true_eq] at h
  simp only [isTrimUnit, Bool.or_eq_false_iff, Bool.and_eq_false_iff, beq_eq_false_iff_ne,
    decide_eq_false_iff_not]
  omega

theorem trim_not_digit (c : Nat) (h : isTrimUnit c = true) : isDigitUnit c = false := by
  cases hd : isDigitUnit c with
  | false => rfl
  | true =>
    rw [digit_not_trim c hd] at h
    cases h

/-- White space around a phone number is trimmed away. -/
theorem trim_phoneOf (before after : JSString) (a b c d e f g h i j : Nat)
    (hb : ∀ x ∈ before, isTrimUnit x = true) (ha : ∀ x ∈ after, isTrimUnit x = true)
    (hj : isDigitUnit j = true) :
    trim (before ++ phoneOf a b c d e f g h i j ++ after) = phoneOf a b c d e f g h i j := by
  have h43 : isTrimUnit 43 = false := by decide
  unfold trim
  rw [List.append_assoc, trimStart_whitespace_append _ _ hb]
  have hs : trimStart (phoneOf a b c d e f g h i j ++ after) =
      phoneOf a b c d e f g h i j ++ after := by
    simp [phoneOf, trimStart, h43]
  rw [hs, trimEnd_append_whitespace _ _ ha]
  exact trimEnd_of_last [43, 55, 40, a, b, c, 41, d, e, f, 45, g, h, 45, i] j
    (digit_not_trim j hj)

theorem digitSum_append (s t : JSString) : digitSum (s ++ t) = digitSum s + digitSum t := by
  simp [digitSum, List.filter_append]

theorem digitSum_whitespace (ws : JSString) (h : ∀ x ∈ ws, isTrimUnit x = true) :
    digitSum ws = 0 := by
  have : ws.filter isDigitUnit = [] := by
    rw [List.filter_eq_nil_iff]
    intro x hx
    simp [trim_not_digit x (h x hx)]
  simp [digitSum, this]

theorem digitSum_phoneOf (a b c d e f g h i j : Nat)
    (hd : isDigitUnit a = true ∧ isDigitUnit b = true ∧ isDigitUnit c = true ∧
      isDigitUnit d = true ∧ isDigitUnit e = true ∧ isDigitUnit f = true ∧
      isDigitUnit g = true ∧ isDigitUnit h = true ∧ isDigitUnit i = true ∧
      isDigitUnit j = true) :
    digitSum (phoneOf a b c d e f g h i j) =
      7 + ((a - 48) + (b - 48) + (c - 48) + (d - 48) + (e - 48) + (f - 48) + (g - 48) +
        (h - 48) + (i - 48) + (j - 48)) := by
  obtain ⟨h1, h2, h3, h4, h5, h6, h7, h8, h9, h10⟩ := hd
  have n43 : isDigitUnit 43 = false := by decide
  have n55 : isDigitUnit 55 = true := by decide
  have n40 : isDigitUnit 40 = false := by decide
  have n41 : isDigitUnit 41 = false := by decide
  have n45 : isDigitUnit 45 = false := by decide
  simp only [digitSum, phoneOf, List.filter_cons, n43, n55, n40, n41, n45, h1, h2, h3, h4, h5,
    h6, h7, h8, h9, h10, if_true, Bool.false_eq_true, if_false, List.filter_nil, List.map_cons,
    List.map_nil, List.sum_cons, List.sum_nil]
  omega

theorem phoneValidate_of_trim (v : JSString) (a b c d e f g h i j : Nat)
    (ht : trim v = phoneOf a b c d e f g h i j)
    (hd : isDigitUnit a = true ∧ isDigitUnit b = true ∧ isDigitUnit c = true ∧
      isDigitUnit d = true ∧ isDigitUnit e = true ∧ isDigitUnit f = true ∧
      isDigitUnit g = true ∧ isDigitUnit h = true ∧ isDigitUnit i = true ∧
      isDigitUnit j = true) :
    phoneValidate.validate v = true := by
  obtain ⟨h1, h2, h3, h4, h5, h6, h7, h8, h9, h10⟩ := hd
  have hform : isPhoneForm (phoneOf a b c d e f g h i j) = true := by
    simp [isPhoneForm, phoneOf, h1, h2, h3, h4, h5, h6, h7, h8, h9, h10]
  have := (test_unanchored_iff phonePattern.body (trim v)).mpr
    ⟨[], phoneOf a b c d e f g h i j, [], by simp [ht],
      (matches_phone_body_iff _).mpr hform⟩
  exact this

theorem phoneNumberSum_iff (v : JSString) :
    phoneNumberSum.validate v = true ↔ digitSum v ≤ 30 := by
  have h := foldl_sumStep v 0
  simp only [Nat.zero_add] at h
  simp only [phoneNumberSum, h]
  by_cases h30 : digitSum v ≤ 30
  · simp [h30]
  · simp [h30]

theorem passes_phoneValidate (v : JSString) :
    passes "phoneValidate" v = phoneValidate.validate v := rfl

theorem passes_phoneNumberSum (v : JSString) :
    passes "phoneNumberSum" v = phoneNumberSum.validate v := rfl

theorem fieldErrorOf_phone (v : JSString) (hv : phoneValidate.validate v = true) :
    fieldErrorOf config ("phone", v) =
      if digitSum v ≤ 30 then none
      else some { field := "phone", messages := [phoneNumberSum.errorMessage] } := by
  have hl : config.lookup "phone" = some (.many ["phoneValidate", "phoneNumberSum"]) := rfl
  have hm : messageOf "phoneNumberSum" = phoneNumberSum.errorMessage := rfl
  unfold fieldErrorOf
  simp only [hl, ConfigEntry.names, failedMessages, List.filter_cons, passes_phoneValidate, hv,
    passes_phoneNumberSum, Bool.not_true, Bool.false_eq_true, if_false, List.filter_nil]
  by_cases h30 : digitSum v ≤ 30
  · have := (phoneNumberSum_iff v).mpr h30
    simp [this, h30]
  · have : phoneNumberSum.validate v = false := by
      cases hp : phoneNumberSum.validate v with
      | false => rfl
      | true => exact absurd ((phoneNumberSum_iff v).mp hp) h30
    simp [this, h30, hm]

/-- C19: under the shipped configuration, in a snapshot none of whose field
names meets a member of `Object.prototype` (as the fields `fio`, `phone` and
`email` that `getData` reads), a phone value that is a
well-formed number `+7(XXX)XXX-XX-XX` between white space passes the format
check, and the phone field is free of errors exactly when its ten `X` digits
sum to at most 23, the leading `7` counting towards the limit of 30;
otherwise its only message is that of the digit sum.  So `+7(911)123-45-67`,
whose digits sum to 46, passes the format check and makes the form invalid
with that message alone. -/
theorem phone_digit_budget (self : Validator) (data : Snapshot) (before after : JSString)
    (a b c d e f g h i j : Nat)
    (hcfg : self.config = config) (hkeys : (data.map Prod.fst).Nodup)
    (hplain : ¬ MeetsPrototype self.config data)
    (hphone : data.lookup "phone" = some (before ++ phoneOf a b c d e f g h i j ++ after))
    (hb : ∀ x ∈ before, isTrimUnit x = true) (ha : ∀ x ∈ after, isTrimUnit x = true)
    (hd : isDigitUnit a = true ∧ isDigitUnit b = true ∧ isDigitUnit c = true ∧
      isDigitUnit d = true ∧ isDigitUnit e = true ∧ isDigitUnit f = true ∧
      isDigitUnit g = true ∧ isDigitUnit h = true ∧ isDigitUnit i = true ∧
      isDigitUnit j = true) :
    phoneValidate.validate (before ++ phoneOf a b c d e f g h i j ++ after) = true ∧
    (((self.validate data).1.getErrors.filter fun x => x.field == "phone") = [] ↔
      (a - 48) + (b - 48) + (c - 48) + (d - 48) + (e - 48) + (f - 48) + (g - 48) + (h - 48) +
        (i - 48) + (j - 48) ≤ 23) ∧
    (((self.validate data).1.getErrors.filter fun x => x.field == "phone") =
      if (a - 48) + (b - 48) + (c - 48) + (d - 48) + (e - 48) + (f - 48) + (g - 48) + (h - 48) +
        (i - 48) + (j - 48) ≤ 23 then []
      else [{ field := "phone", messages := [phoneNumberSum.errorMessage] }]) ∧
    (phoneValidate.validate (utf16 "+7(911)123-45-67") = true ∧
      digitSum (utf16 "+7(911)123-45-67") = 46 ∧
      heavyPhoneForm.validate.2 = .ok { isValid := false, errorFields := ["phone"] } ∧
      heavyPhoneForm.validate.1.validator.getErrors =
        [{ field := "phone",
           messages := ["Cумма всех цифр телефона не должна превышать 30"] }]) := by
  have hreg : Registered self.config := by
    rw [hcfg]
    unfold Registered
    decide
  have hv := phoneValidate_of_trim _ a b c d e f g h i j
    (trim_phoneOf before after a b c d e f g h i j hb ha hd.2.2.2.2.2.2.2.2.2) hd
  have hsum : digitSum (before ++ phoneOf a b c d e f g h i j ++ after) =
      7 + ((a - 48) + (b - 48) + (c - 48) + (d - 48) + (e - 48) + (f - 48) + (g - 48) +
        (h - 48) + (i - 48) + (j - 48)) := by
    rw [digitSum_append, digitSum_append, digitSum_whitespace _ hb, digitSum_whitespace _ ha,
      digitSum_phoneOf a b c d e f g h i j hd]
    omega
  obtain ⟨hm, _⟩ := validate_registered self data hreg hplain
  have hfilter : ((self.validate data).1.getErrors.filter fun x => x.field == "phone") =
      if (a - 48) + (b - 48) + (c - 48) + (d - 48) + (e - 48) + (f - 48) + (g - 48) + (h - 48) +
        (i - 48) + (j - 48) ≤ 23 then []
      else [{ field := "phone", messages := [phoneNumberSum.errorMessage] }] := by
    rw [getErrors_eq, hm, filter_field_expectedErrors self.config "phone" data hkeys, hphone,
      hcfg]
    simp only [fieldErrorOf_phone _ hv, hsum]
    by_cases hle : (a - 48) + (b - 48) + (c - 48) + (d - 48) + (e - 48) + (f - 48) + (g - 48) +
        (h - 48) + (i - 48) + (j - 48) ≤ 23
    · have h30 : 7 + ((a - 48) + (b - 48) + (c - 48) + (d - 48) + (e - 48) + (f - 48) +
          (g - 48) + (h - 48) + (i - 48) + (j - 48)) ≤ 30 := by omega
      simp only [h30, hle, if_true]
      rfl
    · have h30 : ¬ 7 + ((a - 48) + (b - 48) + (c - 48) + (d - 48) + (e - 48) + (f - 48) +
          (g - 48) + (h - 48) + (i - 48) + (j - 48)) ≤ 30 := by omega
      simp only [h30, hle, if_false]
      rfl
  refine ⟨hv, ?_, hfilter, by decide, by decide, by decide, by decide⟩
  rw [hfilter]
  by_cases hle : (a - 48) + (b - 48) + (c - 48) + (d - 48) + (e - 48) + (f - 48) + (g - 48) +
      (h - 48) + (i - 48) + (j - 48) ≤ 23
  · simp [hle]
  · simp [hle]

/-- The hypotheses of C19 hold of the number `+7(111)111-11-11` between two
spaces, in a snapshot of the three fields. -/
theorem phone_digit_budget_witness :
    ({ config := config, messages := [] } : Validator).config = config ∧
    (([("fio", utf16 "Иван Иванов Иванович"),
       ("phone", [32] ++ phoneOf 49 49 49 49 49 49 49 49 49 49 ++ [32])] : Snapshot).map
      Prod.fst).Nodup ∧
    ¬ MeetsPrototype config
      [("fio", utf16 "Иван Иванов Иванович"),
       ("phone", [32] ++ phoneOf 49 49 49 49 49 49 49 49 49 49 ++ [32])] ∧
    List.lookup "phone"
      ([("fio", utf16 "Иван Иванов Иванович"),
        ("phone", [32] ++ phoneOf 49 49 49 49 49 49 49 49 49 49 ++ [32])] : Snapshot) =
      some ([32] ++ phoneOf 49 49 49 49 49 49 49 49 49 49 ++ [32]) ∧
    (∀ x ∈ [32], isTrimUnit x = true) ∧
    phoneValidate.validate ([32] ++ phoneOf 49 49 49 49 49 49 49 49 49 49 ++ [32]) = true ∧
    (((Validator.validate { config := config, messages := [] }
        [("fio", utf16 "Иван Иванов Иванович"),
         ("phone", [32] ++ phoneOf 49 49 49 49 49 49 49 49 49 49 ++ [32])]).1.getErrors.filter
        fun x => x.field == "phone") = [] ↔
      (49 - 48) + (49 - 48) + (49 - 48) + (49 - 48) + (49 - 48) + (49 - 48) + (49 - 48) +
        (49 - 48) + (49 - 48) + (49 - 48) ≤ 23) :=
  ⟨rfl, by decide, by unfold MeetsPrototype; decide, by decide, by decide,
   (phone_digit_budget { config := config, messages := [] }
     [("fio", utf16 "Иван Иванов Иванович"),
      ("phone", [32] ++ phoneOf 49 49 49 49 49 49 49 49 49 49 ++ [32])]
     [32] [32] 49 49 49 49 49 49 49 49 49 49 rfl (by decide)
     (by unfold MeetsPrototype; decide) (by decide) (by decide) (by decide) (by decide)).1,
   (phone_digit_budget { config := config, messages := [] }
     [("fio", utf16 "Иван Иванов Иванович"),
      ("phone", [32] ++ phoneOf 49 49 49 49 49 49 49 49 49 49 ++ [32])]
     [32] [32] 49 49 49 49 49 49 49 49 49 49 rfl (by decide)
     (by unfold MeetsPrototype; decide) (by decide) (by decide) (by decide) (by decide)).2.1⟩

/-! ## The stored result after `validate` throws -/

/-- C20: when `validate(s)` throws the error of a check name without a
handler, the stored result is not kept from the earlier call: `s` splits at
the field whose configuration names the check without handler, and
`getErrors()` holds exactly the errors that `validate` gives for the fields
before it, none for the offending field, and `hasErrors()` tells whether
there are any. -/
theorem validate_failure_leaves_partial_result (self : Validator) (data : Snapshot)
    (e : String) (hkeys : (data.map Prod.fst).Nodup)
    (hfail : (self.validate data).2 = .error e) (hunknown : ∃ n, e = unknownCheck n) :
    ∃ before p after, data = before ++ p :: after ∧
      (∃ n, types.lookup n = none ∧ e = unknownCheck n ∧
        ∃ entry, self.config.lookup p.1 = some entry ∧ entry.truthy = true ∧
          n ∈ entry.names) ∧
      (Validator.validate { config := self.config, messages := [] } before).2 =
        .ok (!(self.validate data).1.hasErrors) ∧
      (self.validate data).1.getErrors =
        (Validator.validate { config := self.config, messages := [] } before).1.getErrors ∧
      (∀ x ∈ (self.validate data).1.getErrors, x.field ≠ p.1) := by
  obtain ⟨n0, hn0⟩ := hunknown
  rcases validate_partial self data e hfail with
    ⟨h1, _, _⟩ | ⟨before, p, after, h1, h2, h2b, h3, h4⟩
  · rw [hn0] at h1
    exact absurd h1 (unknownCheck_ne_guard n0)
  · have hp : ∃ n, types.lookup n = none ∧ e = unknownCheck n ∧
        ∃ entry, self.config.lookup p.1 = some entry ∧ entry.truthy = true ∧
          n ∈ entry.names := by
      rcases h3 with ⟨_, _, a3⟩ | ⟨entry, a1, a2, m, a3, a4, a5⟩
      · rw [hn0] at a3
        exact absurd a3 (unknownCheck_ne_notIterable n0)
      · rw [hn0] at a5
        obtain ⟨_, hm⟩ := thrownAt_eq_unknownCheck m n0 a5.symm
        subst hm
        exact ⟨m, a4, hn0, entry, a1, a2, a3⟩
    obtain ⟨c1, c2⟩ := validate_complete { config := self.config, messages := [] } before h2 h2b
    have hsame : (self.validate data).1.messages =
        (Validator.validate { config := self.config, messages := [] } before).1.messages := by
      rw [h4, c1]
    refine ⟨before, p, after, h1, hp, ?_, by rw [getErrors_eq, getErrors_eq, hsame], ?_⟩
    · rw [c2]
      simp only [Validator.hasErrors, hsame]
    · intro x hx hxp
      rw [getErrors_eq, hsame, ← getErrors_eq] at hx
      obtain ⟨v, hv⟩ := getErrors_field_mem _ before x hx
      rw [h1, List.map_append, List.map_cons, List.nodup_append] at hkeys
      have hin : x.field ∈ before.map Prod.fst := List.mem_map.mpr ⟨(x.field, v), hv, rfl⟩
      exact hkeys.2.2 hin (by rw [hxp]; exact List.mem_cons_self _ _)

/-- The hypotheses of C20 hold of a validator whose configuration names a
check without handler for the phone and that holds an earlier result. -/
theorem validate_failure_leaves_partial_result_witness :
    (invalidSnapshot.map Prod.fst).Nodup ∧
    (brokenValidator.validate invalidSnapshot).2 = .error (unknownCheck "noSuchCheck") ∧
    (brokenValidator.validate invalidSnapshot).1.getErrors =
      [{ field := "fio", messages := ["ФИО должно состоять из трех слов"] }] ∧
    ∃ before p after, invalidSnapshot = before ++ p :: after ∧
      (∃ n, types.lookup n = none ∧ unknownCheck "noSuchCheck" = unknownCheck n ∧
        ∃ entry, brokenValidator.config.lookup p.1 = some entry ∧ entry.truthy = true ∧
          n ∈ entry.names) ∧
      (Validator.validate { config := brokenValidator.config, messages := [] } before).2 =
        .ok (!(brokenValidator.validate invalidSnapshot).1.hasErrors) ∧
      (brokenValidator.validate invalidSnapshot).1.getErrors =
        (Validator.validate { config := brokenValidator.config, messages := [] }
          before).1.getErrors ∧
      (∀ x ∈ (brokenValidator.validate invalidSnapshot).1.getErrors, x.field ≠ p.1) :=
  ⟨by decide, by decide, by decide,
   validate_failure_leaves_partial_result brokenValidator invalidSnapshot
     (unknownCheck "noSuchCheck") (by decide) (by decide) ⟨"noSuchCheck", rfl⟩⟩

/-! ## What a caller reaches through the values `getErrors` returns -/

theorem readErrors_congr (h1 h2 : Heap) (s : Nat)
    (hs : h2.sequences s = h1.sequences s)
    (ho : ∀ o ∈ h1.sequences s, h2.objects o = h1.objects o)
    (ha : ∀ o ∈ h1.sequences s,
      h2.arrays (h1.objects o).messages = h1.arrays (h1.objects o).messages) :
    h2.readErrors s = h1.readErrors s := by
  unfold Heap.readErrors
  rw [hs]
  apply List.map_congr_left
  intro o ho1
  rw [ho o ho1, ha o ho1]

theorem stored_mono (h1 h2 : Heap) (s : Nat) (hst : h1.Stored s) (hn : h1.next ≤ h2.next)
    (hs : h2.sequences s = h1.sequences s)
    (ho : ∀ o, o < h1.next → h2.objects o = h1.objects o) : h2.Stored s := by
  obtain ⟨a, b, c⟩ := hst
  refine ⟨lt_of_lt_of_le a hn, ?_, ?_⟩
  · intro o hoin
    rw [hs] at hoin
    rw [ho o (b o hoin).1]
    exact ⟨lt_of_lt_of_le (b o hoin).1 hn, lt_of_lt_of_le (b o hoin).2 hn⟩
  · rw [hs]
    have hm : (h1.sequences s).map (fun o => (h2.objects o).messages) =
        (h1.sequences s).map (fun o => (h1.objects o).messages) :=
      List.map_congr_left (fun o hoin => by rw [ho o (b o hoin).1])
    rw [hm]
    exact c

/-- Storing one more entry keeps the stored array well formed and appends the
entry to what a reader sees. -/
theorem store_stored (heap : Heap) (s : Nat) (i : String) (errors : List String)
    (hst : heap.Stored s) :
    (((heap.newArray errors).newObject { field := i, messages := heap.next }).push
        s (heap.next + 1)).Stored s ∧
    (((heap.newArray errors).newObject { field := i, messages := heap.next }).push
        s (heap.next + 1)).readErrors s =
      heap.readErrors s ++ [{ field := i, messages := errors }] := by
  obtain ⟨a, b, c⟩ := hst
  have hobj : ∀ o ∈ heap.sequences s, o ≠ heap.next + 1 := by
    intro o ho
    have := (b o ho).1
    omega
  have harr : ∀ o ∈ heap.sequences s, (heap.objects o).messages ≠ heap.next := by
    intro o ho
    have := (b o ho).2
    omega
  refine ⟨⟨?_, ?_, ?_⟩, ?_⟩
  · simp only [Heap.push, Heap.newObject, Heap.newArray]
    omega
  · intro o ho
    simp only [Heap.push, Heap.newObject, Heap.newArray, if_true, List.mem_append,
      List.mem_singleton] at ho ⊢
    rcases ho with ho | rfl
    · rw [if_neg (hobj o ho)]
      have := b o ho
      omega
    · simp only [if_true]
      omega
  · simp only [Heap.push, Heap.newObject, Heap.newArray, if_true, List.map_append, List.map_cons,
      List.map_nil]
    have hm : (heap.sequences s).map (fun o =>
        (if o = heap.next + 1 then ({ field := i, messages := heap.next } : FieldErrorObject)
          else heap.objects o).messages) =
        (heap.sequences s).map (fun o => (heap.objects o).messages) :=
      List.map_congr_left (fun o ho => by rw [if_neg (hobj o ho)])
    rw [hm, List.nodup_append]
    refine ⟨c, List.nodup_singleton _, ?_⟩
    intro x hx hx2
    simp only [List.mem_singleton] at hx2
    obtain ⟨o, ho, rfl⟩ := List.mem_map.mp hx
    have := (b o ho).2
    omega
  · simp only [Heap.readErrors, Heap.push, Heap.newObject, Heap.newArray, if_true,
      List.map_append, List.map_cons, List.map_nil]
    congr 1
    apply List.map_congr_left
    intro o ho
    rw [if_neg (hobj o ho), if_neg (harr o ho)]

/-- The loop over objects kept by reference stores what the loop over values
stores, and ends the same way. -/
theorem fieldLoopRef_spec (config : Config) (s : Nat) :
    ∀ (data : Snapshot) (heap : Heap), heap.Stored s →
      (fieldLoopRef config s data heap).1.Stored s ∧
      (fieldLoopRef config s data heap).1.readErrors s =
        (fieldLoop config data (heap.readErrors s)).1 ∧
      (fieldLoopRef config s data heap).2 = (fieldLoop config data (heap.readErrors s)).2 := by
  intro data
  induction data with
  | nil =>
    intro heap hst
    exact ⟨hst, rfl, rfl⟩
  | cons q rest ih =>
    intro heap hst
    obtain ⟨i, value⟩ := q
    cases hl : config.lookup i with
    | none =>
      by_cases hi : inherited i = true
      · simp only [fieldLoopRef, fieldLoop, hl, hi, if_true]
        refine ⟨hst, ?_, ?_⟩ <;> first | rfl | trivial
      · simp only [fieldLoopRef, fieldLoop, hl, hi, Bool.false_eq_true, if_false]
        exact ih heap hst
    | some entry =>
      by_cases ht : entry.truthy = true
      · cases hc : checkLoop value entry.names [] with
        | error e =>
          simp only [fieldLoopRef, fieldLoop, hl, ht, hc, Bool.not_true, Bool.false_eq_true,
            if_false]
          refine ⟨hst, ?_, ?_⟩ <;> first | rfl | trivial
        | ok errors =>
          by_cases hlen : (errors.length != 0) = true
          · simp only [fieldLoopRef, fieldLoop, hl, ht, hc, hlen, Bool.not_true,
              Bool.false_eq_true, if_false, if_true]
            obtain ⟨h1, h2⟩ := store_stored heap s i errors hst
            have := ih _ h1
            rw [h2] at this
            exact this
          · simp only [fieldLoopRef, fieldLoop, hl, ht, hc, hlen, Bool.not_true,
              Bool.false_eq_true, if_false]
            exact ih heap hst
      · simp only [Bool.not_eq_true] at ht
        simp only [fieldLoopRef, fieldLoop, hl, ht, Bool.not_false, if_true]
        exact ih heap hst

/-- The copies are new objects with the property values of the stored ones;
nothing else changes. -/
theorem copyLoop_spec :
    ∀ (os : List Nat) (heap : Heap), (∀ o ∈ os, o < heap.next) →
      (copyLoop os heap).1.arrays = heap.arrays ∧
      (copyLoop os heap).1.sequences = heap.sequences ∧
      heap.next ≤ (copyLoop os heap).1.next ∧
      (∀ x, x < heap.next → (copyLoop os heap).1.objects x = heap.objects x) ∧
      (copyLoop os heap).2.map (copyLoop os heap).1.objects = os.map heap.objects ∧
      (∀ c ∈ (copyLoop os heap).2, heap.next ≤ c ∧ c < (copyLoop os heap).1.next) := by
  intro os
  induction os with
  | nil =>
    intro heap _
    refine ⟨rfl, rfl, le_refl _, fun _ _ => rfl, rfl, ?_⟩
    intro c hc
    cases hc
  | cons o rest ih =>
    intro heap hos
    have hrest : ∀ x ∈ rest, x < (heap.newObject (heap.objects o)).next := by
      intro x hx
      have := hos x (List.mem_cons_of_mem _ hx)
      simp only [Heap.newObject]
      omega
    obtain ⟨a1, a2, a3, a4, a5, a6⟩ := ih (heap.newObject (heap.objects o)) hrest
    have hnext : (heap.newObject (heap.objects o)).next = heap.next + 1 := rfl
    have hold : ∀ x, x < heap.next →
        (heap.newObject (heap.objects o)).objects x = heap.objects x := by
      intro x hx
      have hne : x ≠ heap.next := by omega
      simp only [Heap.newObject]
      rw [if_neg hne]
    have hres : copyLoop (o :: rest) heap =
        ((copyLoop rest (heap.newObject (heap.objects o))).1,
          heap.next :: (copyLoop rest (heap.newObject (heap.objects o))).2) := rfl
    rw [hres]
    dsimp only
    refine ⟨a1, a2, by omega, ?_, ?_, ?_⟩
    · intro x hx
      rw [a4 x (by omega), hold x hx]
    · simp only [List.map_cons]
      rw [a5, a4 heap.next (by omega)]
      congr 1
      · simp [Heap.newObject]
      · apply List.map_congr_left
        intro x hx
        exact hold x (hos x (List.mem_cons_of_mem _ hx))
    · intro c hc
      rcases List.mem_cons.mp hc with rfl | hc
      · exact ⟨le_refl _, by omega⟩
      · have := a6 c hc
        omega

/-- The heap after `getErrors()`: the returned array is new, its entries are
new objects with the property values of the stored ones, and nothing that
existed has changed. -/
theorem getErrors_spec (self : HeapValidator) (heap : Heap)
    (hst : heap.Stored self.messages) :
    (self.getErrors heap).1.arrays = heap.arrays ∧
    (self.getErrors heap).1.next = (self.getErrors heap).2 + 1 ∧
    heap.next ≤ (self.getErrors heap).2 ∧
    (∀ r, r ≠ (self.getErrors heap).2 →
      (self.getErrors heap).1.sequences r = heap.sequences r) ∧
    (∀ x, x < heap.next → (self.getErrors heap).1.objects x = heap.objects x) ∧
    ((self.getErrors heap).1.sequences (self.getErrors heap).2).map
        (self.getErrors heap).1.objects =
      (heap.sequences self.messages).map heap.objects ∧
    (∀ c ∈ (self.getErrors heap).1.sequences (self.getErrors heap).2, heap.next ≤ c) := by
  obtain ⟨_, b, _⟩ := hst
  obtain ⟨a1, a2, a3, a4, a5, a6⟩ :=
    copyLoop_spec (heap.sequences self.messages) heap (fun o ho => (b o ho).1)
  have hg : self.getErrors heap =
      ((copyLoop (heap.sequences self.messages) heap).1.newSequence
        (copyLoop (heap.sequences self.messages) heap).2,
       (copyLoop (heap.sequences self.messages) heap).1.next) := rfl
  rw [hg]
  generalize copyLoop (heap.sequences self.messages) heap = r at a1 a2 a3 a4 a5 a6
  dsimp only [Heap.newSequence]
  refine ⟨a1, rfl, a3, ?_, a4, ?_, ?_⟩
  · intro x hx
    rw [if_neg hx, a2]
  · rw [if_pos rfl]
    exact a5
  · rw [if_pos rfl]
    intro c hc
    exact (a6 c hc).1

theorem map_read (arrays : Nat → List String) (f : Nat → FieldErrorObject) (l : List Nat) :
    l.map (fun o => ({ field := (f o).field, messages := arrays (f o).messages } : FieldError)) =
      (l.map f).map (fun ob => { field := ob.field, messages := arrays ob.messages }) := by
  rw [List.map_map]
  rfl

/-- Without a mutation in between, `getErrors()` reports the stored result. -/
theorem report_eq (self : HeapValidator) (heap : Heap) (hst : heap.Stored self.messages) :
    self.report heap = heap.readErrors self.messages := by
  obtain ⟨g1, _, _, _, _, g6, _⟩ := getErrors_spec self heap hst
  unfold HeapValidator.report Heap.readErrors
  rw [g1, map_read, map_read, g6]

/-- What `getErrors()` reports on a heap that agrees with `h1` on the stored
array and the stored objects. -/
theorem report_after (self : HeapValidator) (h1 h3 : Heap) (hst : h1.Stored self.messages)
    (hn : h1.next ≤ h3.next) (hs : h3.sequences self.messages = h1.sequences self.messages)
    (ho : ∀ o, o < h1.next → h3.objects o = h1.objects o) :
    self.report h3 = (h1.sequences self.messages).map fun o =>
      { field := (h1.objects o).field, messages := h3.arrays (h1.objects o).messages } := by
  rw [report_eq self h3 (stored_mono h1 h3 self.messages hst hn hs ho)]
  unfold Heap.readErrors
  rw [hs]
  apply List.map_congr_left
  intro o hoin
  rw [ho o (hst.2.1 o hoin).1]

/-- The statements of `validate` up to the end of the loop, over objects kept
by reference, store what they store over values and end the same way. -/
theorem validateLoopRef_spec (config : Config) (data : Snapshot) (heap : Heap) :
    (validateLoopRef config data heap).1.Stored heap.next ∧
    (validateLoopRef config data heap).1.readErrors heap.next = (validateLoop config data).1 ∧
    (validateLoopRef config data heap).2 = (validateLoop config data).2 := by
  have hs0 : (heap.newSequence []).Stored heap.next := by
    refine ⟨by simp [Heap.newSequence], ?_, ?_⟩
    · intro o ho
      simp [Heap.newSequence] at ho
    · simp [Heap.newSequence]
  have hr0 : (heap.newSequence []).readErrors heap.next = [] := by
    simp [Heap.readErrors, Heap.newSequence]
  unfold validateLoopRef validateLoop
  cases hany : (data.any fun p => p.1 == "hasOwnProperty") with
  | true =>
    simp only [if_true]
    exact ⟨hs0, hr0, by trivial⟩
  | false =>
    simp only [Bool.false_eq_true, if_false]
    have h := fieldLoopRef_spec config heap.next data _ hs0
    rw [hr0] at h
    exact h

/-- The method `validate` over objects kept by reference stores and returns
what the method over values does. -/
theorem heap_validate_spec (self : HeapValidator) (data : Snapshot) (heap : Heap) :
    (self.validate data heap).2.1.messages = heap.next ∧
    (self.validate data heap).1.Stored heap.next ∧
    (self.validate data heap).1.readErrors heap.next =
      (Validator.validate { config := self.config, messages := [] } data).1.getErrors ∧
    (self.validate data heap).2.2 =
      (Validator.validate { config := self.config, messages := [] } data).2 := by
  obtain ⟨s1, s2, s3⟩ := validateLoopRef_spec self.config data heap
  have hlen : ((validateLoopRef self.config data heap).1.sequences heap.next).length =
      (validateLoop self.config data).1.length := by
    rw [← s2]
    simp [Heap.readErrors]
  rw [getErrors_eq]
  unfold HeapValidator.validate Validator.validate
  dsimp only
  generalize validateLoopRef self.config data heap = r at s1 s2 s3 hlen
  generalize validateLoop self.config data = r1 at s2 s3 hlen
  obtain ⟨rh, ro⟩ := r
  obtain ⟨rm, ro1⟩ := r1
  dsimp only at s1 s2 s3 hlen
  subst s3
  cases ro with
  | error e => exact ⟨rfl, s1, s2, rfl⟩
  | ok u =>
    refine ⟨rfl, s1, s2, ?_⟩
    simp only [HeapValidator.hasErrors, Validator.hasErrors, hlen]

/-- A mutation on the returned array or on one of its entries leaves the
stored array and the stored objects as they are; one that does not go through
`messages` leaves the arrays of messages as they are. -/
theorem mutate_frame (h1 h2 : Heap) (s0 s : Nat) (mu : Mutation) (hon : mu.On h2 s)
    (hs0 : s0 ≠ s) (hent : ∀ c ∈ h2.sequences s, h1.next ≤ c) :
    (h2.mutate mu).next = h2.next ∧
    (h2.mutate mu).sequences s0 = h2.sequences s0 ∧
    (∀ o, o < h1.next → (h2.mutate mu).objects o = h2.objects o) ∧
    (mu.throughMessages = false → (h2.mutate mu).arrays = h2.arrays) := by
  cases mu with
  | setField e name =>
    refine ⟨rfl, rfl, ?_, fun _ => rfl⟩
    intro o ho
    have := hent e hon
    have hne : o ≠ e := by omega
    simp only [Heap.mutate]
    rw [if_neg hne]
  | setMessages e a =>
    refine ⟨rfl, rfl, ?_, fun _ => rfl⟩
    intro o ho
    have := hent e hon
    have hne : o ≠ e := by omega
    simp only [Heap.mutate]
    rw [if_neg hne]
  | pushMessage e m =>
    refine ⟨rfl, rfl, fun _ _ => rfl, ?_⟩
    intro h
    cases h
  | popMessage e =>
    refine ⟨rfl, rfl, fun _ _ => rfl, ?_⟩
    intro h
    cases h
  | putMessage e k m =>
    refine ⟨rfl, rfl, fun _ _ => rfl, ?_⟩
    intro h
    cases h
  | pushEntry t o =>
    have ht : t = s := hon
    subst ht
    refine ⟨rfl, ?_, fun _ _ => rfl, fun _ => rfl⟩
    simp only [Heap.mutate, Heap.push]
    rw [if_neg hs0]
  | popEntry t =>
    have ht : t = s := hon
    subst ht
    refine ⟨rfl, ?_, fun _ _ => rfl, fun _ => rfl⟩
    simp only [Heap.mutate]
    rw [if_neg hs0]

/-- What `getErrors()` reports after the array that the `messages` of the
first returned object references has been changed. -/
theorem report_after_update (self : HeapValidator) (h1 h2 : Heap) (e o0 : Nat)
    (orest : List Nat) (f : List String → List String) (hst : h1.Stored self.messages)
    (hn : h1.next ≤ h2.next) (hs : h2.sequences self.messages = h1.sequences self.messages)
    (ho : ∀ o, o < h1.next → h2.objects o = h1.objects o)
    (ha : h2.arrays = h1.arrays)
    (hos : h1.sequences self.messages = o0 :: orest)
    (he : h2.objects e = h1.objects o0) :
    self.report (h2.updateMessages e f) =
      { field := (h1.objects o0).field, messages := f (h1.arrays (h1.objects o0).messages) } ::
        orest.map fun o =>
          { field := (h1.objects o).field, messages := h1.arrays (h1.objects o).messages } := by
  rw [report_after self h1 (h2.updateMessages e f) hst hn hs ho, hos]
  have hnd := hst.2.2
  rw [hos, List.map_cons, List.nodup_cons] at hnd
  simp only [Heap.updateMessages, List.map_cons, he, ha, if_true]
  congr 1
  apply List.map_congr_left
  intro o hoin
  have hne : (h1.objects o).messages ≠ (h1.objects o0).messages := by
    intro h
    apply hnd.1
    rw [← h]
    exact List.mem_map.mpr ⟨o, hoin, rfl⟩
  rw [if_neg hne]

/-- C16: `getErrors()` copies one level only.  After `validate(data)` has
stored errors, mutations of the array that `getErrors()` returned and of the
properties `field` and `messages` of a returned object change neither what a
later `getErrors()` reports nor `hasErrors()`; but the array that the
`messages` of a returned object references is the stored one, so adding to,
removing from or replacing an entry of the `messages` of the first returned
object changes what a later `getErrors()` reports for that field. -/
theorem getErrors_shares_messages (self : HeapValidator) (data : Snapshot) (heap h1 h2 : Heap)
    (v1 : HeapValidator) (res : Except String Bool) (s : Nat)
    (hval : self.validate data heap = (h1, v1, res))
    (hget : v1.getErrors h1 = (h2, s))
    (herr : v1.hasErrors h1 = true) :
    res = (Validator.validate { config := self.config, messages := [] } data).2 ∧
    ∃ e rest first others,
      h2.sequences s = e :: rest ∧
      h2.readErrors s = first :: others ∧
      (Validator.validate { config := self.config, messages := [] } data).1.getErrors =
        first :: others ∧
      (∀ mu : Mutation, mu.On h2 s →
        v1.hasErrors (h2.mutate mu) = true ∧
        (mu.throughMessages = false → v1.report (h2.mutate mu) = first :: others)) ∧
      (∀ m, v1.report (h2.mutate (.pushMessage e m)) =
        { first with messages := first.messages ++ [m] } :: others) ∧
      v1.report (h2.mutate (.popMessage e)) =
        { first with messages := first.messages.dropLast } :: others ∧
      (∀ k m, v1.report (h2.mutate (.putMessage e k m)) =
        { first with messages := first.messages.set k m } :: others) ∧
      (∀ m, v1.report (h2.mutate (.pushMessage e m)) ≠ h2.readErrors s) := by
  obtain ⟨c2, c3, c4, c5⟩ := heap_validate_spec self data heap
  rw [hval] at c2 c3 c4 c5
  dsimp only at c2 c3 c4 c5
  rw [← c2] at c3 c4
  obtain ⟨g1, g2, g3, g4, g5, g6, g7⟩ := getErrors_spec v1 h1 c3
  have hrep := report_eq v1 h1 c3
  unfold HeapValidator.report at hrep
  rw [hget] at g1 g2 g3 g4 g5 g6 g7 hrep
  dsimp only at g1 g2 g3 g4 g5 g6 g7 hrep
  have hs0 : v1.messages ≠ s := by
    have := c3.1
    omega
  have hn : h1.next ≤ h2.next := by omega
  have hseq : h2.sequences v1.messages = h1.sequences v1.messages := g4 _ hs0
  cases hos : h1.sequences v1.messages with
  | nil => simp [HeapValidator.hasErrors, hos] at herr
  | cons o0 orest =>
    rw [hos] at g6
    cases hcs : h2.sequences s with
    | nil =>
      rw [hcs] at g6
      cases g6
    | cons e rest =>
      rw [hcs] at g6
      simp only [List.map_cons, List.cons.injEq] at g6
      have hread : h1.readErrors v1.messages =
          { field := (h1.objects o0).field, messages := h1.arrays (h1.objects o0).messages } ::
            orest.map fun o =>
              { field := (h1.objects o).field,
                messages := h1.arrays (h1.objects o).messages } := by
        simp only [Heap.readErrors, hos, List.map_cons]
      have hpush : ∀ m, v1.report (h2.mutate (.pushMessage e m)) =
          { field := (h1.objects o0).field,
            messages := h1.arrays (h1.objects o0).messages ++ [m] } ::
            orest.map fun o =>
              { field := (h1.objects o).field,
                messages := h1.arrays (h1.objects o).messages } := fun m =>
        report_after_update v1 h1 h2 e o0 orest (fun l => l ++ [m]) c3 hn hseq g5 g1 hos g6.1
      refine ⟨c5, e, rest, _, _, rfl, hrep.trans hread, c4.symm.trans hread, ?_, hpush,
        report_after_update v1 h1 h2 e o0 orest (fun l => l.dropLast) c3 hn hseq g5 g1 hos g6.1,
        fun k m =>
          report_after_update v1 h1 h2 e o0 orest (fun l => l.set k m) c3 hn hseq g5 g1 hos
            g6.1, ?_⟩
      · intro mu hon
        have hent : ∀ c ∈ h2.sequences s, h1.next ≤ c := g7
        obtain ⟨f1, f2, f3, f4⟩ := mutate_frame h1 h2 v1.messages s mu hon hs0 hent
        constructor
        · simp only [HeapValidator.hasErrors, f2, hseq]
          exact herr
        · intro hthrough
          rw [report_after v1 h1 (h2.mutate mu) c3 (by rw [f1]; exact hn) (by rw [f2, hseq])
            (fun o ho => by rw [f3 o ho, g5 o ho]), f4 hthrough, g1, ← hread]
          rfl
      · intro m h
        rw [hpush m, hrep, hread] at h
        simp only [List.cons.injEq, FieldError.mk.injEq, true_and, and_true] at h
        have := congrArg List.length h
        simp at this

/-- The hypotheses of C16 hold of the shipped configuration and a snapshot
whose name and phone number fail: after `getErrors()[0].messages.push("x")` a
later `getErrors()` reports the added message for `fio`. -/
theorem getErrors_shares_messages_witness :
    (shippedHeapValidator.validate invalidSnapshot Heap.empty).2.1.hasErrors
        (shippedHeapValidator.validate invalidSnapshot Heap.empty).1 = true ∧
    ((shippedHeapValidator.validate invalidSnapshot Heap.empty).2.1.getErrors
        (shippedHeapValidator.validate invalidSnapshot Heap.empty).1).2 = 7 ∧
    ((shippedHeapValidator.validate invalidSnapshot Heap.empty).2.1.getErrors
        (shippedHeapValidator.validate invalidSnapshot Heap.empty).1).1.sequences 7 = [5, 6] ∧
    (shippedHeapValidator.validate invalidSnapshot Heap.empty).2.1.report
        (shippedHeapValidator.validate invalidSnapshot Heap.empty).1 =
      [{ field := "fio", messages := ["ФИО должно состоять из трех слов"] },
       { field := "phone",
         messages := ["Неверный формат", "Cумма всех цифр телефона не должна превышать 30"] }] ∧
    (shippedHeapValidator.validate invalidSnapshot Heap.empty).2.1.report
        ((((shippedHeapValidator.validate invalidSnapshot Heap.empty).2.1.getErrors
          (shippedHeapValidator.validate invalidSnapshot Heap.empty).1).1).mutate
            (.pushMessage 5 "x")) =
      [{ field := "fio", messages := ["ФИО должно состоять из трех слов", "x"] },
       { field := "phone",
         messages := ["Неверный формат", "Cумма всех цифр телефона не должна превышать 30"] }] ∧
    ((shippedHeapValidator.validate invalidSnapshot Heap.empty).2.2 =
        (Validator.validate { config := shippedHeapValidator.config, messages := [] }
          invalidSnapshot).2 ∧
      ∃ e rest first others,
        ((shippedHeapValidator.validate invalidSnapshot Heap.empty).2.1.getErrors
          (shippedHeapValidator.validate invalidSnapshot Heap.empty).1).1.sequences 7 =
            e :: rest ∧
        ((shippedHeapValidator.validate invalidSnapshot Heap.empty).2.1.getErrors
          (shippedHeapValidator.validate invalidSnapshot Heap.empty).1).1.readErrors 7 =
            first :: others ∧
        (Validator.validate { config := shippedHeapValidator.config, messages := [] }
          invalidSnapshot).1.getErrors = first :: others) := by
  refine ⟨by decide, by decide, by decide, by decide, by decide, ?_⟩
  obtain ⟨h, e, rest, first, others, a, b, c, _⟩ :=
    getErrors_shares_messages shippedHeapValidator invalidSnapshot Heap.empty
      (shippedHeapValidator.validate invalidSnapshot Heap.empty).1
      ((shippedHeapValidator.validate invalidSnapshot Heap.empty).2.1.getErrors
        (shippedHeapValidator.validate invalidSnapshot Heap.empty).1).1
      (shippedHeapValidator.validate invalidSnapshot Heap.empty).2.1
      (shippedHeapValidator.validate invalidSnapshot Heap.empty).2.2 7 rfl rfl (by decide)
  exact ⟨h, e, rest, first, others, a, b, c⟩

end MyForm
